import Mathlib

/-!
# The OBJ_NAME registry of `crypto/objects/o_names.c`

A shallow embedding of the named-object registry: the process-wide variables
`names_lh`, `names_type_num`, `name_funcs_stack` and `free_type` become the
fields of one record that every operation takes and returns.

Conventions of the embedding.

* A C string is a `String`; `strcmp` compares the characters in order. The
  names and the data of entries are strings, not null pointers; the name that
  `OBJ_NAME_get` is called with may be the null pointer, which it tests for.
* The type `int` is `Int`. The arithmetic of the file stays in range, but for
  the increment of the counter, which is undefined at `INT_MAX`.
* An operation whose C execution is undefined (a call through a null function
  pointer, a dereference of the null pointer that `sk_value` returns for an
  index out of range, signed overflow of the type counter) has result `none`.
* The outcome of every allocation request is an input, the record `Mem`.
* A free function is identified by a number, and each call of one is appended
  to the ghost field `calls` of the registry.
-/

namespace ONames

/-! ## Constants and records -/

/-- Modelled from the spec: the number of built-in kinds, a constant of
`objects.h`, which is not among the sources; dynamically registered kinds get
the ids from this value on. The spec gives no value: 5 is the one of the
header, and the proofs use of it only that it is positive. -/
def OBJ_NAME_TYPE_NUM : Int := 0x05

/-- Modelled from the spec: the alias bit of a type argument, a constant of
`objects.h`, which is not among the sources. The spec gives no value: 0x8000
is the one of the header, and the proofs use of it only that it is not 0. -/
def OBJ_NAME_ALIAS : Int := 0x8000

/-- The largest value of the C type `int`. -/
def INT_MAX : Int := 2147483647

/-- The record `OBJ_NAME` (`struct obj_name_st`); the field `alias` is written
`alias_`. -/
structure OBJ_NAME where
  type : Int
  alias_ : Int
  name : String
  data : String
deriving DecidableEq, Repr

/-- The record `NAME_FUNCS` (`struct name_funcs_st`); `free_func = none` is the
null function pointer. -/
structure NAME_FUNCS where
  hash_func : String → Nat
  cmp_func : String → String → Int
  free_func : Option Nat

/-- One call `free_func(name, type, data)` of the free function number `fn`. -/
structure FreeCall where
  fn : Nat
  name : String
  type : Int
  data : String
deriving DecidableEq, Repr

/-- Modelled from the spec: the hash table `LHASH_OF(OBJ_NAME)`, an opaque
container of entries that supports insert, delete, lookup and iteration. The
entries are kept in iteration order; `down_load` is the rehash trigger that
`OBJ_NAME_cleanup` saves and restores, `error` the failure flag of the last
insertion. -/
structure LHASH where
  items : List OBJ_NAME
  down_load : Nat
  error : Nat
deriving DecidableEq, Repr

/-- The outcome of the allocation requests of one operation: `true` is a
successful allocation. `zalloc i` is the allocation of the handler record in
the pass `i` of the loop of `OBJ_NAME_new_index` and `sk_push i` the growth of
the handler list in the push of that pass, `malloc` the `OPENSSL_malloc` of
`OBJ_NAME_add` and of `OBJ_NAME_do_all_sorted`, `lh_insert` the allocation of
a table node for a key that is not yet present. -/
structure Mem where
  lh_new : Bool
  sk_new : Bool
  zalloc : Nat → Bool
  sk_push : Nat → Bool
  malloc : Bool
  lh_insert : Bool

/-- The process-wide state of `o_names.c`, with the ghost log `calls` of the
free-function calls made so far. -/
structure Registry where
  names_lh : Option LHASH
  names_type_num : Int
  name_funcs_stack : Option (List NAME_FUNCS)
  free_type : Int
  calls : List FreeCall

/-- The state of a freshly loaded program: the static initialisers. -/
def Registry.initial : Registry :=
  { names_lh := none, names_type_num := OBJ_NAME_TYPE_NUM, name_funcs_stack := none,
    free_type := 0, calls := [] }

/-! ## Library functions the file calls -/

/-- Comparison of two character sequences, the body of `strcmp`. -/
def strcmp_chars : List Char → List Char → Int
  | [], [] => 0
  | [], _ :: _ => -1
  | _ :: _, [] => 1
  | a :: as, b :: bs =>
    if a = b then strcmp_chars as bs else (a.toNat : Int) - (b.toNat : Int)

/-- The C library function `strcmp`. -/
def strcmp (a b : String) : Int := strcmp_chars a.toList b.toList

/-- Modelled from the spec: `sk_NAME_FUNCS_num`, the length of the handler
list. -/
def sk_NAME_FUNCS_num (st : List NAME_FUNCS) : Int := st.length

/-- Modelled from the spec: `sk_NAME_FUNCS_value`, the element at an index, and
the null pointer (`none`) for an index out of range. -/
def sk_NAME_FUNCS_value (st : List NAME_FUNCS) (i : Int) : Option NAME_FUNCS :=
  if i < 0 then none else st.get? i.toNat

/-- Modelled from the spec: `sk_NAME_FUNCS_push`, which appends the record to
the handler list; when the list cannot grow (`ok = false`) it returns 0 and
leaves the list as it was. -/
def sk_NAME_FUNCS_push (ok : Bool) (st : List NAME_FUNCS) (data : NAME_FUNCS) :
    List NAME_FUNCS :=
  if ok then st ++ [data] else st

/-- Modelled from the spec: the default rehash trigger of a new table; no
operation of the registry depends on its value. -/
def DOWN_LOAD : Nat := 256

/-- Modelled from the spec: `lh_OBJ_NAME_new`, an empty table, or the null
pointer when the allocation fails. -/
def lh_OBJ_NAME_new (m : Mem) : Option LHASH :=
  if m.lh_new then some { items := [], down_load := DOWN_LOAD, error := 0 } else none

/-- Modelled from the spec: the search of the table for the first stored
entry on which the comparison returns 0. -/
def lh_getrn (comp : OBJ_NAME → Option Int) : List OBJ_NAME → Option (Option OBJ_NAME)
  | [] => some none
  | e :: es =>
    match comp e with
    | none => none
    | some c => if c = 0 then some (some e) else lh_getrn comp es

/-- Modelled from the spec: the table without the first stored entry on which
the comparison returns 0, and that entry. -/
def lh_unlink (comp : OBJ_NAME → Option Int) :
    List OBJ_NAME → Option (List OBJ_NAME × Option OBJ_NAME)
  | [] => some ([], none)
  | e :: es =>
    match comp e with
    | none => none
    | some c =>
      if c = 0 then some (es, some e)
      else (lh_unlink comp es).map (fun p => (e :: p.1, p.2))

/-- Modelled from the spec: the table with the first stored entry on which
the comparison returns 0 replaced by `data`, and the replaced entry. -/
def lh_replace (comp : OBJ_NAME → Option Int) (data : OBJ_NAME) :
    List OBJ_NAME → Option (List OBJ_NAME × Option OBJ_NAME)
  | [] => some ([], none)
  | e :: es =>
    match comp e with
    | none => none
    | some c =>
      if c = 0 then some (data :: es, some e)
      else (lh_replace comp data es).map (fun p => (e :: p.1, p.2))

/-- Modelled from the spec: `lh_OBJ_NAME_retrieve`. The table hashes the key,
then compares stored entries with it (stored entry first, key second). -/
def lh_OBJ_NAME_retrieve (hash : OBJ_NAME → Option Nat)
    (comp : OBJ_NAME → OBJ_NAME → Option Int) (lh : LHASH) (data : OBJ_NAME) :
    Option (Option OBJ_NAME) :=
  match hash data with
  | none => none
  | some _ => lh_getrn (fun e => comp e data) lh.items

/-- Modelled from the spec: `lh_OBJ_NAME_delete`, which unlinks the entry
stored under the key and returns it, or returns the null pointer. -/
def lh_OBJ_NAME_delete (hash : OBJ_NAME → Option Nat)
    (comp : OBJ_NAME → OBJ_NAME → Option Int) (lh : LHASH) (data : OBJ_NAME) :
    Option (LHASH × Option OBJ_NAME) :=
  match hash data with
  | none => none
  | some _ =>
    (lh_unlink (fun e => comp e data) lh.items).map
      (fun p => ({ lh with items := p.1 }, p.2))

/-- Modelled from the spec: `lh_OBJ_NAME_insert`. An entry stored under the
same key is replaced and returned; otherwise a node is allocated for the new
entry, and when that allocation fails the table is unchanged and its error
flag is set. -/
def lh_OBJ_NAME_insert (hash : OBJ_NAME → Option Nat)
    (comp : OBJ_NAME → OBJ_NAME → Option Int) (m : Mem) (lh : LHASH) (data : OBJ_NAME) :
    Option (LHASH × Option OBJ_NAME) :=
  match hash data with
  | none => none
  | some _ =>
    match lh_replace (fun e => comp e data) data lh.items with
    | none => none
    | some (items, some old) => some ({ lh with items := items, error := 0 }, some old)
    | some (_, none) =>
      if m.lh_insert then some ({ lh with items := lh.items ++ [data], error := 0 }, none)
      else some ({ lh with error := 1 }, none)

/-- Modelled from the spec: `lh_OBJ_NAME_error`. -/
def lh_OBJ_NAME_error (lh : LHASH) : Nat := lh.error

/-- Modelled from the spec: `lh_OBJ_NAME_num_items`, which is 0 for the null
pointer. -/
def lh_OBJ_NAME_num_items (lh : Option LHASH) : Nat :=
  match lh with
  | none => 0
  | some lh => lh.items.length

/-- The width of the C type `unsigned long`. -/
def ULONG_BITS : Nat := 64

/-! ## The functions of `o_names.c` -/

section

variable (lh_strhash : String → Nat)

/-- The function `OBJ_NAME_init`. -/
def OBJ_NAME_init (m : Mem) (r : Registry) : Registry × Int :=
  match r.names_lh with
  | some _ => (r, 1)
  | none =>
    let names_lh := lh_OBJ_NAME_new m
    ({ r with names_lh := names_lh }, if names_lh.isSome then 1 else 0)

/-- The test `(names_lh == NULL) && !OBJ_NAME_init()` that opens
`OBJ_NAME_get` and `OBJ_NAME_add`: the registry after it, and 0 when the test
holds (the table is missing and could not be created). -/
def names_lh_ready (m : Mem) (r : Registry) : Registry × Int :=
  match r.names_lh with
  | none => OBJ_NAME_init m r
  | some _ => (r, 1)

/-- The loop of `OBJ_NAME_new_index`, `n` passes from `i` on: each pass
allocates a default handler record and pushes it; the flag is `false` when the
allocation of a record failed and the function returned 0 from inside the
loop. The result of the push is not tested: after a push that failed the loop
goes on with the list as it was. -/
def new_index_fill (m : Mem) : Nat → Nat → List NAME_FUNCS → List NAME_FUNCS × Bool
  | 0, _, st => (st, true)
  | n + 1, i, st =>
    if m.zalloc i then
      new_index_fill m n (i + 1)
        (sk_NAME_FUNCS_push (m.sk_push i) st
          { hash_func := lh_strhash, cmp_func := strcmp, free_func := none })
    else (st, false)

/-- The function `OBJ_NAME_new_index`. -/
def OBJ_NAME_new_index (m : Mem) (r : Registry) (hash_func : Option (String → Nat))
    (cmp_func : Option (String → String → Int)) (free_func : Option Nat) :
    Option (Registry × Int) :=
  let stack0 : Option (List NAME_FUNCS) :=
    match r.name_funcs_stack with
    | none => if m.sk_new then some [] else none
    | some st => some st
  match stack0 with
  | none => some (r, 0)
  | some st =>
    -- `names_type_num++` overflows at `INT_MAX`
    if r.names_type_num ≥ INT_MAX then none
    else
      let ret := r.names_type_num
      let names_type_num := r.names_type_num + 1
      match new_index_fill lh_strhash m (names_type_num - sk_NAME_FUNCS_num st).toNat
          st.length st with
      | (st1, false) =>
        some ({ r with name_funcs_stack := some st1, names_type_num := names_type_num }, 0)
      | (st1, true) =>
        match sk_NAME_FUNCS_value st1 ret with
        | none =>
          -- `name_funcs` is null: each of the three assignments dereferences it
          if hash_func.isNone && cmp_func.isNone && free_func.isNone then
            some ({ r with name_funcs_stack := some st1,
                           names_type_num := names_type_num }, ret)
          else none
        | some name_funcs =>
          let name_funcs :=
            match hash_func with
            | some f => { name_funcs with hash_func := f }
            | none => name_funcs
          let name_funcs :=
            match cmp_func with
            | some f => { name_funcs with cmp_func := f }
            | none => name_funcs
          let name_funcs :=
            match free_func with
            | some f => { name_funcs with free_func := some f }
            | none => name_funcs
          some ({ r with name_funcs_stack := some (st1.set ret.toNat name_funcs),
                         names_type_num := names_type_num }, ret)

/-- The function `obj_name_cmp`; the difference of two `int` types is 0 exactly
when they are equal. -/
def obj_name_cmp (name_funcs_stack : Option (List NAME_FUNCS)) (a b : OBJ_NAME) :
    Option Int :=
  let ret := a.type - b.type
  if ret = 0 then
    match name_funcs_stack with
    | some st =>
      if sk_NAME_FUNCS_num st > a.type then
        (sk_NAME_FUNCS_value st a.type).map (fun nf => nf.cmp_func a.name b.name)
      else some (strcmp a.name b.name)
    | none => some (strcmp a.name b.name)
  else some ret

/-- The function `obj_name_hash`; the type is converted to `unsigned long`
before the exclusive or. -/
def obj_name_hash (name_funcs_stack : Option (List NAME_FUNCS)) (a : OBJ_NAME) :
    Option Nat :=
  let ret : Option Nat :=
    match name_funcs_stack with
    | some st =>
      if sk_NAME_FUNCS_num st > a.type then
        (sk_NAME_FUNCS_value st a.type).map (fun nf => nf.hash_func a.name)
      else some (lh_strhash a.name)
    | none => some (lh_strhash a.name)
  ret.map (fun h => Nat.xor (h % 2 ^ ULONG_BITS) (a.type % 2 ^ ULONG_BITS).toNat)

/-- The loop of `OBJ_NAME_get`: `name` is `on.name`, `num` the number of
aliases followed so far. -/
def OBJ_NAME_get_loop (r : Registry) (lh : LHASH) (type alias_ : Int)
    (name : String) (num : Nat) : Option (Option String) :=
  match lh_OBJ_NAME_retrieve (obj_name_hash lh_strhash r.name_funcs_stack)
      (obj_name_cmp r.name_funcs_stack) lh
      { name := name, type := type, alias_ := 0, data := "" } with
  | none => none
  | some none => some none
  | some (some ret) =>
    if ret.alias_ ≠ 0 ∧ alias_ = 0 then
      if h : num + 1 > 10 then some none
      else OBJ_NAME_get_loop r lh type alias_ ret.data (num + 1)
    else some (some ret.data)
termination_by 11 - num
decreasing_by omega

/-- The function `OBJ_NAME_get`; `name = none` is the null pointer, and the
result `none` inside is the null pointer too. -/
def OBJ_NAME_get (m : Mem) (r : Registry) (name : Option String) (type : Int) :
    Option (Registry × Option String) :=
  match name with
  | none => some (r, none)
  | some name =>
    let r1 := names_lh_ready m r
    if r1.2 = 0 then some (r1.1, none)
    else
      let alias_ := Int.land type OBJ_NAME_ALIAS
      let type := Int.land type (Int.lnot OBJ_NAME_ALIAS)
      match r1.1.names_lh with
      | none => none
      | some lh =>
        (OBJ_NAME_get_loop lh_strhash r1.1 lh type alias_ name 0).map (fun res => (r1.1, res))

/-- The block "free things" of `OBJ_NAME_add` and `OBJ_NAME_remove`: the call
of the free function of the type of `ret`, when the handler list has a slot
for that type. -/
def free_things (r : Registry) (ret : OBJ_NAME) : Option Registry :=
  match r.name_funcs_stack with
  | some st =>
    if sk_NAME_FUNCS_num st > ret.type then
      match sk_NAME_FUNCS_value st ret.type with
      | none => none
      | some nf =>
        match nf.free_func with
        | none => none  -- the call goes through a null function pointer
        | some f =>
          some { r with calls := r.calls ++
            [{ fn := f, name := ret.name, type := ret.type, data := ret.data }] }
    else some r
  | none => some r

/-- The function `OBJ_NAME_add`. -/
def OBJ_NAME_add (m : Mem) (r : Registry) (name : String) (type : Int) (data : String) :
    Option (Registry × Int) :=
  let r1 := names_lh_ready m r
  if r1.2 = 0 then some (r1.1, 0)
  else
    let r := r1.1
    let alias_ := Int.land type OBJ_NAME_ALIAS
    let type := Int.land type (Int.lnot OBJ_NAME_ALIAS)
    if m.malloc = false then some (r, 0)
    else
      let onp : OBJ_NAME := { name := name, alias_ := alias_, type := type, data := data }
      match r.names_lh with
      | none => none
      | some lh =>
        match lh_OBJ_NAME_insert (obj_name_hash lh_strhash r.name_funcs_stack)
            (obj_name_cmp r.name_funcs_stack) m lh onp with
        | none => none
        | some (lh1, some ret) =>
          (free_things { r with names_lh := some lh1 } ret).map (fun r2 => (r2, 1))
        | some (lh1, none) =>
          if lh_OBJ_NAME_error lh1 ≠ 0 then some ({ r with names_lh := some lh1 }, 0)
          else some ({ r with names_lh := some lh1 }, 1)

/-- The function `OBJ_NAME_remove`. -/
def OBJ_NAME_remove (r : Registry) (name : String) (type : Int) : Option (Registry × Int) :=
  match r.names_lh with
  | none => some (r, 0)
  | some lh =>
    let type := Int.land type (Int.lnot OBJ_NAME_ALIAS)
    let on_ : OBJ_NAME := { name := name, type := type, alias_ := 0, data := "" }
    match lh_OBJ_NAME_delete (obj_name_hash lh_strhash r.name_funcs_stack)
        (obj_name_cmp r.name_funcs_stack) lh on_ with
    | none => none
    | some (lh1, some ret) =>
      (free_things { r with names_lh := some lh1 } ret).map (fun r2 => (r2, 1))
    | some (_, none) => some (r, 0)

/-- The function `names_lh_free_doall`, applied to a stored entry. -/
def names_lh_free_doall (r : Registry) (onp : OBJ_NAME) : Option Registry :=
  if r.free_type < 0 ∨ r.free_type = onp.type then
    (OBJ_NAME_remove lh_strhash r onp.name onp.type).map (fun p => p.1)
  else some r

/-- Modelled from the spec: `lh_OBJ_NAME_doall`, which applies the function to
every entry that the table holds when the sweep starts. -/
def lh_OBJ_NAME_doall (f : Registry → OBJ_NAME → Option Registry) :
    List OBJ_NAME → Registry → Option Registry
  | [], r => some r
  | e :: es, r =>
    match f r e with
    | none => none
    | some r1 => lh_OBJ_NAME_doall f es r1

/-- Modelled from the spec: `lh_OBJ_NAME_set_down_load` on `names_lh`. -/
def set_down_load (r : Registry) (down_load : Nat) : Registry :=
  { r with names_lh := r.names_lh.map (fun lh => { lh with down_load := down_load }) }

/-- The function `OBJ_NAME_cleanup`. -/
def OBJ_NAME_cleanup (r : Registry) (type : Int) : Option Registry :=
  match r.names_lh with
  | none => some r
  | some lh =>
    let r := { r with free_type := type }
    let down_load := lh.down_load
    let r := set_down_load r 0
    match lh_OBJ_NAME_doall (names_lh_free_doall lh_strhash) lh.items r with
    | none => none
    | some r =>
      if type < 0 then some { r with names_lh := none, name_funcs_stack := none }
      else some (set_down_load r down_load)

end

/-! ## The enumeration functions

The visitor `fn` is a function on the value behind its argument `arg`: it does
not call back into the registry. The enumeration functions take the registry
and return it, as every function of the embedding does. -/

/-- The record `OBJ_DOALL`. -/
structure OBJ_DOALL (α : Type) where
  type : Int
  fn : OBJ_NAME → α → α
  arg : α

/-- The function `do_all_fn`. -/
def do_all_fn {α : Type} (name : OBJ_NAME) (d : OBJ_DOALL α) : OBJ_DOALL α :=
  if name.type = d.type then { d with arg := d.fn name d.arg } else d

/-- Modelled from the spec: `lh_OBJ_NAME_doall_OBJ_DOALL`, which applies the
function to every entry of the table, in iteration order, and does nothing for
the null pointer. -/
def lh_OBJ_NAME_doall_arg {β : Type} (lh : Option LHASH) (func : OBJ_NAME → β → β)
    (arg : β) : β :=
  match lh with
  | none => arg
  | some lh => lh.items.foldl (fun a e => func e a) arg

/-- The function `OBJ_NAME_do_all`: the registry and the value behind `arg`
after the visits. -/
def OBJ_NAME_do_all {α : Type} (r : Registry) (type : Int) (fn : OBJ_NAME → α → α)
    (arg : α) : Registry × α :=
  let d : OBJ_DOALL α := { type := type, fn := fn, arg := arg }
  (r, (lh_OBJ_NAME_doall_arg r.names_lh do_all_fn d).arg)

/-- The record `struct doall_sorted`; `names` is the allocated array, one
element for each slot, `none` for a slot not written yet. -/
structure doall_sorted where
  type : Int
  n : Nat
  names : List (Option OBJ_NAME)
deriving DecidableEq, Repr

/-- The function `do_all_sorted_fn`, on the record behind `d_`; a write
outside the array is undefined. -/
def do_all_sorted_fn (name : OBJ_NAME) (d_ : Option doall_sorted) : Option doall_sorted :=
  match d_ with
  | none => none
  | some d =>
    if name.type ≠ d.type then some d
    else if d.n < d.names.length then
      some { d with names := d.names.set d.n (some name), n := d.n + 1 }
    else none

/-- The function `do_all_sorted_cmp`. -/
def do_all_sorted_cmp (n1 n2 : OBJ_NAME) : Int := strcmp n1.name n2.name

/-- The C library function `qsort`, on the elements to sort: the elements in
ascending order of the comparison. C leaves the order of elements that compare
equal open; here it is the one of insertion sort. -/
def qsort (compar : OBJ_NAME → OBJ_NAME → Int) (base : List OBJ_NAME) : List OBJ_NAME :=
  base.insertionSort (fun a b => compar a b ≤ 0)

/-- The elements `names[0]`, ..., `names[n - 1]` that `qsort` and the visiting
loop of `OBJ_NAME_do_all_sorted` read; reading outside the array, or a slot
that was not written, is undefined. -/
def read_names (names : List (Option OBJ_NAME)) : Nat → Option (List OBJ_NAME)
  | 0 => some []
  | n + 1 =>
    match read_names names n, names.get? n with
    | some es, some (some e) => some (es ++ [e])
    | _, _ => none

/-- The function `OBJ_NAME_do_all_sorted`: the registry and the value behind
`arg` after the visits. When the array cannot be allocated nothing is
visited. -/
def OBJ_NAME_do_all_sorted {α : Type} (m : Mem) (r : Registry) (type : Int)
    (fn : OBJ_NAME → α → α) (arg : α) : Option (Registry × α) :=
  if m.malloc = false then some (r, arg)
  else
    let d : doall_sorted :=
      { type := type, n := 0,
        names := List.replicate (lh_OBJ_NAME_num_items r.names_lh) none }
    match (OBJ_NAME_do_all r type do_all_sorted_fn (some d)).2 with
    | none => none
    | some d =>
      match read_names d.names d.n with
      | none => none
      | some base =>
        some (r, (qsort do_all_sorted_cmp base).foldl (fun a e => fn e a) arg)

/-! ## Sequences of calls -/

/-- One call of a function of the interface that can change the registry, with
its arguments and the outcome of its allocations. -/
inductive Op where
  | init (m : Mem)
  | new_index (m : Mem) (hash_func : Option (String → Nat))
      (cmp_func : Option (String → String → Int)) (free_func : Option Nat)
  | get (m : Mem) (name : Option String) (type : Int)
  | add (m : Mem) (name : String) (type : Int) (data : String)
  | remove (name : String) (type : Int)
  | cleanup (type : Int)

/-- The registry after one call, and the value that the call returned when it
is a call of `OBJ_NAME_new_index`. -/
def step (lh_strhash : String → Nat) (r : Registry) : Op → Option (Registry × Option Int)
  | Op.init m => some ((OBJ_NAME_init m r).1, none)
  | Op.new_index m hash_func cmp_func free_func =>
    (OBJ_NAME_new_index lh_strhash m r hash_func cmp_func free_func).map
      (fun p => (p.1, some p.2))
  | Op.get m name type => (OBJ_NAME_get lh_strhash m r name type).map (fun p => (p.1, none))
  | Op.add m name type data =>
    (OBJ_NAME_add lh_strhash m r name type data).map (fun p => (p.1, none))
  | Op.remove name type => (OBJ_NAME_remove lh_strhash r name type).map (fun p => (p.1, none))
  | Op.cleanup type => (OBJ_NAME_cleanup lh_strhash r type).map (fun r1 => (r1, none))

/-- The registry after a sequence of calls, and the values that its calls of
`OBJ_NAME_new_index` returned, in the order of the calls. -/
def run (lh_strhash : String → Nat) : Registry → List Op → Option (Registry × List Int)
  | r, [] => some (r, [])
  | r, op :: ops =>
    match step lh_strhash r op with
    | none => none
    | some (r1, id) =>
      match run lh_strhash r1 ops with
      | none => none
      | some (r2, ids) =>
        some (r2, match id with
          | some i => i :: ids
          | none => ids)

/-! ## Predicates used to state the properties -/

/-- The comparison function in force for `type` returns 0 on `(name, name)`:
when the handler list has a record at index `type`, its `cmp_func` does. -/
def ReflAt (name_funcs_stack : Option (List NAME_FUNCS)) (type : Int) (name : String) :
    Prop :=
  ∀ st nf, name_funcs_stack = some st → sk_NAME_FUNCS_value st type = some nf →
    nf.cmp_func name name = 0

/-- The stored entries that compare equal to a key, in table order. -/
def lh_matches (comp : OBJ_NAME → Option Int) (items : List OBJ_NAME) : List OBJ_NAME :=
  items.filter (fun e => decide (comp e = some 0))

/-- The key that `OBJ_NAME_get` and `OBJ_NAME_remove` build from a name and a
type whose alias bit is cleared. -/
def key_of (name : String) (type : Int) : OBJ_NAME :=
  { name := name, type := type, alias_ := 0, data := "" }

/-- The entry that `OBJ_NAME_add` builds from its arguments. -/
def onp_of (name : String) (type : Int) (data : String) : OBJ_NAME :=
  { name := name, alias_ := Int.land type OBJ_NAME_ALIAS,
    type := Int.land type (Int.lnot OBJ_NAME_ALIAS), data := data }

/-- The entry that the table of the registry returns for `(type, name)`, as
`OBJ_NAME_get` looks it up. -/
def table_lookup (lh_strhash : String → Nat) (r : Registry) (lh : LHASH) (type : Int)
    (name : String) : Option (Option OBJ_NAME) :=
  lh_OBJ_NAME_retrieve (obj_name_hash lh_strhash r.name_funcs_stack)
    (obj_name_cmp r.name_funcs_stack) lh (key_of name type)

/-- Following alias targets from `name` passes through `k` alias entries: the
entry found under `name` is an alias, so is the entry found under its data,
and so on `k` times. Nothing is said about what comes after them. -/
def follows_aliases (lookup : String → Option (Option OBJ_NAME)) : Nat → String → Bool
  | 0, _ => true
  | k + 1, name =>
    match lookup name with
    | some (some e) => decide (e.alias_ ≠ 0) && follows_aliases lookup k e.data
    | _ => false

/-- Following alias targets from `name` passes through exactly `k` alias
entries and then reaches an entry that is no alias: the data of that entry. -/
def resolves_to (lookup : String → Option (Option OBJ_NAME)) : Nat → String → Option String
  | 0, name =>
    match lookup name with
    | some (some e) => if e.alias_ = 0 then some e.data else none
    | _ => none
  | k + 1, name =>
    match lookup name with
    | some (some e) => if e.alias_ ≠ 0 then resolves_to lookup k e.data else none
    | _ => none

/-- The relation between the counter and the handler list that every
sequence of calls keeps: the counter is at least `OBJ_NAME_TYPE_NUM`, and the
handler list has no slot for the counter or for a larger id. -/
def Registry.Inv (r : Registry) : Prop :=
  OBJ_NAME_TYPE_NUM ≤ r.names_type_num ∧
    ∀ st, r.name_funcs_stack = some st → sk_NAME_FUNCS_num st ≤ r.names_type_num

/-- The free function registered for a type: `FreeAt stack type (some f)` when
the handler list has a record for the type whose free function is `f`, and
`FreeAt stack type none` when the handler list has no record for the type
(there is no handler list, or it is too short). A record without a free
function is neither. -/
def FreeAt (name_funcs_stack : Option (List NAME_FUNCS)) (type : Int) : Option Nat → Prop
  | some f => ∃ st nf, name_funcs_stack = some st ∧
      sk_NAME_FUNCS_value st type = some nf ∧ nf.free_func = some f
  | none => ∀ st, name_funcs_stack = some st → ¬ sk_NAME_FUNCS_num st > type

/-- The calls of the free function `f` on the given entries, one for each
entry in order; no call when there is no free function. -/
def free_calls (f : Option Nat) (es : List OBJ_NAME) : List FreeCall :=
  match f with
  | some f => es.map (fun e => { fn := f, name := e.name, type := e.type, data := e.data })
  | none => []

/-- The handlers in force for a type are the default ones: when the handler
list has a slot for the type, its record holds the string hash and `strcmp`.
A negative type with a handler list, for which the handlers are undefined, is
excluded. -/
def DefaultAt (lh_strhash : String → Nat) (name_funcs_stack : Option (List NAME_FUNCS))
    (type : Int) : Prop :=
  ∀ st, name_funcs_stack = some st → sk_NAME_FUNCS_num st > type →
    ∃ nf, sk_NAME_FUNCS_value st type = some nf ∧ nf.hash_func = lh_strhash ∧
      nf.cmp_func = strcmp

/-- Every record of the handler list compares names with `strcmp`. -/
def DefaultCmp (name_funcs_stack : Option (List NAME_FUNCS)) : Prop :=
  ∀ st nf, name_funcs_stack = some st → nf ∈ st → nf.cmp_func = strcmp

/-- The table holds at most one entry for each pair of a type and a name, and
the type of every stored entry has the alias bit clear. -/
def TableWF (lh : LHASH) : Prop :=
  (lh.items.map (fun e => (e.type, e.name))).Nodup ∧
    ∀ e ∈ lh.items, Int.land e.type OBJ_NAME_ALIAS = 0

/-- A call that leaves the default handlers in place: any call but a
registration that passes a hash or a comparison function. -/
def Op.plain : Op → Prop
  | Op.new_index _ hash_func cmp_func _ => hash_func = none ∧ cmp_func = none
  | _ => True

/-- The entries that the table of the registry holds, in iteration order; none
when there is no table. -/
def Registry.entries (r : Registry) : List OBJ_NAME :=
  match r.names_lh with
  | none => []
  | some lh => lh.items

/-- A visitor that records the entries it is called with, in the order of the
calls. -/
def visit_log (e : OBJ_NAME) (log : List OBJ_NAME) : List OBJ_NAME := log ++ [e]

/-- The calls of the free functions on the given entries, in order, with
`fr e` the free function of the entry `e` (none: no call for it). -/
def free_calls_all (fr : OBJ_NAME → Option Nat) : List OBJ_NAME → List FreeCall
  | [] => []
  | e :: es => free_calls (fr e) [e] ++ free_calls_all fr es

/-! ## Sample inputs -/

/-- Every allocation succeeds. -/
def Mem.ok : Mem :=
  { lh_new := true, sk_new := true, zalloc := fun _ => true, sk_push := fun _ => true,
    malloc := true, lh_insert := true }

/-- The `OPENSSL_malloc` of the operation fails, every other allocation
succeeds. -/
def Mem.no_malloc : Mem := { Mem.ok with malloc := false }

/-- A string hash for the sample inputs. -/
def hash_len (s : String) : Nat := s.length

/-- A table with the given entries. -/
def table_of (items : List OBJ_NAME) : LHASH :=
  { items := items, down_load := DOWN_LOAD, error := 0 }

/-- The registry with the given entries and no handler list. -/
def registry_of (items : List OBJ_NAME) : Registry :=
  { Registry.initial with names_lh := some (table_of items) }

/-- The handler list after one `OBJ_NAME_new_index(NULL, NULL, f)` on the
initial state, with `f` the free function number 7: default records for the
slots 0 to 4 and the record of the new type 5. -/
def sample_stack : List NAME_FUNCS :=
  List.replicate 5 { hash_func := hash_len, cmp_func := strcmp, free_func := none } ++
    [{ hash_func := hash_len, cmp_func := strcmp, free_func := some 7 }]

/-- The registry with the given entries and the handler list `sample_stack`. -/
def registry_dyn (items : List OBJ_NAME) : Registry :=
  { names_lh := some (table_of items), names_type_num := 6,
    name_funcs_stack := some sample_stack, free_type := 0, calls := [] }

/-- The entries `A -> B -> C = X` of kind 1: two aliases and their target. -/
def sample_aliases : List OBJ_NAME :=
  [⟨1, 0x8000, "A", "B"⟩, ⟨1, 0x8000, "B", "C"⟩, ⟨1, 0, "C", "X"⟩]

/-- An alias of kind 1 whose target is itself. -/
def sample_self_alias : List OBJ_NAME := [⟨1, 0x8000, "A", "A"⟩]

/-- Ten aliases `n0 -> n1 -> ... -> n10` of kind 1 and their target
`n10 = X`. -/
def sample_chain : List OBJ_NAME :=
  [⟨1, 0x8000, "n0", "n1"⟩, ⟨1, 0x8000, "n1", "n2"⟩, ⟨1, 0x8000, "n2", "n3"⟩,
   ⟨1, 0x8000, "n3", "n4"⟩, ⟨1, 0x8000, "n4", "n5"⟩, ⟨1, 0x8000, "n5", "n6"⟩,
   ⟨1, 0x8000, "n6", "n7"⟩, ⟨1, 0x8000, "n7", "n8"⟩, ⟨1, 0x8000, "n8", "n9"⟩,
   ⟨1, 0x8000, "n9", "n10"⟩, ⟨1, 0, "n10", "X"⟩]

/-- The allocation of the first handler record fails, every other allocation
succeeds. -/
def Mem.no_zalloc : Mem := { Mem.ok with zalloc := fun _ => false }

/-- A registration, the creation of the table, a full cleanup, a registration
that fails and one that succeeds. -/
def sample_ops : List Op :=
  [Op.new_index Mem.ok none none none, Op.init Mem.ok, Op.cleanup (-1),
   Op.new_index Mem.no_zalloc none none none, Op.new_index Mem.ok none none none]

/-- The registry with the given entries after one
`OBJ_NAME_new_index(NULL, NULL, NULL)` on the initial state: default handler
records for the slots 0 to 5, none of them with a free function. -/
def registry_plain (items : List OBJ_NAME) : Registry :=
  { names_lh := some (table_of items), names_type_num := 6,
    name_funcs_stack := some (List.replicate 6
      { hash_func := hash_len, cmp_func := strcmp, free_func := none }),
    free_type := 0, calls := [] }

/-- Two entries of the registered type 5 and one of the built-in type 1. -/
def sample_mixed : List OBJ_NAME :=
  [⟨5, 0, "x", "d1"⟩, ⟨1, 0, "md5", "m"⟩, ⟨5, 0, "y", "d2"⟩]

/-- Three entries of kind 1, not in order of name, and one of kind 2. -/
def sample_names : List OBJ_NAME :=
  [⟨1, 0, "b", "1"⟩, ⟨2, 0, "z", "2"⟩, ⟨1, 0, "a", "3"⟩, ⟨1, 0, "ab", "4"⟩]

/-- Two additions of entries of kind 1 and the removal of the first. -/
def sample_adds : List Op :=
  [Op.add Mem.ok "x" 1 "d1", Op.add Mem.ok "y" 1 "d2", Op.remove "x" 1]

/-- The allocation of the table fails, every other allocation succeeds. -/
def Mem.no_table : Mem := { Mem.ok with lh_new := false }

/-- The handler list cannot grow beyond five records: the push of the pass 5
and of every later pass fails; every other allocation succeeds. -/
def Mem.no_push : Mem := { Mem.ok with sk_push := fun i => decide (i < 5) }

/-- The registration of a type with a free function only, then the addition of
an entry of the built-in type 1. -/
def sample_register_add : List Op :=
  [Op.new_index Mem.ok none none (some 7), Op.add Mem.ok "md5" 1 "m"]

/-! ## Bits of a type argument -/

theorem int_eq_of_testBit_eq {x y : Int} (h : ∀ k, Int.testBit x k = Int.testBit y k) :
    x = y := by
  have big : ∀ a b : Nat, Nat.testBit a (a + b) = false := fun a b =>
    Nat.testBit_lt_two_pow (lt_of_lt_of_le (Nat.lt_two_pow a)
      (Nat.pow_le_pow_right (by norm_num) (Nat.le_add_right a b)))
  rcases x with a | a <;> rcases y with b | b
  · congr 1
    exact Nat.eq_of_testBit_eq (fun k => by simpa [Int.testBit] using h k)
  · exfalso
    have := h (a + b)
    simp only [Int.testBit, big a b] at this
    rw [Nat.add_comm, big b a] at this
    simp at this
  · exfalso
    have := h (a + b)
    simp only [Int.testBit, big a b] at this
    rw [Nat.add_comm, big b a] at this
    simp at this
  · congr 1
    exact Nat.eq_of_testBit_eq (fun k => by simpa [Int.testBit] using h k)

theorem land_lor_lnot (t a : Int) :
    Int.land (Int.lor t a) (Int.lnot a) = Int.land t (Int.lnot a) := by
  apply int_eq_of_testBit_eq
  intro k
  simp only [Int.testBit_land, Int.testBit_lor, Int.testBit_lnot]
  cases Int.testBit t k <;> cases Int.testBit a k <;> rfl

theorem land_lor_self (t a : Int) : Int.land (Int.lor t a) a = a := by
  apply int_eq_of_testBit_eq
  intro k
  simp only [Int.testBit_land, Int.testBit_lor]
  cases Int.testBit t k <;> cases Int.testBit a k <;> rfl

theorem land_lnot_of_land_eq_zero (t a : Int) (h : Int.land t a = 0) :
    Int.land t (Int.lnot a) = t := by
  apply int_eq_of_testBit_eq
  intro k
  have hk : Int.testBit (Int.land t a) k = false := by
    rw [h]; simp [Int.testBit]
  rw [Int.testBit_land] at hk
  simp only [Int.testBit_land, Int.testBit_lnot]
  revert hk
  cases Int.testBit t k <;> cases Int.testBit a k <;> simp

theorem land_lnot_land (t a : Int) : Int.land (Int.land t (Int.lnot a)) a = 0 := by
  apply int_eq_of_testBit_eq
  intro k
  have h0 : Int.testBit 0 k = false := by simp [Int.testBit]
  rw [h0]
  simp only [Int.testBit_land, Int.testBit_lnot]
  cases Int.testBit t k <;> cases Int.testBit a k <;> rfl

/-! ## Comparison and hashing of keys -/

theorem strcmp_chars_self (l : List Char) : strcmp_chars l l = 0 := by
  induction l with
  | nil => rfl
  | cons a as ih => simp [strcmp_chars, ih]

theorem strcmp_self (a : String) : strcmp a a = 0 := strcmp_chars_self _

theorem sk_value_neg (st : List NAME_FUNCS) {t : Int} (h : t < 0) :
    sk_NAME_FUNCS_value st t = none := by
  simp [sk_NAME_FUNCS_value, h]

theorem sk_value_isSome (st : List NAME_FUNCS) {t : Int} (h0 : 0 ≤ t)
    (h : sk_NAME_FUNCS_num st > t) : ∃ nf, sk_NAME_FUNCS_value st t = some nf := by
  have hlt : t.toNat < st.length := by
    unfold sk_NAME_FUNCS_num at h
    omega
  refine ⟨st.get ⟨t.toNat, hlt⟩, ?_⟩
  simp [sk_NAME_FUNCS_value, not_lt.mpr h0, List.get?_eq_get hlt]

/-- The hash of a key is undefined exactly when the handler list exists and
the type is negative. -/
theorem obj_name_hash_eq_none (lh_strhash : String → Nat) (stk : Option (List NAME_FUNCS))
    (a : OBJ_NAME) :
    obj_name_hash lh_strhash stk a = none ↔ ∃ st, stk = some st ∧ a.type < 0 := by
  unfold obj_name_hash
  cases stk with
  | none => simp
  | some st =>
    simp only [Option.map_eq_none', Option.some.injEq, exists_eq_left']
    by_cases hneg : a.type < 0
    · have : sk_NAME_FUNCS_num st > a.type := by
        unfold sk_NAME_FUNCS_num; omega
      simp [this, sk_value_neg st hneg, hneg]
    · by_cases hlt : sk_NAME_FUNCS_num st > a.type
      · obtain ⟨nf, hnf⟩ := sk_value_isSome st (not_lt.mp hneg) hlt
        simp [hlt, hnf, hneg]
      · simp [hlt, hneg]

theorem obj_name_cmp_defined (lh_strhash : String → Nat) (stk : Option (List NAME_FUNCS))
    (a b : OBJ_NAME) (h : obj_name_hash lh_strhash stk b ≠ none) :
    ∃ c, obj_name_cmp stk a b = some c := by
  rw [Ne, obj_name_hash_eq_none] at h
  unfold obj_name_cmp
  by_cases hz : a.type - b.type = 0
  · have hab : a.type = b.type := by omega
    simp only [hz, if_true]
    cases stk with
    | none => exact ⟨_, rfl⟩
    | some st =>
      have hneg : ¬ a.type < 0 := fun hlt => h ⟨st, rfl, hab ▸ hlt⟩
      by_cases hlt : sk_NAME_FUNCS_num st > a.type
      · obtain ⟨nf, hnf⟩ := sk_value_isSome st (not_lt.mp hneg) hlt
        simp [hlt, hnf]
      · simp [hlt]
  · simp [hz]

/-- The comparison reads only the type and the name of its second argument. -/
theorem obj_name_cmp_congr (stk : Option (List NAME_FUNCS)) (a b b' : OBJ_NAME)
    (ht : b.type = b'.type) (hn : b.name = b'.name) :
    obj_name_cmp stk a b = obj_name_cmp stk a b' := by
  unfold obj_name_cmp
  rw [ht, hn]

theorem obj_name_hash_congr (lh_strhash : String → Nat) (stk : Option (List NAME_FUNCS))
    (a a' : OBJ_NAME) (ht : a.type = a'.type) (hn : a.name = a'.name) :
    obj_name_hash lh_strhash stk a = obj_name_hash lh_strhash stk a' := by
  unfold obj_name_hash
  rw [ht, hn]

theorem obj_name_cmp_same (lh_strhash : String → Nat) (stk : Option (List NAME_FUNCS))
    (a b : OBJ_NAME) (ht : a.type = b.type) (hn : a.name = b.name)
    (hrefl : ReflAt stk b.type b.name) (h : obj_name_hash lh_strhash stk b ≠ none) :
    obj_name_cmp stk a b = some 0 := by
  rw [Ne, obj_name_hash_eq_none] at h
  unfold obj_name_cmp
  have hz : a.type - b.type = 0 := by omega
  simp only [hz, if_true]
  cases stk with
  | none => simp [hn, strcmp_self]
  | some st =>
    have hneg : ¬ a.type < 0 := fun hlt => h ⟨st, rfl, ht ▸ hlt⟩
    by_cases hlt : sk_NAME_FUNCS_num st > a.type
    · obtain ⟨nf, hnf⟩ := sk_value_isSome st (not_lt.mp hneg) hlt
      have := hrefl st nf rfl (ht ▸ hnf)
      simp [hlt, hnf, hn, this]
    · simp [hlt, hn, strcmp_self]

/-- A comparison that returns 0 is a comparison of entries of one type. -/
theorem obj_name_cmp_zero_type (stk : Option (List NAME_FUNCS)) (a b : OBJ_NAME)
    (h : obj_name_cmp stk a b = some 0) : a.type = b.type := by
  unfold obj_name_cmp at h
  by_cases hz : a.type - b.type = 0
  · omega
  · simp [hz] at h

/-! ## The table operations -/

theorem lh_getrn_replace (comp : OBJ_NAME → Option Int) (data : OBJ_NAME)
    (hdata : comp data = some 0) :
    ∀ items items' old, lh_replace comp data items = some (items', some old) →
      lh_getrn comp items' = some (some data) := by
  intro items
  induction items with
  | nil => intro items' old h; simp [lh_replace] at h
  | cons e es ih =>
    intro items' old h
    unfold lh_replace at h
    cases hc : comp e with
    | none => simp [hc] at h
    | some c =>
      by_cases hz : c = 0
      · simp [hc, hz] at h
        rw [← h.1]
        simp [lh_getrn, hdata]
      · simp only [hc, hz, if_false, Option.map_eq_some'] at h
        obtain ⟨p, hp, hpe⟩ := h
        obtain ⟨p1, p2⟩ := p
        simp only [Prod.mk.injEq] at hpe
        obtain ⟨rfl, rfl⟩ := hpe
        simp [lh_getrn, hc, hz, ih _ _ hp]

theorem lh_getrn_append (comp : OBJ_NAME → Option Int) (data : OBJ_NAME)
    (hdata : comp data = some 0) :
    ∀ items items', lh_replace comp data items = some (items', none) →
      lh_getrn comp (items ++ [data]) = some (some data) := by
  intro items
  induction items with
  | nil => intro items' _; simp [lh_getrn, hdata]
  | cons e es ih =>
    intro items' h
    unfold lh_replace at h
    cases hc : comp e with
    | none => simp [hc] at h
    | some c =>
      by_cases hz : c = 0
      · simp [hc, hz] at h
      · simp only [hc, hz, if_false, Option.map_eq_some'] at h
        obtain ⟨p, hp, hpe⟩ := h
        obtain ⟨p1, p2⟩ := p
        simp only [Prod.mk.injEq] at hpe
        obtain ⟨rfl, rfl⟩ := hpe
        simp [lh_getrn, hc, hz, ih _ hp]

theorem free_things_frame (r r2 : Registry) (ret : OBJ_NAME) (h : free_things r ret = some r2) :
    r2.names_lh = r.names_lh ∧ r2.name_funcs_stack = r.name_funcs_stack ∧
      r2.names_type_num = r.names_type_num ∧ r2.free_type = r.free_type := by
  unfold free_things at h
  split at h
  · split at h
    · split at h
      · simp at h
      · split at h
        · simp at h
        · simp at h; subst h; simp
    · simp at h; subst h; simp
  · simp at h; subst h; simp

/-! ## OBJ_NAME_add -/

theorem names_lh_ready_frame (m : Mem) (r : Registry) :
    (names_lh_ready m r).1.name_funcs_stack = r.name_funcs_stack ∧
    (names_lh_ready m r).1.names_type_num = r.names_type_num ∧
    (names_lh_ready m r).1.free_type = r.free_type ∧
    (names_lh_ready m r).1.calls = r.calls := by
  unfold names_lh_ready OBJ_NAME_init
  cases r.names_lh <;> simp

theorem names_lh_ready_some (m : Mem) (r : Registry) (lh : LHASH) (h : r.names_lh = some lh) :
    names_lh_ready m r = (r, 1) := by
  unfold names_lh_ready
  rw [h]

/-- The result of `lh_OBJ_NAME_insert`, by cases. -/
theorem lh_insert_cases (hash : OBJ_NAME → Option Nat)
    (comp : OBJ_NAME → OBJ_NAME → Option Int) (m : Mem) (lh lh1 : LHASH) (data : OBJ_NAME)
    (ret : Option OBJ_NAME) (h : lh_OBJ_NAME_insert hash comp m lh data = some (lh1, ret)) :
    hash data ≠ none ∧
    ((∃ items' old, lh_replace (fun e => comp e data) data lh.items = some (items', some old) ∧
        lh1 = { lh with items := items', error := 0 } ∧ ret = some old) ∨
     (∃ items', lh_replace (fun e => comp e data) data lh.items = some (items', none) ∧
        ret = none ∧
        ((m.lh_insert = true ∧ lh1 = { lh with items := lh.items ++ [data], error := 0 }) ∨
         (m.lh_insert = false ∧ lh1 = { lh with error := 1 })))) := by
  unfold lh_OBJ_NAME_insert at h
  cases hh : hash data with
  | none => simp [hh] at h
  | some hv =>
    refine ⟨by simp, ?_⟩
    simp only [hh] at h
    cases hrep : lh_replace (fun e => comp e data) data lh.items with
    | none => simp [hrep] at h
    | some p =>
      obtain ⟨items', o⟩ := p
      cases o with
      | some old =>
        left
        simp only [hrep, Option.some.injEq, Prod.mk.injEq] at h
        exact ⟨items', old, rfl, h.1.symm, h.2.symm⟩
      | none =>
        right
        simp only [hrep] at h
        refine ⟨items', rfl, ?_⟩
        by_cases hi : m.lh_insert = true
        · simp only [hi, if_true, Option.some.injEq, Prod.mk.injEq] at h
          exact ⟨h.2.symm, Or.inl ⟨hi, h.1.symm⟩⟩
        · have hi' : m.lh_insert = false := by simpa using hi
          simp only [hi', Bool.false_eq_true, if_false, Option.some.injEq, Prod.mk.injEq] at h
          exact ⟨h.2.symm, Or.inr ⟨by simpa using hi, h.1.symm⟩⟩

/-- The two ways in which `OBJ_NAME_add` returns 1: an entry stored under the
key was replaced and freed, or a node was allocated for the new entry. -/
theorem add_success_cases (lh_strhash : String → Nat) (m : Mem) (r r' : Registry)
    (name : String) (type : Int) (data : String)
    (hadd : OBJ_NAME_add lh_strhash m r name type data = some (r', 1)) :
    ∃ lh, (names_lh_ready m r).1.names_lh = some lh ∧ m.malloc = true ∧
      obj_name_hash lh_strhash r.name_funcs_stack (onp_of name type data) ≠ none ∧
      ((∃ items' old,
          lh_replace (fun e => obj_name_cmp r.name_funcs_stack e (onp_of name type data))
            (onp_of name type data) lh.items = some (items', some old) ∧
          free_things
            { names_lh := some { lh with items := items', error := 0 },
              names_type_num := r.names_type_num, name_funcs_stack := r.name_funcs_stack,
              free_type := r.free_type, calls := r.calls } old = some r') ∨
       (∃ items',
          lh_replace (fun e => obj_name_cmp r.name_funcs_stack e (onp_of name type data))
            (onp_of name type data) lh.items = some (items', none) ∧
          m.lh_insert = true ∧
          r' = { names_lh := some { lh with items := lh.items ++ [onp_of name type data],
                                            error := 0 },
                 names_type_num := r.names_type_num, name_funcs_stack := r.name_funcs_stack,
                 free_type := r.free_type, calls := r.calls })) := by
  unfold OBJ_NAME_add at hadd
  simp only at hadd
  obtain ⟨hstk, hnum, hft, hcalls⟩ := names_lh_ready_frame m r
  obtain ⟨r1, hr1⟩ : ∃ r1, names_lh_ready m r = r1 := ⟨_, rfl⟩
  rw [hr1] at hadd hstk hnum hft hcalls ⊢
  rw [hstk, hnum, hft, hcalls] at hadd
  split at hadd
  · simp at hadd
  · split at hadd
    · simp at hadd
    · rename_i hm
      cases hlh : r1.1.names_lh with
      | none => simp [hlh] at hadd
      | some lh =>
        refine ⟨lh, rfl, by simpa using hm, ?_⟩
        simp only [hlh] at hadd
        cases hins : lh_OBJ_NAME_insert (obj_name_hash lh_strhash r.name_funcs_stack)
            (obj_name_cmp r.name_funcs_stack) m lh (onp_of name type data) with
        | none =>
          unfold onp_of at hins
          simp [hins] at hadd
        | some p =>
          obtain ⟨lh1, ret⟩ := p
          obtain ⟨hh, hc⟩ := lh_insert_cases _ _ _ _ _ _ _ hins
          refine ⟨hh, ?_⟩
          unfold onp_of at hins
          rw [hins] at hadd
          rcases hc with ⟨items', old, hrep, rfl, rfl⟩ | ⟨items', hrep, rfl, hc⟩
          · left
            simp only [Option.map_eq_some'] at hadd
            obtain ⟨r2, hr2, he⟩ := hadd
            simp only [Prod.mk.injEq, and_true] at he
            exact ⟨items', old, hrep, he ▸ hr2⟩
          · right
            rcases hc with ⟨hi, rfl⟩ | ⟨hi, rfl⟩
            · simp [lh_OBJ_NAME_error] at hadd
              exact ⟨items', hrep, hi, hadd.symm⟩
            · simp [lh_OBJ_NAME_error] at hadd

/-! ## OBJ_NAME_get after OBJ_NAME_add (C1) -/

/-- The lookup of `OBJ_NAME_get` when the first search finds an entry that is
returned at once: one that is no alias, or any entry when the alias bit was
passed. -/
theorem get_loop_direct (lh_strhash : String → Nat) (r : Registry) (lh : LHASH)
    (type alias_ : Int) (name : String) (num : Nat) (ret : OBJ_NAME)
    (hret : lh_OBJ_NAME_retrieve (obj_name_hash lh_strhash r.name_funcs_stack)
      (obj_name_cmp r.name_funcs_stack) lh (key_of name type) = some (some ret))
    (hdirect : ¬ (ret.alias_ ≠ 0 ∧ alias_ = 0)) :
    OBJ_NAME_get_loop lh_strhash r lh type alias_ name num = some (some ret.data) := by
  rw [OBJ_NAME_get_loop]
  unfold key_of at hret
  rw [hret]
  simp only [hdirect, if_false]

theorem get_of_table (lh_strhash : String → Nat) (m : Mem) (r : Registry) (lh : LHASH)
    (name : String) (type : Int) (h : r.names_lh = some lh) :
    OBJ_NAME_get lh_strhash m r (some name) type =
      (OBJ_NAME_get_loop lh_strhash r lh (Int.land type (Int.lnot OBJ_NAME_ALIAS))
        (Int.land type OBJ_NAME_ALIAS) name 0).map (fun res => (r, res)) := by
  unfold OBJ_NAME_get
  simp [names_lh_ready_some m r lh h, h]

theorem retrieve_of_getrn (lh_strhash : String → Nat) (stk : Option (List NAME_FUNCS))
    (lh : LHASH) (key key' : OBJ_NAME) (res : Option OBJ_NAME)
    (ht : key'.type = key.type) (hn : key'.name = key.name)
    (hh : obj_name_hash lh_strhash stk key ≠ none)
    (hg : lh_getrn (fun e => obj_name_cmp stk e key) lh.items = some res) :
    lh_OBJ_NAME_retrieve (obj_name_hash lh_strhash stk) (obj_name_cmp stk) lh key' =
      some res := by
  unfold lh_OBJ_NAME_retrieve
  rw [obj_name_hash_congr lh_strhash stk key' key ht hn]
  cases hk : obj_name_hash lh_strhash stk key with
  | none => exact absurd hk hh
  | some v =>
    have : (fun e => obj_name_cmp stk e key') = (fun e => obj_name_cmp stk e key) :=
      funext (fun e => obj_name_cmp_congr stk e key' key ht hn)
    simp only [this, hg]

/-- C1: when `OBJ_NAME_add(name, type, data)` returns 1, on any registry whose
comparison function for the type returns 0 on `(name, name)`, the call
`OBJ_NAME_get(name, type)` with the same type argument that follows returns
`data` (and leaves the registry as it is). -/
theorem C1_add_then_get (lh_strhash : String → Nat) (m m' : Mem) (r r' : Registry)
    (name : String) (type : Int) (data : String)
    (hrefl : ReflAt r.name_funcs_stack (Int.land type (Int.lnot OBJ_NAME_ALIAS)) name)
    (hadd : OBJ_NAME_add lh_strhash m r name type data = some (r', 1)) :
    OBJ_NAME_get lh_strhash m' r' (some name) type = some (r', some data) := by
  obtain ⟨lh, -, -, hh, hc⟩ := add_success_cases lh_strhash m r r' name type data hadd
  have hcmp : obj_name_cmp r.name_funcs_stack (onp_of name type data) (onp_of name type data)
      = some 0 :=
    obj_name_cmp_same lh_strhash _ _ _ rfl rfl hrefl hh
  have key : ∃ lh1, r'.names_lh = some lh1 ∧ r'.name_funcs_stack = r.name_funcs_stack ∧
      lh_getrn (fun e => obj_name_cmp r.name_funcs_stack e (onp_of name type data)) lh1.items
        = some (some (onp_of name type data)) := by
    rcases hc with ⟨items', old, hrep, hfree⟩ | ⟨items', hrep, -, rfl⟩
    · obtain ⟨h1, h2, -, -⟩ := free_things_frame _ _ _ hfree
      exact ⟨_, h1, h2, lh_getrn_replace
        (fun e => obj_name_cmp r.name_funcs_stack e (onp_of name type data)) _ hcmp _ _ _ hrep⟩
    · exact ⟨_, rfl, rfl, lh_getrn_append
        (fun e => obj_name_cmp r.name_funcs_stack e (onp_of name type data)) _ hcmp _ _ hrep⟩
  obtain ⟨lh1, hlh1, hstk, hg⟩ := key
  rw [get_of_table lh_strhash m' r' lh1 name type hlh1]
  have hret := retrieve_of_getrn lh_strhash r.name_funcs_stack lh1 (onp_of name type data)
    (key_of name (Int.land type (Int.lnot OBJ_NAME_ALIAS))) _ rfl rfl hh hg
  rw [← hstk] at hret
  rw [get_loop_direct lh_strhash r' lh1 _ _ name 0 _ hret]
  · rfl
  · intro h
    exact h.1 h.2

theorem reflAt_none (type : Int) (name : String) : ReflAt none type name := by
  intro st nf h
  cases h

theorem land_lnot_1 : Int.land 1 (Int.lnot OBJ_NAME_ALIAS) = 1 :=
  land_lnot_of_land_eq_zero 1 _ (by decide)

/-- C1, witness: the first entry added to an empty table. -/
theorem C1_witness :
    OBJ_NAME_get hash_len Mem.ok (registry_of [⟨1, 0, "md5", "x"⟩]) (some "md5") 1 =
      some (registry_of [⟨1, 0, "md5", "x"⟩], some "x") :=
  C1_add_then_get hash_len Mem.ok Mem.ok Registry.initial _ "md5" 1 "x"
    (reflAt_none _ _) (by
      unfold OBJ_NAME_add
      simp only [land_lnot_1]
      rfl)

/-! ## Replacement of an entry by OBJ_NAME_add (C2) -/

theorem lh_matches_cons (comp : OBJ_NAME → Option Int) (e : OBJ_NAME) (es : List OBJ_NAME) :
    lh_matches comp (e :: es) =
      if comp e = some 0 then e :: lh_matches comp es else lh_matches comp es := by
  unfold lh_matches
  by_cases h : comp e = some 0 <;> simp [List.filter_cons, h]

/-- Replacing the entry that the search finds: the table keeps its length, and
the entries that compare equal to the key are the new entry and the old ones
after the first. -/
theorem lh_replace_found (comp : OBJ_NAME → Option Int) (data : OBJ_NAME)
    (hdata : comp data = some 0) :
    ∀ items old, lh_getrn comp items = some (some old) →
      ∃ items', lh_replace comp data items = some (items', some old) ∧
        items'.length = items.length ∧
        lh_matches comp items' = data :: (lh_matches comp items).tail := by
  intro items
  induction items with
  | nil => intro old h; simp [lh_getrn] at h
  | cons e es ih =>
    intro old h
    unfold lh_getrn at h
    unfold lh_replace
    cases hc : comp e with
    | none => simp [hc] at h
    | some c =>
      by_cases hz : c = 0
      · subst hz
        simp only [hc, if_true, Option.some.injEq] at h
        subst h
        refine ⟨data :: es, by simp, by simp, ?_⟩
        simp [lh_matches_cons, hdata, hc]
      · simp only [hc, hz, if_false] at h
        obtain ⟨items', h1, h2, h3⟩ := ih old h
        refine ⟨e :: items', by simp [hz, h1], by simp [h2], ?_⟩
        have hne : comp e ≠ some 0 := by
          rw [hc]; intro hh; exact hz (Option.some.inj hh)
        simp [lh_matches_cons, hne, h3]

theorem sk_value_lt (st : List NAME_FUNCS) (t : Int) (nf : NAME_FUNCS)
    (h : sk_NAME_FUNCS_value st t = some nf) : sk_NAME_FUNCS_num st > t := by
  unfold sk_NAME_FUNCS_value at h
  unfold sk_NAME_FUNCS_num
  by_cases hneg : t < 0
  · simp [hneg] at h
  · simp only [hneg, if_false] at h
    have := (List.get?_eq_some.mp h).1
    omega

/-- The block "free things" when a free function is registered for the type of
the entry: one call of it is logged. -/
theorem free_things_registered (r : Registry) (ret : OBJ_NAME) (st : List NAME_FUNCS)
    (nf : NAME_FUNCS) (f : Nat) (hst : r.name_funcs_stack = some st)
    (hnf : sk_NAME_FUNCS_value st ret.type = some nf) (hf : nf.free_func = some f) :
    free_things r ret = some { r with calls := r.calls ++
      [{ fn := f, name := ret.name, type := ret.type, data := ret.data }] } := by
  unfold free_things
  simp [hst, sk_value_lt st _ nf hnf, hnf, hf]

theorem free_things_none (r : Registry) (ret : OBJ_NAME)
    (h : FreeAt r.name_funcs_stack ret.type none) : free_things r ret = some r := by
  unfold free_things
  cases hs : r.name_funcs_stack with
  | none => rfl
  | some st => simp [h st hs]

theorem free_things_at (r : Registry) (ret : OBJ_NAME) (f : Option Nat)
    (hfree : FreeAt r.name_funcs_stack ret.type f) :
    free_things r ret = some { r with calls := r.calls ++ free_calls f [ret] } := by
  cases f with
  | none =>
    rw [free_things_none r ret hfree]
    simp [free_calls]
  | some fn =>
    obtain ⟨st, nf, hst, hnf, hf⟩ := hfree
    rw [free_things_registered r ret st nf fn hst hnf hf]
    simp [free_calls]

theorem retrieve_some_iff (hash : OBJ_NAME → Option Nat)
    (comp : OBJ_NAME → OBJ_NAME → Option Int) (lh : LHASH) (key : OBJ_NAME)
    (res : Option OBJ_NAME) :
    lh_OBJ_NAME_retrieve hash comp lh key = some res ↔
      hash key ≠ none ∧ lh_getrn (fun e => comp e key) lh.items = some res := by
  unfold lh_OBJ_NAME_retrieve
  cases hash key <;> simp

theorem lh_getrn_zero (comp : OBJ_NAME → Option Int) :
    ∀ items old, lh_getrn comp items = some (some old) → comp old = some 0 := by
  intro items
  induction items with
  | nil => intro old h; simp [lh_getrn] at h
  | cons e es ih =>
    intro old h
    unfold lh_getrn at h
    cases hc : comp e with
    | none => simp [hc] at h
    | some c =>
      by_cases hz : c = 0
      · subst hz
        simp only [hc, if_true, Option.some.injEq] at h
        subst h
        exact hc
      · simp only [hc, hz, if_false] at h
        exact ih old h

/-- C2 (amended): on a registry that holds an entry `old` under `(type, name)`,
and no other entry under that key, where the handler record of the type, when
the handler list has one, holds a free function, and the comparison function
in force returns 0 on `(name, name)`: `OBJ_NAME_add(name, type, newData)`,
when the allocation of the new entry record succeeds, returns 1 and leaves the
new entry as the one entry under the key without changing the number of
entries. It calls the free function of the handler record once, on the name,
type and data of the old entry; with no handler record for the type it calls
nothing. -/
theorem C2_add_replaces (lh_strhash : String → Nat) (m : Mem) (r : Registry) (lh : LHASH)
    (name : String) (type : Int) (newData : String) (old : OBJ_NAME) (f : Option Nat)
    (hlh : r.names_lh = some lh)
    (hold : lh_OBJ_NAME_retrieve (obj_name_hash lh_strhash r.name_funcs_stack)
      (obj_name_cmp r.name_funcs_stack) lh
      (key_of name (Int.land type (Int.lnot OBJ_NAME_ALIAS))) = some (some old))
    (hone : (lh_matches (fun e => obj_name_cmp r.name_funcs_stack e
      (key_of name (Int.land type (Int.lnot OBJ_NAME_ALIAS)))) lh.items).length ≤ 1)
    (hfree : FreeAt r.name_funcs_stack (Int.land type (Int.lnot OBJ_NAME_ALIAS)) f)
    (hrefl : ReflAt r.name_funcs_stack (Int.land type (Int.lnot OBJ_NAME_ALIAS)) name)
    (hm : m.malloc = true) :
    ∃ r' lh', OBJ_NAME_add lh_strhash m r name type newData = some (r', 1) ∧
      r'.names_lh = some lh' ∧
      lh_matches (fun e => obj_name_cmp r'.name_funcs_stack e
        (key_of name (Int.land type (Int.lnot OBJ_NAME_ALIAS)))) lh'.items =
          [onp_of name type newData] ∧
      lh'.items.length = lh.items.length ∧
      old.type = Int.land type (Int.lnot OBJ_NAME_ALIAS) ∧
      r'.calls = r.calls ++ free_calls f [old] := by
  obtain ⟨hh, hg⟩ := (retrieve_some_iff _ _ _ _ _).mp hold
  have hfun : (fun e => obj_name_cmp r.name_funcs_stack e
      (key_of name (Int.land type (Int.lnot OBJ_NAME_ALIAS)))) =
      (fun e => obj_name_cmp r.name_funcs_stack e (onp_of name type newData)) :=
    funext (fun e => obj_name_cmp_congr _ e _ _ rfl rfl)
  have hh' : obj_name_hash lh_strhash r.name_funcs_stack (onp_of name type newData) ≠ none := by
    rw [obj_name_hash_congr lh_strhash _ (onp_of name type newData)
      (key_of name (Int.land type (Int.lnot OBJ_NAME_ALIAS))) rfl rfl]
    exact hh
  have hcmp : obj_name_cmp r.name_funcs_stack (onp_of name type newData)
      (onp_of name type newData) = some 0 :=
    obj_name_cmp_same lh_strhash _ _ _ rfl rfl hrefl hh'
  rw [hfun] at hg hone
  have holdt : old.type = Int.land type (Int.lnot OBJ_NAME_ALIAS) :=
    obj_name_cmp_zero_type r.name_funcs_stack old (onp_of name type newData)
      (lh_getrn_zero (fun e => obj_name_cmp r.name_funcs_stack e (onp_of name type newData))
        _ _ hg)
  obtain ⟨items', hrep, hlen, hmat⟩ := lh_replace_found
    (fun e => obj_name_cmp r.name_funcs_stack e (onp_of name type newData))
    (onp_of name type newData) hcmp lh.items old hg
  have htail : (lh_matches (fun e => obj_name_cmp r.name_funcs_stack e
      (onp_of name type newData)) lh.items).tail = [] := by
    apply List.eq_nil_of_length_eq_zero
    rw [List.length_tail]
    omega
  rw [htail] at hmat
  refine ⟨{ names_lh := some { lh with items := items', error := 0 },
            names_type_num := r.names_type_num, name_funcs_stack := r.name_funcs_stack,
            free_type := r.free_type,
            calls := r.calls ++ free_calls f [old] },
    { lh with items := items', error := 0 }, ?_, rfl, ?_, hlen, holdt, rfl⟩
  · unfold OBJ_NAME_add
    simp only [names_lh_ready_some m r lh hlh, hm, hlh]
    unfold lh_OBJ_NAME_insert
    unfold onp_of at hh' hrep
    cases hk : obj_name_hash lh_strhash r.name_funcs_stack
        { name := name, alias_ := Int.land type OBJ_NAME_ALIAS,
          type := Int.land type (Int.lnot OBJ_NAME_ALIAS), data := newData } with
    | none => exact absurd hk hh'
    | some v =>
      have hft := free_things_at
        { names_lh := some { lh with items := items', error := 0 },
          names_type_num := r.names_type_num, name_funcs_stack := r.name_funcs_stack,
          free_type := r.free_type, calls := r.calls } old f (by rw [holdt]; exact hfree)
      simp only [hrep, hft]
      simp
  · simp only
    rw [hfun]
    exact hmat

theorem land_lnot_5 : Int.land 5 (Int.lnot OBJ_NAME_ALIAS) = 5 :=
  land_lnot_of_land_eq_zero 5 _ (by decide)

/-- The sample handler list is the one that `OBJ_NAME_new_index` builds. -/
theorem registry_dyn_reachable :
    OBJ_NAME_new_index hash_len Mem.ok Registry.initial none none (some 7) =
      some ({ registry_dyn [] with names_lh := none }, 5) := by
  rfl

/-- C2, witness: an entry of the registered type 5 is overwritten, and the
free function number 7 is called on the old entry; an entry of type 1 is
overwritten on a registry without handler list, and nothing is called. -/
theorem C2_witness :
    (∃ r' lh', OBJ_NAME_add hash_len Mem.ok (registry_dyn [⟨5, 0, "x", "old"⟩]) "x" 5 "new"
        = some (r', 1) ∧
      r'.names_lh = some lh' ∧
      lh_matches (fun e => obj_name_cmp r'.name_funcs_stack e
        (key_of "x" (Int.land 5 (Int.lnot OBJ_NAME_ALIAS)))) lh'.items =
          [onp_of "x" 5 "new"] ∧
      lh'.items.length = (table_of [⟨5, 0, "x", "old"⟩]).items.length ∧
      (5 : Int) = Int.land 5 (Int.lnot OBJ_NAME_ALIAS) ∧
      r'.calls = (registry_dyn [⟨5, 0, "x", "old"⟩]).calls ++ [⟨7, "x", 5, "old"⟩]) ∧
    (∃ r' lh', OBJ_NAME_add hash_len Mem.ok (registry_of [⟨1, 0, "md5", "old"⟩]) "md5" 1 "new"
        = some (r', 1) ∧
      r'.names_lh = some lh' ∧
      lh_matches (fun e => obj_name_cmp r'.name_funcs_stack e
        (key_of "md5" (Int.land 1 (Int.lnot OBJ_NAME_ALIAS)))) lh'.items =
          [onp_of "md5" 1 "new"] ∧
      lh'.items.length = (table_of [⟨1, 0, "md5", "old"⟩]).items.length ∧
      (1 : Int) = Int.land 1 (Int.lnot OBJ_NAME_ALIAS) ∧
      r'.calls = (registry_of [⟨1, 0, "md5", "old"⟩]).calls ++ []) :=
  ⟨C2_add_replaces hash_len Mem.ok (registry_dyn [⟨5, 0, "x", "old"⟩])
      (table_of [⟨5, 0, "x", "old"⟩]) "x" 5 "new" ⟨5, 0, "x", "old"⟩ (some 7) rfl
      (by rw [land_lnot_5]; rfl) (by rw [land_lnot_5]; decide)
      (by rw [land_lnot_5]; exact ⟨sample_stack, _, rfl, rfl, rfl⟩)
      (by
        intro st nf hst hnf
        cases hst
        rw [land_lnot_5] at hnf
        cases hnf
        exact strcmp_self "x") rfl,
    C2_add_replaces hash_len Mem.ok (registry_of [⟨1, 0, "md5", "old"⟩])
      (table_of [⟨1, 0, "md5", "old"⟩]) "md5" 1 "new" ⟨1, 0, "md5", "old"⟩ none rfl
      (by rw [land_lnot_1]; rfl) (by rw [land_lnot_1]; decide)
      (fun st hst => by cases hst)
      (fun st nf hst => by cases hst) rfl⟩

/-- C2, counterexample: the table holds an entry under `(5, "x")`, and with it
a registered free function, but the allocation of the new entry record fails:
`OBJ_NAME_add` returns 0, not 1, and the registry, the old data and the log of
calls are as before. -/
theorem C2_counterexample :
    OBJ_NAME_add hash_len Mem.no_malloc (registry_dyn [⟨5, 0, "x", "old"⟩]) "x" 5 "new" =
        some (registry_dyn [⟨5, 0, "x", "old"⟩], 0) ∧
      ¬ ∃ r', OBJ_NAME_add hash_len Mem.no_malloc (registry_dyn [⟨5, 0, "x", "old"⟩])
        "x" 5 "new" = some (r', 1) := by
  have h : OBJ_NAME_add hash_len Mem.no_malloc (registry_dyn [⟨5, 0, "x", "old"⟩]) "x" 5 "new" =
      some (registry_dyn [⟨5, 0, "x", "old"⟩], 0) := rfl
  refine ⟨h, ?_⟩
  rintro ⟨r', hr'⟩
  rw [h] at hr'
  simp at hr'

/-! ## OBJ_NAME_get after OBJ_NAME_remove (C3) -/

theorem lh_getrn_no_match (comp : OBJ_NAME → Option Int) (hdef : ∀ e, comp e ≠ none) :
    ∀ items, lh_matches comp items = [] → lh_getrn comp items = some none := by
  intro items
  induction items with
  | nil => intro _; rfl
  | cons e es ih =>
    intro h
    rw [lh_matches_cons] at h
    unfold lh_getrn
    cases hc : comp e with
    | none => exact absurd hc (hdef e)
    | some c =>
      by_cases hz : c = 0
      · subst hz
        simp [hc] at h
      · have hne : comp e ≠ some 0 := by
          rw [hc]; intro hh; exact hz (Option.some.inj hh)
        simp only [hne, if_false] at h
        simp [hz, ih h]

theorem lh_unlink_none (comp : OBJ_NAME → Option Int) :
    ∀ items items', lh_unlink comp items = some (items', none) →
      lh_getrn comp items = some none ∧ items' = items := by
  intro items
  induction items with
  | nil => intro items' h; simp [lh_unlink] at h; exact ⟨rfl, h⟩
  | cons e es ih =>
    intro items' h
    unfold lh_unlink at h
    unfold lh_getrn
    cases hc : comp e with
    | none => simp [hc] at h
    | some c =>
      by_cases hz : c = 0
      · simp [hc, hz] at h
      · simp only [hc, hz, if_false, Option.map_eq_some'] at h
        obtain ⟨p, hp, hpe⟩ := h
        obtain ⟨p1, p2⟩ := p
        simp only [Prod.mk.injEq] at hpe
        obtain ⟨rfl, rfl⟩ := hpe
        obtain ⟨h1, h2⟩ := ih _ hp
        simp [hz, h1, h2]

/-- Unlinking the entry found under a key: the entry is the one the search
finds, and the entries left that compare equal to the key are the old ones
after the first. -/
theorem lh_unlink_some (comp : OBJ_NAME → Option Int) :
    ∀ items items' old, lh_unlink comp items = some (items', some old) →
      lh_getrn comp items = some (some old) ∧
      lh_matches comp items' = (lh_matches comp items).tail ∧
      items'.length + 1 = items.length := by
  intro items
  induction items with
  | nil => intro items' old h; simp [lh_unlink] at h
  | cons e es ih =>
    intro items' old h
    unfold lh_unlink at h
    unfold lh_getrn
    cases hc : comp e with
    | none => simp [hc] at h
    | some c =>
      by_cases hz : c = 0
      · subst hz
        simp only [hc, if_true, Option.some.injEq, Prod.mk.injEq] at h
        obtain ⟨rfl, rfl⟩ := h
        simp [lh_matches_cons, hc]
      · simp only [hc, hz, if_false, Option.map_eq_some'] at h
        obtain ⟨p, hp, hpe⟩ := h
        obtain ⟨p1, p2⟩ := p
        simp only [Prod.mk.injEq] at hpe
        obtain ⟨rfl, rfl⟩ := hpe
        obtain ⟨h1, h2, h3⟩ := ih _ _ hp
        have hne : comp e ≠ some 0 := by
          rw [hc]; intro hh; exact hz (Option.some.inj hh)
        simp [hz, h1, lh_matches_cons, hne, h2, h3]

/-- The result of `OBJ_NAME_remove`, by cases: no table, no entry under the
key, or an entry unlinked and freed. -/
theorem remove_cases (lh_strhash : String → Nat) (r r' : Registry) (name : String)
    (type : Int) (ret : Int) (h : OBJ_NAME_remove lh_strhash r name type = some (r', ret)) :
    (r.names_lh = none ∧ r' = r ∧ ret = 0) ∨
    (∃ lh, r.names_lh = some lh ∧
      obj_name_hash lh_strhash r.name_funcs_stack
        (key_of name (Int.land type (Int.lnot OBJ_NAME_ALIAS))) ≠ none ∧
      ((∃ items', lh_unlink (fun e => obj_name_cmp r.name_funcs_stack e
            (key_of name (Int.land type (Int.lnot OBJ_NAME_ALIAS)))) lh.items
            = some (items', none) ∧ r' = r ∧ ret = 0) ∨
       (∃ items' old, lh_unlink (fun e => obj_name_cmp r.name_funcs_stack e
            (key_of name (Int.land type (Int.lnot OBJ_NAME_ALIAS)))) lh.items
            = some (items', some old) ∧
          free_things { r with names_lh := some { lh with items := items' } } old = some r' ∧
          ret = 1))) := by
  unfold OBJ_NAME_remove at h
  cases hlh : r.names_lh with
  | none =>
    simp only [hlh, Option.some.injEq, Prod.mk.injEq] at h
    exact Or.inl ⟨rfl, h.1.symm, h.2.symm⟩
  | some lh =>
    right
    refine ⟨lh, rfl, ?_⟩
    simp only [hlh] at h
    unfold lh_OBJ_NAME_delete at h
    unfold key_of
    cases hk : obj_name_hash lh_strhash r.name_funcs_stack
        { name := name, type := Int.land type (Int.lnot OBJ_NAME_ALIAS), alias_ := 0,
          data := "" } with
    | none => simp [hk] at h
    | some v =>
      refine ⟨by simp, ?_⟩
      simp only [hk] at h
      cases hu : lh_unlink (fun e => obj_name_cmp r.name_funcs_stack e
          { name := name, type := Int.land type (Int.lnot OBJ_NAME_ALIAS), alias_ := 0,
            data := "" }) lh.items with
      | none => simp [hu] at h
      | some p =>
        obtain ⟨items', o⟩ := p
        simp only [hu, Option.map_some'] at h
        cases o with
        | none =>
          left
          simp only [Option.some.injEq, Prod.mk.injEq] at h
          exact ⟨items', rfl, h.1.symm, h.2.symm⟩
        | some old =>
          right
          simp only [Option.map_eq_some'] at h
          obtain ⟨r2, hr2, he⟩ := h
          simp only [Prod.mk.injEq] at he
          exact ⟨items', old, rfl, he.1 ▸ hr2, he.2.symm⟩

theorem get_loop_not_found (lh_strhash : String → Nat) (r : Registry) (lh : LHASH)
    (type alias_ : Int) (name : String) (num : Nat)
    (hret : lh_OBJ_NAME_retrieve (obj_name_hash lh_strhash r.name_funcs_stack)
      (obj_name_cmp r.name_funcs_stack) lh (key_of name type) = some none) :
    OBJ_NAME_get_loop lh_strhash r lh type alias_ name num = some none := by
  rw [OBJ_NAME_get_loop]
  unfold key_of at hret
  rw [hret]

/-- C3: after `OBJ_NAME_remove(name, type)` has returned, on a registry whose
table holds at most one entry under the key, `OBJ_NAME_get(name, type)`
returns the null pointer. The type is one that can be hashed: it is not
negative, or there is no handler list. -/
theorem C3_remove_then_get (lh_strhash : String → Nat) (m : Mem) (r r' : Registry)
    (name : String) (type : Int) (ret : Int)
    (htype : r.name_funcs_stack = none ∨ 0 ≤ Int.land type (Int.lnot OBJ_NAME_ALIAS))
    (hone : ∀ lh, r.names_lh = some lh →
      (lh_matches (fun e => obj_name_cmp r.name_funcs_stack e
        (key_of name (Int.land type (Int.lnot OBJ_NAME_ALIAS)))) lh.items).length ≤ 1)
    (hrem : OBJ_NAME_remove lh_strhash r name type = some (r', ret)) :
    ∃ r'', OBJ_NAME_get lh_strhash m r' (some name) type = some (r'', none) := by
  have hh : obj_name_hash lh_strhash r.name_funcs_stack
      (key_of name (Int.land type (Int.lnot OBJ_NAME_ALIAS))) ≠ none := by
    rw [Ne, obj_name_hash_eq_none]
    rintro ⟨st, hst, hneg⟩
    rcases htype with h | h
    · rw [h] at hst; cases hst
    · have : (key_of name (Int.land type (Int.lnot OBJ_NAME_ALIAS))).type =
          Int.land type (Int.lnot OBJ_NAME_ALIAS) := rfl
      omega
  have hdef : ∀ e, obj_name_cmp r.name_funcs_stack e
      (key_of name (Int.land type (Int.lnot OBJ_NAME_ALIAS))) ≠ none := by
    intro e
    obtain ⟨c, hc⟩ := obj_name_cmp_defined lh_strhash r.name_funcs_stack e _ hh
    simp [hc]
  rcases remove_cases lh_strhash r r' name type ret hrem with
    ⟨hlh, rfl, -⟩ | ⟨lh, hlh, -, hc⟩
  · -- no table: `OBJ_NAME_get` creates one, or fails to
    unfold OBJ_NAME_get
    by_cases hnew : m.lh_new = true
    · refine ⟨{ r' with names_lh := lh_OBJ_NAME_new m }, ?_⟩
      simp only [names_lh_ready, hlh, OBJ_NAME_init, lh_OBJ_NAME_new, hnew, if_true]
      simp only [Option.isSome_some, if_true, one_ne_zero, if_false]
      rw [get_loop_not_found]
      · rfl
      · exact (retrieve_some_iff _ _ _ _ _).mpr ⟨hh, rfl⟩
    · refine ⟨{ r' with names_lh := lh_OBJ_NAME_new m }, ?_⟩
      simp [names_lh_ready, hlh, OBJ_NAME_init, lh_OBJ_NAME_new, hnew]
  · have hfin : ∃ lh1, r'.names_lh = some lh1 ∧ r'.name_funcs_stack = r.name_funcs_stack ∧
        lh_getrn (fun e => obj_name_cmp r.name_funcs_stack e
          (key_of name (Int.land type (Int.lnot OBJ_NAME_ALIAS)))) lh1.items = some none := by
      rcases hc with ⟨items', hu, rfl, -⟩ | ⟨items', old, hu, hfree, -⟩
      · exact ⟨lh, hlh, rfl, (lh_unlink_none _ _ _ hu).1⟩
      · obtain ⟨h1, h2, -, -⟩ := free_things_frame _ _ _ hfree
        refine ⟨_, h1, h2, ?_⟩
        obtain ⟨-, hm, -⟩ := lh_unlink_some _ _ _ _ hu
        apply lh_getrn_no_match _ hdef
        apply List.eq_nil_of_length_eq_zero
        have := hone lh hlh
        simp only
        rw [hm, List.length_tail]
        omega
    obtain ⟨lh1, hlh1, hstk, hg⟩ := hfin
    refine ⟨r', ?_⟩
    rw [get_of_table lh_strhash m r' lh1 name type hlh1, get_loop_not_found]
    · rfl
    · rw [hstk]
      exact (retrieve_some_iff _ _ _ _ _).mpr ⟨hh, hg⟩

/-- C3, witness: removing the one entry of a table, then looking it up. -/
theorem C3_witness :
    OBJ_NAME_remove hash_len (registry_of [⟨1, 0, "md5", "x"⟩]) "md5" 1 =
        some (registry_of [], 1) ∧
      ∃ r'', OBJ_NAME_get hash_len Mem.ok (registry_of []) (some "md5") 1 = some (r'', none) :=
  have hrem : OBJ_NAME_remove hash_len (registry_of [⟨1, 0, "md5", "x"⟩]) "md5" 1 =
      some (registry_of [], 1) := by
    unfold OBJ_NAME_remove
    simp only [land_lnot_1]
    rfl
  ⟨hrem, C3_remove_then_get hash_len Mem.ok (registry_of [⟨1, 0, "md5", "x"⟩])
    (registry_of []) "md5" 1 1 (Or.inl rfl)
    (by
      intro lh h
      obtain rfl : table_of [⟨1, 0, "md5", "x"⟩] = lh := Option.some.inj h
      rw [land_lnot_1]
      decide)
    hrem⟩

/-! ## Alias resolution in OBJ_NAME_get (C4, C5, C6) -/

/-- One turn of the loop of `OBJ_NAME_get` on an alias entry, without the
alias bit: the limit is tested, then the lookup goes on from the data. -/
theorem get_loop_alias (lh_strhash : String → Nat) (r : Registry) (lh : LHASH)
    (type : Int) (name : String) (num : Nat) (ret : OBJ_NAME)
    (hret : table_lookup lh_strhash r lh type name = some (some ret))
    (halias : ret.alias_ ≠ 0) :
    OBJ_NAME_get_loop lh_strhash r lh type 0 name num =
      if num + 1 > 10 then some none
      else OBJ_NAME_get_loop lh_strhash r lh type 0 ret.data (num + 1) := by
  rw [OBJ_NAME_get_loop]
  unfold table_lookup key_of at hret
  rw [hret]
  simp only [halias, ne_eq, not_false_eq_true, and_self, if_true]
  split <;> rfl

/-- The loop gives up when the aliases still to follow exceed the limit. -/
theorem get_loop_follows (lh_strhash : String → Nat) (r : Registry) (lh : LHASH)
    (type : Int) :
    ∀ k num name, follows_aliases (table_lookup lh_strhash r lh type) (k + 1) name = true →
      11 ≤ num + (k + 1) →
      OBJ_NAME_get_loop lh_strhash r lh type 0 name num = some none := by
  intro k
  induction k with
  | zero =>
    intro num name h hn
    unfold follows_aliases at h
    split at h
    · rename_i e he
      simp only [Bool.and_eq_true, decide_eq_true_eq] at h
      rw [get_loop_alias lh_strhash r lh type name num e he h.1]
      have : num + 1 > 10 := by omega
      simp [this]
    · simp at h
  | succ k ih =>
    intro num name h hn
    unfold follows_aliases at h
    split at h
    · rename_i e he
      simp only [Bool.and_eq_true, decide_eq_true_eq] at h
      rw [get_loop_alias lh_strhash r lh type name num e he h.1]
      by_cases hlim : num + 1 > 10
      · simp [hlim]
      · simp only [hlim, if_false]
        exact ih (num + 1) e.data h.2 (by omega)
    · simp at h

/-- The loop reaches the entry that is no alias when the aliases before it
are within the limit. -/
theorem get_loop_resolves (lh_strhash : String → Nat) (r : Registry) (lh : LHASH)
    (type : Int) (x : String) :
    ∀ k num name, resolves_to (table_lookup lh_strhash r lh type) k name = some x →
      num + k ≤ 10 →
      OBJ_NAME_get_loop lh_strhash r lh type 0 name num = some (some x) := by
  intro k
  induction k with
  | zero =>
    intro num name h _
    unfold resolves_to at h
    split at h
    · rename_i e he
      by_cases ha : e.alias_ = 0
      · simp only [ha, if_true, Option.some.injEq] at h
        rw [get_loop_direct lh_strhash r lh type 0 name num e he (by simp [ha]), h]
      · simp [ha] at h
    · simp at h
  | succ k ih =>
    intro num name h hn
    unfold resolves_to at h
    split at h
    · rename_i e he
      by_cases ha : e.alias_ = 0
      · simp [ha] at h
      · simp only [ne_eq, ha, not_false_eq_true, if_true] at h
        rw [get_loop_alias lh_strhash r lh type name num e he ha]
        have hlim : ¬ num + 1 > 10 := by omega
        simp only [hlim, if_false]
        exact ih (num + 1) e.data h (by omega)
    · simp at h

theorem follows_aliases_succ (lookup : String → Option (Option OBJ_NAME)) :
    ∀ k name, follows_aliases lookup (k + 1) name = true → follows_aliases lookup k name = true := by
  intro k
  induction k with
  | zero => intro name _; rfl
  | succ k ih =>
    intro name h
    unfold follows_aliases at h ⊢
    split at h
    · rename_i e he
      simp only [Bool.and_eq_true, decide_eq_true_eq] at h
      simp only [he, Bool.and_eq_true, decide_eq_true_eq]
      exact ⟨h.1, ih _ h.2⟩
    · simp at h

theorem resolves_to_follows (lookup : String → Option (Option OBJ_NAME)) (x : String) :
    ∀ k name, resolves_to lookup k name = some x → follows_aliases lookup k name = true := by
  intro k
  induction k with
  | zero => intro name _; rfl
  | succ k ih =>
    intro name h
    unfold resolves_to at h
    unfold follows_aliases
    split at h
    · rename_i e he
      by_cases ha : e.alias_ = 0
      · simp [ha] at h
      · simp only [ne_eq, ha, not_false_eq_true, if_true] at h
        simp only [he, Bool.and_eq_true, decide_eq_true_eq]
        exact ⟨ha, ih _ h⟩
    · simp at h

/-- C5: when following alias targets from `name` at the type passes through 11
or more alias entries, with no entry that is no alias among them,
`OBJ_NAME_get` without the alias bit returns the null pointer. -/
theorem C5_alias_limit (lh_strhash : String → Nat) (m : Mem) (r : Registry) (lh : LHASH)
    (name : String) (type : Int) (k : Nat)
    (hlh : r.names_lh = some lh)
    (hbit : Int.land type OBJ_NAME_ALIAS = 0)
    (hk : 11 ≤ k)
    (hpath : follows_aliases (table_lookup lh_strhash r lh type) k name = true) :
    OBJ_NAME_get lh_strhash m r (some name) type = some (r, none) := by
  rw [get_of_table lh_strhash m r lh name type hlh, hbit,
    land_lnot_of_land_eq_zero type _ hbit]
  obtain ⟨j, rfl⟩ : ∃ j, k = j + 1 := ⟨k - 1, by omega⟩
  rw [get_loop_follows lh_strhash r lh type j 0 name hpath (by omega)]
  rfl

/-- C6: when following alias targets from `name` at the type passes through
exactly `k` alias entries and then reaches an entry that is no alias, with
data `x`, `OBJ_NAME_get` without the alias bit returns `x` for `k ≤ 10`, and
the null pointer for `k ≥ 11`. -/
theorem C6_alias_resolution (lh_strhash : String → Nat) (m : Mem) (r : Registry) (lh : LHASH)
    (name : String) (type : Int) (k : Nat) (x : String)
    (hlh : r.names_lh = some lh)
    (hbit : Int.land type OBJ_NAME_ALIAS = 0)
    (hpath : resolves_to (table_lookup lh_strhash r lh type) k name = some x) :
    OBJ_NAME_get lh_strhash m r (some name) type =
      some (r, if k ≤ 10 then some x else none) := by
  rw [get_of_table lh_strhash m r lh name type hlh, hbit,
    land_lnot_of_land_eq_zero type _ hbit]
  by_cases hk : k ≤ 10
  · rw [get_loop_resolves lh_strhash r lh type x k 0 name hpath (by omega)]
    simp [hk]
  · obtain ⟨j, rfl⟩ : ∃ j, k = j + 1 := ⟨k - 1, by omega⟩
    rw [get_loop_follows lh_strhash r lh type j 0 name
      (resolves_to_follows _ x _ _ hpath) (by omega)]
    simp [hk]

/-- C4: on a registry where `a` is stored as an alias with data `b`, `b` as an
alias with data `c`, and `c` as an entry that is no alias with data `x`, all at
the type `t`: `OBJ_NAME_get(a, t)` returns `x`, and
`OBJ_NAME_get(a, t | OBJ_NAME_ALIAS)` returns `b`. -/
theorem C4_alias_chain (lh_strhash : String → Nat) (m : Mem) (r : Registry) (lh : LHASH)
    (t : Int) (a b c x : String) (ea eb ec : OBJ_NAME)
    (hlh : r.names_lh = some lh)
    (hbit : Int.land t OBJ_NAME_ALIAS = 0)
    (ha : table_lookup lh_strhash r lh t a = some (some ea))
    (ha1 : ea.alias_ ≠ 0) (ha2 : ea.data = b)
    (hb : table_lookup lh_strhash r lh t b = some (some eb))
    (hb1 : eb.alias_ ≠ 0) (hb2 : eb.data = c)
    (hc : table_lookup lh_strhash r lh t c = some (some ec))
    (hc1 : ec.alias_ = 0) (hc2 : ec.data = x) :
    OBJ_NAME_get lh_strhash m r (some a) t = some (r, some x) ∧
    OBJ_NAME_get lh_strhash m r (some a) (Int.lor t OBJ_NAME_ALIAS) = some (r, some b) := by
  constructor
  · rw [get_of_table lh_strhash m r lh a t hlh, hbit, land_lnot_of_land_eq_zero t _ hbit,
      get_loop_alias lh_strhash r lh t a 0 ea ha ha1, ha2]
    simp only [Nat.zero_add, gt_iff_lt, Nat.not_lt_of_le (by norm_num : 1 ≤ 10), if_false]
    rw [get_loop_alias lh_strhash r lh t b 1 eb hb hb1, hb2]
    simp only [gt_iff_lt, Nat.not_lt_of_le (by norm_num : 1 + 1 ≤ 10), if_false]
    rw [get_loop_direct lh_strhash r lh t 0 c (1 + 1) ec hc (by simp [hc1]), hc2]
    rfl
  · rw [get_of_table lh_strhash m r lh a _ hlh, land_lor_lnot, land_lor_self,
      land_lnot_of_land_eq_zero t _ hbit,
      get_loop_direct lh_strhash r lh t OBJ_NAME_ALIAS a 0 ea ha
        (by intro h; exact absurd h.2 (by decide)), ha2]
    rfl

/-- C4, witness: the chain `A -> B -> C = X` of kind 1. -/
theorem C4_witness :
    OBJ_NAME_get hash_len Mem.ok (registry_of sample_aliases) (some "A") 1 =
        some (registry_of sample_aliases, some "X") ∧
      OBJ_NAME_get hash_len Mem.ok (registry_of sample_aliases) (some "A")
        (Int.lor 1 OBJ_NAME_ALIAS) = some (registry_of sample_aliases, some "B") :=
  C4_alias_chain hash_len Mem.ok (registry_of sample_aliases) (table_of sample_aliases) 1
    "A" "B" "C" "X" ⟨1, 0x8000, "A", "B"⟩ ⟨1, 0x8000, "B", "C"⟩ ⟨1, 0, "C", "X"⟩
    rfl (by decide) rfl (by decide) rfl rfl (by decide) rfl rfl rfl rfl

/-- C5, witness: an alias whose target is itself. -/
theorem C5_witness :
    follows_aliases (table_lookup hash_len (registry_of sample_self_alias)
        (table_of sample_self_alias) 1) 11 "A" = true ∧
      OBJ_NAME_get hash_len Mem.ok (registry_of sample_self_alias) (some "A") 1 =
        some (registry_of sample_self_alias, none) :=
  ⟨by rfl, C5_alias_limit hash_len Mem.ok (registry_of sample_self_alias)
    (table_of sample_self_alias) "A" 1 11 rfl (by decide) (le_refl 11) (by rfl)⟩

/-- C6, witness: ten aliases, then the target. -/
theorem C6_witness :
    resolves_to (table_lookup hash_len (registry_of sample_chain) (table_of sample_chain) 1)
        10 "n0" = some "X" ∧
      OBJ_NAME_get hash_len Mem.ok (registry_of sample_chain) (some "n0") 1 =
        some (registry_of sample_chain, if 10 ≤ 10 then some "X" else none) :=
  ⟨by rfl, C6_alias_resolution hash_len Mem.ok (registry_of sample_chain)
    (table_of sample_chain) "n0" 1 10 "X" rfl (by decide) (by rfl)⟩

/-! ## OBJ_NAME_new_index -/

/-- The loop of `OBJ_NAME_new_index` appends default records only, one for
each pass when no allocation of a record and no push fails. -/
theorem new_index_fill_spec (lh_strhash : String → Nat) (m : Mem) :
    ∀ n i st st1 b, new_index_fill lh_strhash m n i st = (st1, b) →
      ∃ k, k ≤ n ∧ ((∀ j, m.sk_push j = true) → b = true → k = n) ∧
        st1 = st ++ List.replicate k
          { hash_func := lh_strhash, cmp_func := strcmp, free_func := none } := by
  intro n
  induction n with
  | zero =>
    intro i st st1 b h
    simp only [new_index_fill, Prod.mk.injEq] at h
    exact ⟨0, le_refl 0, fun _ _ => rfl, by simp [h.1]⟩
  | succ n ih =>
    intro i st st1 b h
    unfold new_index_fill at h
    by_cases hz : m.zalloc i = true
    · simp only [hz, if_true] at h
      obtain ⟨k, hk, hb, hst⟩ := ih _ _ _ _ h
      by_cases hp : m.sk_push i = true
      · refine ⟨k + 1, by omega, fun hall hbt => by rw [hb hall hbt], ?_⟩
        rw [hst]
        unfold sk_NAME_FUNCS_push
        rw [if_pos hp, List.append_assoc]
        rfl
      · refine ⟨k, by omega, fun hall _ => absurd (hall i) hp, ?_⟩
        rw [hst]
        unfold sk_NAME_FUNCS_push
        rw [if_neg hp]
    · simp only [hz, Bool.false_eq_true, if_false, Prod.mk.injEq] at h
      refine ⟨0, by omega, fun _ hbt => ?_, by simp [h.1]⟩
      rw [← h.2] at hbt
      cases hbt

/-- The result of `OBJ_NAME_new_index`, by cases: the handler list could not
be created, a handler record could not be allocated, or the new id is the old
value of the counter. The handler list grows by default records, one for each
pass of the loop when no push fails. -/
theorem new_index_cases (lh_strhash : String → Nat) (m : Mem) (r r' : Registry)
    (hash_func : Option (String → Nat)) (cmp_func : Option (String → String → Int))
    (free_func : Option Nat) (id : Int)
    (h : OBJ_NAME_new_index lh_strhash m r hash_func cmp_func free_func = some (r', id)) :
    (r.name_funcs_stack = none ∧ r' = r ∧ id = 0) ∨
    (∃ st0 st1, (r.name_funcs_stack = some st0 ∨ (r.name_funcs_stack = none ∧ st0 = [])) ∧
      r.names_type_num < INT_MAX ∧
      r'.names_type_num = r.names_type_num + 1 ∧ r'.names_lh = r.names_lh ∧
      r'.free_type = r.free_type ∧ r'.calls = r.calls ∧
      ((∃ k, k ≤ (r.names_type_num + 1 - sk_NAME_FUNCS_num st0).toNat ∧
          st1 = st0 ++ List.replicate k
            { hash_func := lh_strhash, cmp_func := strcmp, free_func := none } ∧
          r'.name_funcs_stack = some st1 ∧ id = 0) ∨
       ((∃ k, k ≤ (r.names_type_num + 1 - sk_NAME_FUNCS_num st0).toNat ∧
            ((∀ j, m.sk_push j = true) →
              k = (r.names_type_num + 1 - sk_NAME_FUNCS_num st0).toNat) ∧
            st1 = st0 ++ List.replicate k
              { hash_func := lh_strhash, cmp_func := strcmp, free_func := none }) ∧
          id = r.names_type_num ∧
          ((sk_NAME_FUNCS_value st1 r.names_type_num = none ∧
              r'.name_funcs_stack = some st1) ∨
           (∃ nf nf', sk_NAME_FUNCS_value st1 r.names_type_num = some nf ∧
              r'.name_funcs_stack = some (st1.set r.names_type_num.toNat nf') ∧
              nf'.hash_func = hash_func.getD nf.hash_func ∧
              nf'.cmp_func = cmp_func.getD nf.cmp_func ∧
              nf'.free_func = (match free_func with
                | some f => some f
                | none => nf.free_func)))))) := by
  unfold OBJ_NAME_new_index at h
  simp only at h
  split at h
  · -- no handler list
    rename_i hs0
    simp only [Option.some.injEq, Prod.mk.injEq] at h
    left
    refine ⟨?_, h.1.symm, h.2.symm⟩
    cases hs : r.name_funcs_stack with
    | none => rfl
    | some st => simp [hs] at hs0
  · rename_i st0 hs0
    right
    have hst0 : r.name_funcs_stack = some st0 ∨ (r.name_funcs_stack = none ∧ st0 = []) := by
      cases hs : r.name_funcs_stack with
      | none =>
        right
        simp only [hs] at hs0
        split at hs0
        · simp only [Option.some.injEq] at hs0
          exact ⟨rfl, hs0.symm⟩
        · cases hs0
      | some st =>
        left
        simp only [hs, Option.some.injEq] at hs0
        rw [hs0]
    split at h
    · cases h
    · rename_i hmax
      cases hfill : new_index_fill lh_strhash m
          (r.names_type_num + 1 - sk_NAME_FUNCS_num st0).toNat st0.length st0 with
      | mk st1 b =>
        obtain ⟨k, hkn, hb, hst1⟩ := new_index_fill_spec lh_strhash m _ _ _ _ _ hfill
        refine ⟨st0, st1, hst0, by omega, ?_⟩
        rw [hfill] at h
        cases b with
        | false =>
          simp only [Option.some.injEq, Prod.mk.injEq] at h
          obtain ⟨rfl, rfl⟩ := h
          exact ⟨rfl, rfl, rfl, rfl, Or.inl ⟨k, hkn, hst1, rfl, rfl⟩⟩
        | true =>
          have hst1' : ∃ k, k ≤ (r.names_type_num + 1 - sk_NAME_FUNCS_num st0).toNat ∧
              ((∀ j, m.sk_push j = true) →
                k = (r.names_type_num + 1 - sk_NAME_FUNCS_num st0).toNat) ∧
              st1 = st0 ++ List.replicate k
                { hash_func := lh_strhash, cmp_func := strcmp, free_func := none } :=
            ⟨k, hkn, fun hall => hb hall rfl, hst1⟩
          simp only at h
          split at h
          · rename_i hv
            split at h
            · simp only [Option.some.injEq, Prod.mk.injEq] at h
              obtain ⟨rfl, rfl⟩ := h
              exact ⟨rfl, rfl, rfl, rfl, Or.inr ⟨hst1', rfl, Or.inl ⟨hv, rfl⟩⟩⟩
            · cases h
          · rename_i nf hv
            simp only [Option.some.injEq, Prod.mk.injEq] at h
            obtain ⟨rfl, rfl⟩ := h
            refine ⟨rfl, rfl, rfl, rfl, Or.inr ⟨hst1', rfl, Or.inr ⟨nf, _, hv, rfl, ?_, ?_, ?_⟩⟩⟩
            · cases hash_func <;> cases cmp_func <;> cases free_func <;> rfl
            · cases hash_func <;> cases cmp_func <;> cases free_func <;> rfl
            · cases hash_func <;> cases cmp_func <;> cases free_func <;> rfl

/-! ## The ids that OBJ_NAME_new_index returns (C8) -/

theorem get_counter (lh_strhash : String → Nat) (m : Mem) (r r' : Registry)
    (name : Option String) (type : Int) (res : Option String)
    (h : OBJ_NAME_get lh_strhash m r name type = some (r', res)) :
    r'.names_type_num = r.names_type_num := by
  unfold OBJ_NAME_get at h
  obtain ⟨-, hnum, -, -⟩ := names_lh_ready_frame m r
  cases name with
  | none =>
    simp only [Option.some.injEq, Prod.mk.injEq] at h
    rw [← h.1]
  | some name =>
    simp only at h
    split at h
    · simp only [Option.some.injEq, Prod.mk.injEq] at h
      rw [← h.1, hnum]
    · split at h
      · cases h
      · simp only [Option.map_eq_some', Prod.mk.injEq] at h
        obtain ⟨_, -, h1, -⟩ := h
        rw [← h1, hnum]

theorem add_counter (lh_strhash : String → Nat) (m : Mem) (r r' : Registry)
    (name : String) (type : Int) (data : String) (ret : Int)
    (h : OBJ_NAME_add lh_strhash m r name type data = some (r', ret)) :
    r'.names_type_num = r.names_type_num := by
  unfold OBJ_NAME_add at h
  obtain ⟨-, hnum, -, -⟩ := names_lh_ready_frame m r
  simp only at h
  split at h
  · simp only [Option.some.injEq, Prod.mk.injEq] at h
    rw [← h.1, hnum]
  · split at h
    · simp only [Option.some.injEq, Prod.mk.injEq] at h
      rw [← h.1, hnum]
    · split at h
      · cases h
      · split at h
        · cases h
        · simp only [Option.map_eq_some', Prod.mk.injEq] at h
          obtain ⟨r2, hr2, h1, -⟩ := h
          obtain ⟨-, -, h3, -⟩ := free_things_frame _ _ _ hr2
          rw [← h1, h3, hnum]
        · split at h
          · simp only [Option.some.injEq, Prod.mk.injEq] at h
            rw [← h.1, hnum]
          · simp only [Option.some.injEq, Prod.mk.injEq] at h
            rw [← h.1, hnum]

/-- What `OBJ_NAME_remove` leaves as it is: the handler list, the counter and
`free_type`. -/
theorem remove_frame (lh_strhash : String → Nat) (r r' : Registry) (name : String)
    (type : Int) (ret : Int) (h : OBJ_NAME_remove lh_strhash r name type = some (r', ret)) :
    r'.name_funcs_stack = r.name_funcs_stack ∧ r'.names_type_num = r.names_type_num ∧
      r'.free_type = r.free_type := by
  rcases remove_cases lh_strhash r r' name type ret h with
    ⟨-, rfl, -⟩ | ⟨lh, -, -, ⟨_, -, rfl, -⟩ | ⟨_, _, -, hfree, -⟩⟩
  · exact ⟨rfl, rfl, rfl⟩
  · exact ⟨rfl, rfl, rfl⟩
  · obtain ⟨-, h2, h3, h4⟩ := free_things_frame _ _ _ hfree
    exact ⟨h2, h3, h4⟩

theorem doall_frame (lh_strhash : String → Nat) :
    ∀ items r r', lh_OBJ_NAME_doall (names_lh_free_doall lh_strhash) items r = some r' →
      r'.name_funcs_stack = r.name_funcs_stack ∧ r'.names_type_num = r.names_type_num ∧
        r'.free_type = r.free_type := by
  intro items
  induction items with
  | nil =>
    intro r r' h
    simp only [lh_OBJ_NAME_doall, Option.some.injEq] at h
    subst h
    exact ⟨rfl, rfl, rfl⟩
  | cons e es ih =>
    intro r r' h
    unfold lh_OBJ_NAME_doall at h
    split at h
    · cases h
    · rename_i r1 hr1
      obtain ⟨h1, h2, h3⟩ := ih _ _ h
      have : r1.name_funcs_stack = r.name_funcs_stack ∧
          r1.names_type_num = r.names_type_num ∧ r1.free_type = r.free_type := by
        unfold names_lh_free_doall at hr1
        split at hr1
        · simp only [Option.map_eq_some'] at hr1
          obtain ⟨p, hp, rfl⟩ := hr1
          exact remove_frame lh_strhash r p.1 _ _ p.2 hp
        · simp only [Option.some.injEq] at hr1
          subst hr1
          exact ⟨rfl, rfl, rfl⟩
      exact ⟨h1.trans this.1, h2.trans this.2.1, h3.trans this.2.2⟩

theorem cleanup_counter (lh_strhash : String → Nat) (r r' : Registry) (type : Int)
    (h : OBJ_NAME_cleanup lh_strhash r type = some r') :
    r'.names_type_num = r.names_type_num := by
  unfold OBJ_NAME_cleanup at h
  split at h
  · simp only [Option.some.injEq] at h
    rw [← h]
  · simp only at h
    split at h
    · cases h
    · rename_i r1 hr1
      obtain ⟨-, h2, -⟩ := doall_frame lh_strhash _ _ _ hr1
      split at h
      · simp only [Option.some.injEq] at h
        rw [← h]
        exact h2
      · simp only [Option.some.injEq] at h
        rw [← h]
        exact h2

/-- One call changes the counter only in `OBJ_NAME_new_index`, which returns 0
or the old value of the counter and, in the second case, adds one to it. -/
theorem step_counter (lh_strhash : String → Nat) (r r' : Registry) (op : Op)
    (id : Option Int) (h : step lh_strhash r op = some (r', id)) :
    (id = none ∧ r'.names_type_num = r.names_type_num) ∨
    (id = some 0 ∧ r.names_type_num ≤ r'.names_type_num) ∨
    (id = some r.names_type_num ∧ r'.names_type_num = r.names_type_num + 1) := by
  cases op with
  | init m =>
    simp only [step, Option.some.injEq, Prod.mk.injEq] at h
    left
    refine ⟨h.2.symm, ?_⟩
    rw [← h.1]
    unfold OBJ_NAME_init
    cases r.names_lh <;> rfl
  | new_index m hf cf ff =>
    simp only [step, Option.map_eq_some', Prod.mk.injEq] at h
    obtain ⟨p, hp, rfl, rfl⟩ := h
    right
    rcases new_index_cases lh_strhash m r p.1 hf cf ff p.2 hp with
      ⟨-, h1, h2⟩ | ⟨st0, st1, -, -, hnum, -, -, -, ⟨k, -, -, -, h0⟩ | ⟨-, hid, -⟩⟩
    · left
      rw [h1, h2]
      exact ⟨rfl, le_refl _⟩
    · left
      rw [h0, hnum]
      exact ⟨rfl, by omega⟩
    · right
      rw [hid, hnum]
      exact ⟨rfl, rfl⟩
  | get m name type =>
    simp only [step, Option.map_eq_some', Prod.mk.injEq] at h
    obtain ⟨p, hp, rfl, rfl⟩ := h
    exact Or.inl ⟨rfl, get_counter lh_strhash m r p.1 name type p.2 hp⟩
  | add m name type data =>
    simp only [step, Option.map_eq_some', Prod.mk.injEq] at h
    obtain ⟨p, hp, rfl, rfl⟩ := h
    exact Or.inl ⟨rfl, add_counter lh_strhash m r p.1 name type data p.2 hp⟩
  | remove name type =>
    simp only [step, Option.map_eq_some', Prod.mk.injEq] at h
    obtain ⟨p, hp, rfl, rfl⟩ := h
    exact Or.inl ⟨rfl, (remove_frame lh_strhash r p.1 name type p.2 hp).2.1⟩
  | cleanup type =>
    simp only [step, Option.map_eq_some', Prod.mk.injEq] at h
    obtain ⟨r1, hp, rfl, rfl⟩ := h
    exact Or.inl ⟨rfl, cleanup_counter lh_strhash r r1 type hp⟩

theorem run_counter (lh_strhash : String → Nat) :
    ∀ ops r r' ids, OBJ_NAME_TYPE_NUM ≤ r.names_type_num →
      run lh_strhash r ops = some (r', ids) →
      r.names_type_num ≤ r'.names_type_num ∧
      List.Pairwise (fun a b => b ≠ 0 → a < b) ids ∧
      ∀ id ∈ ids, (id = 0 ∨ r.names_type_num ≤ id) ∧ id < r'.names_type_num := by
  intro ops
  induction ops with
  | nil =>
    intro r r' ids _ h
    simp only [run, Option.some.injEq, Prod.mk.injEq] at h
    obtain ⟨rfl, rfl⟩ := h
    simp
  | cons op ops ih =>
    intro r r' ids hr h
    have hT : (0 : Int) < OBJ_NAME_TYPE_NUM := by decide
    unfold run at h
    split at h
    · cases h
    · rename_i r1 id hstep
      split at h
      · cases h
      · rename_i r2 ids' hrun
        simp only [Option.some.injEq, Prod.mk.injEq] at h
        obtain ⟨rfl, rfl⟩ := h
        rcases step_counter lh_strhash r r1 op id hstep with
          ⟨rfl, hnum⟩ | ⟨rfl, hnum⟩ | ⟨rfl, hnum⟩
        · obtain ⟨h1, h2, h3⟩ := ih r1 r2 ids' (by omega) hrun
          refine ⟨by omega, h2, fun j hj => ?_⟩
          obtain ⟨h4, h5⟩ := h3 j hj
          exact ⟨by omega, h5⟩
        · obtain ⟨h1, h2, h3⟩ := ih r1 r2 ids' (by omega) hrun
          refine ⟨by omega, ?_, ?_⟩
          · rw [List.pairwise_cons]
            refine ⟨fun b hb hb0 => ?_, h2⟩
            obtain ⟨h4, -⟩ := h3 b hb
            omega
          · intro j hj
            rw [List.mem_cons] at hj
            rcases hj with rfl | hj
            · exact ⟨Or.inl rfl, by omega⟩
            · obtain ⟨h4, h5⟩ := h3 j hj
              exact ⟨by omega, h5⟩
        · obtain ⟨h1, h2, h3⟩ := ih r1 r2 ids' (by omega) hrun
          refine ⟨by omega, ?_, ?_⟩
          · rw [List.pairwise_cons]
            refine ⟨fun b hb hb0 => ?_, h2⟩
            obtain ⟨h4, -⟩ := h3 b hb
            omega
          · intro j hj
            rw [List.mem_cons] at hj
            rcases hj with rfl | hj
            · exact ⟨Or.inr (le_refl _), by omega⟩
            · obtain ⟨h4, h5⟩ := h3 j hj
              exact ⟨by omega, h5⟩

/-- C8: in every sequence of calls from the initial state, each value that
`OBJ_NAME_new_index` returns is less than every later value that is not the
failure value 0, each value is 0 or at least `OBJ_NAME_TYPE_NUM`, and the
counter, which is the value that the next successful call returns, stays at
least `OBJ_NAME_TYPE_NUM` and above every value returned so far. -/
theorem C8_new_index_fresh (lh_strhash : String → Nat) (ops : List Op) (r : Registry)
    (ids : List Int) (h : run lh_strhash Registry.initial ops = some (r, ids)) :
    List.Pairwise (fun a b => b ≠ 0 → a < b) ids ∧
    (∀ id ∈ ids, id = 0 ∨ OBJ_NAME_TYPE_NUM ≤ id) ∧
    OBJ_NAME_TYPE_NUM ≤ r.names_type_num ∧
    (∀ id ∈ ids, id < r.names_type_num) ∧ OBJ_NAME_TYPE_NUM ≠ 0 := by
  obtain ⟨h1, h2, h3⟩ := run_counter lh_strhash ops Registry.initial r ids (le_refl _) h
  exact ⟨h2, fun id hid => (h3 id hid).1, h1, fun id hid => (h3 id hid).2, by decide⟩

/-- C8, witness: the sample sequence returns the ids 5, 0 (the failed call)
and 7. -/
theorem C8_witness :
    (run hash_len Registry.initial sample_ops).map Prod.snd = some [5, 0, 7] ∧
    List.Pairwise (fun a b => b ≠ 0 → a < b) [(5 : Int), 0, 7] :=
  have h : run hash_len Registry.initial sample_ops =
      some ({ names_lh := none, names_type_num := 8,
              name_funcs_stack := some (List.replicate 8
                { hash_func := hash_len, cmp_func := strcmp, free_func := none }),
              free_type := -1, calls := [] }, [5, 0, 7]) := by
    rfl
  ⟨by rw [h]; rfl, (C8_new_index_fresh hash_len sample_ops _ [5, 0, 7] h).1⟩

/-! ## Null free functions (C7) and the handler record of a new type -/

/-- C7, the defect at a concrete input: after `OBJ_NAME_new_index(NULL, NULL,
NULL)` has returned 5, the handler list has the slots 0 to 5 and none has a
free function. Removing or overwriting an entry of the new type 5, or of the
built-in type 1 whose slot was backfilled, calls the null function pointer:
the operation has no result. -/
theorem C7_null_free_func_called :
    OBJ_NAME_new_index hash_len Mem.ok (registry_of []) none none none =
        some (registry_plain [], 5) ∧
    OBJ_NAME_add hash_len Mem.ok (registry_plain []) "x" 5 "d" =
        some (registry_plain [⟨5, 0, "x", "d"⟩], 1) ∧
    OBJ_NAME_remove hash_len (registry_plain [⟨5, 0, "x", "d"⟩]) "x" 5 = none ∧
    OBJ_NAME_add hash_len Mem.ok (registry_plain [⟨5, 0, "x", "d"⟩]) "x" 5 "e" = none ∧
    OBJ_NAME_add hash_len Mem.ok (registry_plain []) "md5" 1 "d" =
        some (registry_plain [⟨1, 0, "md5", "d"⟩], 1) ∧
    OBJ_NAME_remove hash_len (registry_plain [⟨1, 0, "md5", "d"⟩]) "md5" 1 = none := by
  refine ⟨rfl, ?_, ?_, ?_, ?_, ?_⟩
  · unfold OBJ_NAME_add
    simp only [land_lnot_5]
    rfl
  · unfold OBJ_NAME_remove
    simp only [land_lnot_5]
    rfl
  · unfold OBJ_NAME_add
    simp only [land_lnot_5]
    rfl
  · unfold OBJ_NAME_add
    simp only [land_lnot_1]
    rfl
  · unfold OBJ_NAME_remove
    simp only [land_lnot_1]
    rfl

theorem sk_value_eq (st : List NAME_FUNCS) (i : Int) (h : 0 ≤ i) :
    sk_NAME_FUNCS_value st i = st[i.toNat]? := by
  unfold sk_NAME_FUNCS_value
  simp [not_lt.mpr h]

theorem sk_value_some_bounds (st : List NAME_FUNCS) (i : Int) (nf : NAME_FUNCS)
    (h : sk_NAME_FUNCS_value st i = some nf) : 0 ≤ i ∧ i.toNat < st.length := by
  unfold sk_NAME_FUNCS_value at h
  by_cases hneg : i < 0
  · simp [hneg] at h
  · simp only [hneg, if_false] at h
    exact ⟨not_lt.mp hneg, (List.get?_eq_some.mp h).1⟩

/-- When no push fails: if `OBJ_NAME_new_index(hash_func, cmp_func, free_func)`
returns an id other than 0, on a registry that satisfies the relation
`Registry.Inv` between counter and handler list, the handler list has a record
for the id that holds each function passed, and for a null argument the string
hash, `strcmp` and no free function; every record that the handler list had
before the call is still at its index. -/
theorem new_index_handlers (lh_strhash : String → Nat) (m : Mem) (r r' : Registry)
    (hash_func : Option (String → Nat)) (cmp_func : Option (String → String → Int))
    (free_func : Option Nat) (id : Int)
    (hinv : r.Inv) (hpush : ∀ j, m.sk_push j = true)
    (h : OBJ_NAME_new_index lh_strhash m r hash_func cmp_func free_func = some (r', id))
    (hid : id ≠ 0) :
    ∃ st', r'.name_funcs_stack = some st' ∧
      sk_NAME_FUNCS_value st' id = some
        { hash_func := hash_func.getD lh_strhash, cmp_func := cmp_func.getD strcmp,
          free_func := free_func } ∧
      ∀ st i nf, r.name_funcs_stack = some st → sk_NAME_FUNCS_value st i = some nf →
        sk_NAME_FUNCS_value st' i = some nf := by
  obtain ⟨hT, hlen⟩ := hinv
  have hT0 : (0 : Int) < OBJ_NAME_TYPE_NUM := by decide
  rcases new_index_cases lh_strhash m r r' hash_func cmp_func free_func id h with
    ⟨-, -, h0⟩ | ⟨st0, st1, hst0, -, -, -, -, -, ⟨k, -, -, -, h0⟩ |
      ⟨⟨k, -, hk, hst1⟩, hid', hv⟩⟩
  · exact absurd h0 hid
  · exact absurd h0 hid
  · have hl0 : sk_NAME_FUNCS_num st0 ≤ r.names_type_num := by
      rcases hst0 with hs | ⟨-, rfl⟩
      · exact hlen st0 hs
      · unfold sk_NAME_FUNCS_num
        simp only [List.length_nil, Nat.cast_zero]
        omega
    unfold sk_NAME_FUNCS_num at hl0
    have hnum0 : 0 ≤ r.names_type_num := by omega
    have hn : (r.names_type_num + 1 - sk_NAME_FUNCS_num st0).toNat =
        (r.names_type_num.toNat - st0.length) + 1 := by
      unfold sk_NAME_FUNCS_num
      omega
    rw [hk hpush, hn] at hst1
    have hlen1 : st1.length = r.names_type_num.toNat + 1 := by
      rw [hst1, List.length_append, List.length_replicate]
      omega
    have hval : sk_NAME_FUNCS_value st1 r.names_type_num =
        some { hash_func := lh_strhash, cmp_func := strcmp, free_func := none } := by
      rw [sk_value_eq st1 _ hnum0, hst1,
        List.getElem?_append_right (by omega), List.getElem?_replicate]
      have : r.names_type_num.toNat - st0.length < r.names_type_num.toNat - st0.length + 1 := by
        omega
      simp [this]
    rcases hv with ⟨hnone, -⟩ | ⟨nf, nf', hsome, hstk, hh, hc, hf⟩
    · rw [hval] at hnone
      cases hnone
    · rw [hval] at hsome
      cases hsome
      refine ⟨_, hstk, ?_, ?_⟩
      · rw [hid', sk_value_eq _ _ hnum0, List.getElem?_set_self (by omega)]
        congr 1
        cases nf' with
        | mk a b c =>
          simp only at hh hc hf
          rw [hh, hc, hf]
          cases free_func <;> rfl
      · intro st i nf hs hi
        have hst : st = st0 := by
          rcases hst0 with hs0 | ⟨hs0, -⟩
          · rw [hs] at hs0
            exact Option.some.inj hs0
          · rw [hs] at hs0
            cases hs0
        subst hst
        obtain ⟨hi0, hilt⟩ := sk_value_some_bounds st i nf hi
        rw [sk_value_eq _ _ hi0] at hi ⊢
        rw [List.getElem?_set_ne (by omega), hst1, List.getElem?_append_left hilt]
        exact hi

/-- The first registration, with a free function only and no failed push. -/
theorem new_index_handlers_sample :
    (registry_of []).Inv ∧
    OBJ_NAME_new_index hash_len Mem.ok (registry_of []) none none (some 7) =
      some (registry_dyn [], 5) ∧
    ∃ st', (registry_dyn []).name_funcs_stack = some st' ∧
      sk_NAME_FUNCS_value st' 5 = some
        { hash_func := (none : Option (String → Nat)).getD hash_len,
          cmp_func := (none : Option (String → String → Int)).getD strcmp,
          free_func := some 7 } ∧
      ∀ st i nf, (registry_of []).name_funcs_stack = some st →
        sk_NAME_FUNCS_value st i = some nf → sk_NAME_FUNCS_value st' i = some nf :=
  have hinv : (registry_of []).Inv := ⟨le_refl _, fun st h => by cases h⟩
  ⟨hinv, rfl, new_index_handlers hash_len Mem.ok (registry_of []) (registry_dyn [])
    none none (some 7) 5 hinv (fun _ => rfl) rfl (by decide)⟩

/-! ## The relation between counter and handler list -/

theorem get_stack (lh_strhash : String → Nat) (m : Mem) (r r' : Registry)
    (name : Option String) (type : Int) (res : Option String)
    (h : OBJ_NAME_get lh_strhash m r name type = some (r', res)) :
    r'.name_funcs_stack = r.name_funcs_stack := by
  unfold OBJ_NAME_get at h
  obtain ⟨hstk, -, -, -⟩ := names_lh_ready_frame m r
  cases name with
  | none =>
    simp only [Option.some.injEq, Prod.mk.injEq] at h
    rw [← h.1]
  | some name =>
    simp only at h
    split at h
    · simp only [Option.some.injEq, Prod.mk.injEq] at h
      rw [← h.1, hstk]
    · split at h
      · cases h
      · simp only [Option.map_eq_some', Prod.mk.injEq] at h
        obtain ⟨_, -, h1, -⟩ := h
        rw [← h1, hstk]

theorem add_stack (lh_strhash : String → Nat) (m : Mem) (r r' : Registry)
    (name : String) (type : Int) (data : String) (ret : Int)
    (h : OBJ_NAME_add lh_strhash m r name type data = some (r', ret)) :
    r'.name_funcs_stack = r.name_funcs_stack := by
  unfold OBJ_NAME_add at h
  obtain ⟨hstk, -, -, -⟩ := names_lh_ready_frame m r
  simp only at h
  split at h
  · simp only [Option.some.injEq, Prod.mk.injEq] at h
    rw [← h.1, hstk]
  · split at h
    · simp only [Option.some.injEq, Prod.mk.injEq] at h
      rw [← h.1, hstk]
    · split at h
      · cases h
      · split at h
        · cases h
        · simp only [Option.map_eq_some', Prod.mk.injEq] at h
          obtain ⟨r2, hr2, h1, -⟩ := h
          obtain ⟨-, h2, -, -⟩ := free_things_frame _ _ _ hr2
          rw [← h1, h2, hstk]
        · split at h
          · simp only [Option.some.injEq, Prod.mk.injEq] at h
            rw [← h.1, hstk]
          · simp only [Option.some.injEq, Prod.mk.injEq] at h
            rw [← h.1, hstk]

theorem cleanup_stack (lh_strhash : String → Nat) (r r' : Registry) (type : Int)
    (h : OBJ_NAME_cleanup lh_strhash r type = some r') :
    r'.name_funcs_stack = r.name_funcs_stack ∨ r'.name_funcs_stack = none := by
  unfold OBJ_NAME_cleanup at h
  split at h
  · simp only [Option.some.injEq] at h
    rw [← h]
    exact Or.inl rfl
  · simp only at h
    split at h
    · cases h
    · rename_i r1 hr1
      obtain ⟨h1, -, -⟩ := doall_frame lh_strhash _ _ _ hr1
      split at h
      · simp only [Option.some.injEq] at h
        rw [← h]
        exact Or.inr rfl
      · simp only [Option.some.injEq] at h
        rw [← h]
        exact Or.inl h1

/-- One call keeps the relation between the counter and the handler list. -/
theorem step_inv (lh_strhash : String → Nat) (r r' : Registry) (op : Op) (id : Option Int)
    (hinv : r.Inv) (h : step lh_strhash r op = some (r', id)) : r'.Inv := by
  obtain ⟨hT, hlen⟩ := hinv
  have same : r'.names_type_num = r.names_type_num →
      (r'.name_funcs_stack = r.name_funcs_stack ∨ r'.name_funcs_stack = none) → r'.Inv := by
    intro h1 h2
    refine ⟨by rw [h1]; exact hT, fun st hst => ?_⟩
    rcases h2 with h2 | h2
    · rw [h1]
      exact hlen st (h2 ▸ hst)
    · rw [h2] at hst
      cases hst
  cases op with
  | init m =>
    simp only [step, Option.some.injEq, Prod.mk.injEq] at h
    rw [← h.1]
    unfold OBJ_NAME_init
    cases hl : r.names_lh <;> exact ⟨hT, hlen⟩
  | new_index m hf cf ff =>
    simp only [step, Option.map_eq_some', Prod.mk.injEq] at h
    obtain ⟨p, hp, rfl, -⟩ := h
    rcases new_index_cases lh_strhash m r p.1 hf cf ff p.2 hp with
      ⟨-, h1, -⟩ | ⟨st0, st1, hst0, -, hnum, -, -, -, hc⟩
    · rw [h1]
      exact ⟨hT, hlen⟩
    · have hl0 : sk_NAME_FUNCS_num st0 ≤ r.names_type_num := by
        rcases hst0 with hs | ⟨-, rfl⟩
        · exact hlen st0 hs
        · unfold sk_NAME_FUNCS_num
          have hT0 : (0 : Int) < OBJ_NAME_TYPE_NUM := by decide
          simp only [List.length_nil, Nat.cast_zero]
          omega
      unfold sk_NAME_FUNCS_num at hl0
      refine ⟨by omega, fun st hst => ?_⟩
      unfold sk_NAME_FUNCS_num
      rcases hc with ⟨k, hk, hst1, hstk, -⟩ |
        ⟨⟨k, hk, -, hst1⟩, -, ⟨-, hstk⟩ | ⟨_, _, -, hstk, -⟩⟩
      · rw [hstk] at hst
        cases hst
        unfold sk_NAME_FUNCS_num at hk
        rw [hst1, List.length_append, List.length_replicate]
        omega
      · rw [hstk] at hst
        cases hst
        unfold sk_NAME_FUNCS_num at hk
        rw [hst1, List.length_append, List.length_replicate]
        omega
      · rw [hstk] at hst
        cases hst
        unfold sk_NAME_FUNCS_num at hk
        rw [List.length_set, hst1, List.length_append, List.length_replicate]
        omega
  | get m name type =>
    simp only [step, Option.map_eq_some', Prod.mk.injEq] at h
    obtain ⟨p, hp, rfl, -⟩ := h
    exact same (get_counter lh_strhash m r p.1 name type p.2 hp)
      (Or.inl (get_stack lh_strhash m r p.1 name type p.2 hp))
  | add m name type data =>
    simp only [step, Option.map_eq_some', Prod.mk.injEq] at h
    obtain ⟨p, hp, rfl, -⟩ := h
    exact same (add_counter lh_strhash m r p.1 name type data p.2 hp)
      (Or.inl (add_stack lh_strhash m r p.1 name type data p.2 hp))
  | remove name type =>
    simp only [step, Option.map_eq_some', Prod.mk.injEq] at h
    obtain ⟨p, hp, rfl, -⟩ := h
    obtain ⟨h1, h2, -⟩ := remove_frame lh_strhash r p.1 name type p.2 hp
    exact same h2 (Or.inl h1)
  | cleanup type =>
    simp only [step, Option.map_eq_some', Prod.mk.injEq] at h
    obtain ⟨r1, hp, rfl, -⟩ := h
    exact same (cleanup_counter lh_strhash r r1 type hp) (cleanup_stack lh_strhash r r1 type hp)

/-- Every registry reached from the initial state satisfies `Registry.Inv`. -/
theorem run_inv (lh_strhash : String → Nat) :
    ∀ ops r r' ids, r.Inv → run lh_strhash r ops = some (r', ids) → r'.Inv := by
  intro ops
  induction ops with
  | nil =>
    intro r r' ids hinv h
    simp only [run, Option.some.injEq, Prod.mk.injEq] at h
    rw [← h.1]
    exact hinv
  | cons op ops ih =>
    intro r r' ids hinv h
    unfold run at h
    split at h
    · cases h
    · rename_i r1 id hstep
      split at h
      · cases h
      · rename_i r2 ids' hrun
        simp only [Option.some.injEq, Prod.mk.injEq] at h
        rw [← h.1]
        exact ih r1 r2 ids' (step_inv lh_strhash r r1 op id hinv hstep) hrun

theorem initial_inv : Registry.initial.Inv :=
  ⟨le_refl _, fun st h => by cases h⟩

/-! ## The sweep of OBJ_NAME_cleanup -/

/-- Unlinking behind entries that do not compare equal to the key. -/
theorem lh_unlink_skip (comp : OBJ_NAME → Option Int) (e : OBJ_NAME) (rest : List OBJ_NAME)
    (he : comp e = some 0) :
    ∀ kept, (∀ a ∈ kept, ∃ c, comp a = some c ∧ c ≠ 0) →
      lh_unlink comp (kept ++ e :: rest) = some (kept ++ rest, some e) := by
  intro kept
  induction kept with
  | nil => intro _; simp [lh_unlink, he]
  | cons a as ih =>
    intro h
    obtain ⟨c, hc, hc0⟩ := h a (List.mem_cons_self _ _)
    have := ih (fun b hb => h b (List.mem_cons_of_mem _ hb))
    simp [lh_unlink, hc, hc0, this]

/-- The search skips entries of another type than the key. -/
theorem lh_getrn_filter (stk : Option (List NAME_FUNCS)) (key : OBJ_NAME) (t : Int)
    (ht : key.type ≠ t) :
    ∀ items, lh_getrn (fun e => obj_name_cmp stk e key)
        (items.filter (fun e => decide (e.type ≠ t))) =
      lh_getrn (fun e => obj_name_cmp stk e key) items := by
  intro items
  induction items with
  | nil => rfl
  | cons e es ih =>
    by_cases het : e.type = t
    · have hne : e.type - key.type ≠ 0 := by
        intro h
        apply ht
        omega
      have hc : obj_name_cmp stk e key = some (e.type - key.type) := by
        unfold obj_name_cmp
        simp [hne]
      have hd : decide (e.type ≠ t) = false := by simp [het]
      rw [List.filter_cons, hd]
      simp only [Bool.false_eq_true, if_false]
      rw [ih]
      conv_rhs => unfold lh_getrn
      simp only [hc, hne, if_false]
    · simp only [List.filter_cons, ne_eq, het, not_false_eq_true, decide_True, if_true,
        lh_getrn]
      rw [ih]

/-- The sweep of `OBJ_NAME_cleanup` over the entries still to visit, when the
entries before them that are left in the table are of other types. -/
theorem doall_sweep (lh_strhash : String → Nat) (t : Int) (f : Option Nat) (ht : 0 ≤ t) :
    ∀ todo kept (rc : Registry) (lhc : LHASH),
      (∀ a ∈ kept, a.type ≠ t) →
      rc.names_lh = some lhc → lhc.items = kept ++ todo → rc.free_type = t →
      (∀ e ∈ todo, e.type = t →
        Int.land e.type OBJ_NAME_ALIAS = 0 ∧ ReflAt rc.name_funcs_stack t e.name) →
      FreeAt rc.name_funcs_stack t f →
      ∃ r', lh_OBJ_NAME_doall (names_lh_free_doall lh_strhash) todo rc = some r' ∧
        r'.names_lh = some { lhc with
          items := kept ++ todo.filter (fun e => decide (e.type ≠ t)) } ∧
        r'.name_funcs_stack = rc.name_funcs_stack ∧
        r'.names_type_num = rc.names_type_num ∧ r'.free_type = t ∧
        r'.calls = rc.calls ++ free_calls f (todo.filter (fun e => decide (e.type = t))) := by
  intro todo
  induction todo with
  | nil =>
    intro kept rc lhc _ hlh hitems hft _ _
    refine ⟨rc, rfl, ?_, rfl, rfl, hft, ?_⟩
    · rw [hlh]
      simp only [List.filter_nil]
      rw [← hitems]
    · cases f <;> simp [free_calls]
  | cons e es ih =>
    intro kept rc lhc hkept hlh hitems hft hwf hfree
    unfold lh_OBJ_NAME_doall
    by_cases het : e.type = t
    · -- the entry is removed
      obtain ⟨hbit, hrefl⟩ := hwf e (List.mem_cons_self _ _) het
      have hty : Int.land e.type (Int.lnot OBJ_NAME_ALIAS) = e.type :=
        land_lnot_of_land_eq_zero _ _ hbit
      have hh : obj_name_hash lh_strhash rc.name_funcs_stack (key_of e.name e.type) ≠ none := by
        rw [Ne, obj_name_hash_eq_none]
        rintro ⟨st, -, hneg⟩
        have : (key_of e.name e.type).type = e.type := rfl
        omega
      have hreflKey : ReflAt rc.name_funcs_stack (key_of e.name e.type).type
          (key_of e.name e.type).name := by
        show ReflAt rc.name_funcs_stack e.type e.name
        rw [het]
        exact hrefl
      have hee : obj_name_cmp rc.name_funcs_stack e (key_of e.name e.type) = some 0 :=
        obj_name_cmp_same lh_strhash rc.name_funcs_stack e (key_of e.name e.type) rfl rfl
          hreflKey hh
      have hskip : ∀ a ∈ kept, ∃ c, obj_name_cmp rc.name_funcs_stack a
          (key_of e.name e.type) = some c ∧ c ≠ 0 := by
        intro a ha
        have hne : a.type - (key_of e.name e.type).type ≠ 0 := by
          have h1 := hkept a ha
          have h2 : (key_of e.name e.type).type = e.type := rfl
          omega
        refine ⟨a.type - (key_of e.name e.type).type, ?_, hne⟩
        unfold obj_name_cmp
        simp [hne]
      have hun := lh_unlink_skip (fun a => obj_name_cmp rc.name_funcs_stack a
        (key_of e.name e.type)) e es hee kept hskip
      have hfree' : ∃ r1, free_things
          { rc with names_lh := some { lhc with items := kept ++ es } } e = some r1 ∧
          r1.names_lh = some { lhc with items := kept ++ es } ∧
          r1.name_funcs_stack = rc.name_funcs_stack ∧
          r1.names_type_num = rc.names_type_num ∧ r1.free_type = t ∧
          r1.calls = rc.calls ++ free_calls f [e] := by
        cases f with
        | none =>
          refine ⟨_, free_things_none _ e (by rw [het]; exact hfree), rfl, rfl, rfl, hft, ?_⟩
          simp [free_calls]
        | some fn =>
          obtain ⟨st, nf, hst, hnf, hf⟩ := hfree
          refine ⟨_, free_things_registered _ e st nf fn hst (by rw [het]; exact hnf) hf,
            rfl, rfl, rfl, hft, ?_⟩
          simp [free_calls]
      obtain ⟨r1, hr1, h1lh, h1stk, h1num, h1ft, h1calls⟩ := hfree'
      have hstep : names_lh_free_doall lh_strhash rc e = some r1 := by
        unfold names_lh_free_doall
        have hcond : rc.free_type < 0 ∨ rc.free_type = e.type := Or.inr (by rw [hft, het])
        simp only [hcond, if_true]
        unfold OBJ_NAME_remove
        simp only [hlh, hty]
        unfold lh_OBJ_NAME_delete
        unfold key_of at hh hun
        cases hk : obj_name_hash lh_strhash rc.name_funcs_stack
            { name := e.name, type := e.type, alias_ := 0, data := "" } with
        | none => exact absurd hk hh
        | some v =>
          simp only [hitems, hun, Option.map_some']
          rw [hr1]
          rfl
      rw [hstep]
      obtain ⟨r', hr', h2lh, h2stk, h2num, h2ft, h2calls⟩ :=
        ih kept r1 { lhc with items := kept ++ es } hkept h1lh rfl h1ft
          (fun a ha hat => by
            rw [h1stk]
            exact hwf a (List.mem_cons_of_mem _ ha) hat)
          (by rw [h1stk]; exact hfree)
      refine ⟨r', hr', ?_, h2stk.trans h1stk, h2num.trans h1num, h2ft, ?_⟩
      · rw [h2lh]
        simp [List.filter_cons, het]
      · rw [h2calls, h1calls, List.append_assoc]
        congr 1
        cases f <;> simp [free_calls, List.filter_cons, het]
    · -- the entry is of another type and stays
      have hstep : names_lh_free_doall lh_strhash rc e = some rc := by
        unfold names_lh_free_doall
        have hcond : ¬ (rc.free_type < 0 ∨ rc.free_type = e.type) := by
          rw [hft]
          intro h
          rcases h with h | h
          · omega
          · exact het h.symm
        simp only [hcond, if_false]
      rw [hstep]
      obtain ⟨r', hr', h2lh, h2stk, h2num, h2ft, h2calls⟩ :=
        ih (kept ++ [e]) rc lhc
          (fun a ha => by
            rw [List.mem_append, List.mem_singleton] at ha
            rcases ha with ha | rfl
            · exact hkept a ha
            · exact het)
          hlh (by rw [hitems]; simp) hft
          (fun a ha hat => hwf a (List.mem_cons_of_mem _ ha) hat) hfree
      refine ⟨r', hr', ?_, h2stk, h2num, h2ft, ?_⟩
      · rw [h2lh]
        simp [List.filter_cons, het]
      · rw [h2calls]
        simp [List.filter_cons, het]

/-! ## OBJ_NAME_cleanup of one type -/

/-- The loop of `OBJ_NAME_get` depends on the registry and the table through
the lookups only. -/
theorem get_loop_congr (lh_strhash : String → Nat) (r r' : Registry) (lh lh' : LHASH)
    (type alias_ : Int)
    (hlook : ∀ name, table_lookup lh_strhash r' lh' type name =
      table_lookup lh_strhash r lh type name) :
    ∀ k num name, 11 - num ≤ k →
      OBJ_NAME_get_loop lh_strhash r' lh' type alias_ name num =
        OBJ_NAME_get_loop lh_strhash r lh type alias_ name num := by
  intro k
  induction k with
  | zero =>
    intro num name hk
    have h := hlook name
    unfold table_lookup key_of at h
    conv_lhs => rw [OBJ_NAME_get_loop]
    conv_rhs => rw [OBJ_NAME_get_loop]
    rw [h]
    have hlim : num + 1 > 10 := by omega
    simp only [hlim, dite_true]
  | succ k ih =>
    intro num name hk
    have h := hlook name
    unfold table_lookup key_of at h
    conv_lhs => rw [OBJ_NAME_get_loop]
    conv_rhs => rw [OBJ_NAME_get_loop]
    rw [h]
    split
    · rfl
    · rfl
    · rename_i ret _
      by_cases hlim : num + 1 > 10
      · simp only [hlim, dite_true]
      · simp only [hlim, dite_false]
        rw [ih (num + 1) ret.data (by omega)]

/-- Where the handler record of `t`, when the handler list has one, holds a
free function: on a registry with a table, `OBJ_NAME_cleanup(t)` with `t ≥ 0`
returns and leaves the table with the entries of the other types, in their order; the
handler list and the counter are as before; the free function registered for
`t` is called once on each removed entry, in table order (no call when the
handler list has no record for `t`); and `OBJ_NAME_get` at any other type
returns what it returned before. The stored types have the alias bit clear
and the comparison function of `t` returns 0 on `(name, name)` for the names
stored at `t`. -/
theorem cleanup_type_registered (lh_strhash : String → Nat) (r : Registry) (lh : LHASH)
    (t : Int)
    (f : Option Nat)
    (hlh : r.names_lh = some lh) (ht : 0 ≤ t)
    (hbits : ∀ e ∈ lh.items, Int.land e.type OBJ_NAME_ALIAS = 0)
    (hrefl : ∀ e ∈ lh.items, e.type = t → ReflAt r.name_funcs_stack t e.name)
    (hfree : FreeAt r.name_funcs_stack t f) :
    ∃ r', OBJ_NAME_cleanup lh_strhash r t = some r' ∧
      r'.names_lh = some { lh with items := lh.items.filter (fun e => decide (e.type ≠ t)) } ∧
      r'.name_funcs_stack = r.name_funcs_stack ∧
      r'.names_type_num = r.names_type_num ∧
      r'.calls = r.calls ++ free_calls f (lh.items.filter (fun e => decide (e.type = t))) ∧
      ∀ (m : Mem) (name : String) (u : Int), Int.land u (Int.lnot OBJ_NAME_ALIAS) ≠ t →
        OBJ_NAME_get lh_strhash m r' (some name) u =
          (OBJ_NAME_get lh_strhash m r (some name) u).map (fun p => (r', p.2)) := by
  obtain ⟨r1, hr1, h1lh, h1stk, h1num, -, h1calls⟩ :=
    doall_sweep lh_strhash t f ht lh.items []
      (set_down_load { r with free_type := t } 0) { lh with down_load := 0 }
      (fun a ha => by cases ha) (by simp [set_down_load, hlh]) (by simp) rfl
      (fun e he het => ⟨hbits e he, hrefl e he het⟩) hfree
  have hlh' : (set_down_load r1 lh.down_load).names_lh =
      some { lh with items := lh.items.filter (fun e => decide (e.type ≠ t)) } := by
    simp [set_down_load, h1lh]
  refine ⟨set_down_load r1 lh.down_load, ?_, hlh', h1stk, h1num, h1calls, ?_⟩
  · unfold OBJ_NAME_cleanup
    rw [hlh] at hr1
    simp only [hlh]
    rw [hr1]
    simp [not_lt.mpr ht]
  · intro m name u hu
    have hstk : (set_down_load r1 lh.down_load).name_funcs_stack = r.name_funcs_stack := h1stk
    rw [get_of_table lh_strhash m _ _ name u hlh', get_of_table lh_strhash m r lh name u hlh,
      Option.map_map]
    rw [get_loop_congr lh_strhash r (set_down_load r1 lh.down_load) lh
      { lh with items := lh.items.filter (fun e => decide (e.type ≠ t)) }
      (Int.land u (Int.lnot OBJ_NAME_ALIAS)) (Int.land u OBJ_NAME_ALIAS) ?_ 11 0 name (by omega)]
    · rfl
    · intro nm
      unfold table_lookup lh_OBJ_NAME_retrieve
      rw [hstk]
      cases obj_name_hash lh_strhash r.name_funcs_stack
          (key_of nm (Int.land u (Int.lnot OBJ_NAME_ALIAS))) with
      | none => rfl
      | some v =>
        exact lh_getrn_filter r.name_funcs_stack _ t hu lh.items

theorem reflAt_sample_stack (type : Int) (name : String) :
    ReflAt (some sample_stack) type name := by
  intro st nf hst hnf
  cases hst
  obtain ⟨h0, -⟩ := sk_value_some_bounds _ _ _ hnf
  rw [sk_value_eq _ _ h0] at hnf
  have hmem := List.getElem?_mem hnf
  simp only [sample_stack, List.mem_append, List.mem_replicate, List.mem_singleton] at hmem
  rcases hmem with ⟨-, rfl⟩ | rfl <;> exact strcmp_self name

/-- The cleanup of type 5, which has a free function, on a table with two
entries of type 5 and one of type 1. -/
theorem cleanup_type_sample :
    ∃ r', OBJ_NAME_cleanup hash_len (registry_dyn sample_mixed) 5 = some r' ∧
      r'.names_lh = some (table_of [⟨1, 0, "md5", "m"⟩]) ∧
      r'.name_funcs_stack = some sample_stack ∧
      r'.names_type_num = 6 ∧
      r'.calls = [⟨7, "x", 5, "d1"⟩, ⟨7, "y", 5, "d2"⟩] ∧
      ∀ (m : Mem) (name : String) (u : Int), Int.land u (Int.lnot OBJ_NAME_ALIAS) ≠ 5 →
        OBJ_NAME_get hash_len m r' (some name) u =
          (OBJ_NAME_get hash_len m (registry_dyn sample_mixed) (some name) u).map
            (fun p => (r', p.2)) :=
  cleanup_type_registered hash_len (registry_dyn sample_mixed) (table_of sample_mixed) 5 (some 7)
    rfl (by decide) (by decide) (fun e _ _ => reflAt_sample_stack 5 e.name)
    ⟨sample_stack, _, rfl, rfl, rfl⟩

/-! ## Comparison and hash under the default handlers (C19) -/

theorem char_toNat_inj {a b : Char} (h : a.toNat = b.toNat) : a = b := by
  apply Char.ext
  apply UInt32.ext
  exact h

theorem strcmp_chars_eq_zero : ∀ a b : List Char, strcmp_chars a b = 0 ↔ a = b := by
  intro a
  induction a with
  | nil =>
    intro b
    cases b <;> simp [strcmp_chars]
  | cons x xs ih =>
    intro b
    cases b with
    | nil => simp [strcmp_chars]
    | cons y ys =>
      unfold strcmp_chars
      by_cases hxy : x = y
      · simp [hxy, ih]
      · have : (x.toNat : Int) - (y.toNat : Int) ≠ 0 := by
          intro h
          apply hxy
          apply char_toNat_inj
          omega
        simp [hxy, this]

theorem strcmp_eq_zero (a b : String) : strcmp a b = 0 ↔ a = b := by
  unfold strcmp
  rw [strcmp_chars_eq_zero]
  constructor
  · intro h
    exact String.ext h
  · intro h
    rw [h]

/-- The comparison under the default handlers: the difference of the types, or
`strcmp` of the names for entries of one type. -/
theorem obj_name_cmp_default (lh_strhash : String → Nat) (stk : Option (List NAME_FUNCS))
    (a b : OBJ_NAME) (hdef : DefaultAt lh_strhash stk a.type) :
    obj_name_cmp stk a b =
      some (if a.type - b.type = 0 then strcmp a.name b.name else a.type - b.type) := by
  unfold obj_name_cmp
  by_cases hz : a.type - b.type = 0
  · simp only [hz, if_true]
    cases stk with
    | none => rfl
    | some st =>
      by_cases hlt : sk_NAME_FUNCS_num st > a.type
      · obtain ⟨nf, hnf, -, hc⟩ := hdef st rfl hlt
        simp [hlt, hnf, hc]
      · simp [hlt]
  · simp [hz]

theorem obj_name_hash_default (lh_strhash : String → Nat) (stk : Option (List NAME_FUNCS))
    (a : OBJ_NAME) (hdef : DefaultAt lh_strhash stk a.type) :
    obj_name_hash lh_strhash stk a =
      some (Nat.xor (lh_strhash a.name % 2 ^ ULONG_BITS) (a.type % 2 ^ ULONG_BITS).toNat) := by
  unfold obj_name_hash
  cases stk with
  | none => rfl
  | some st =>
    by_cases hlt : sk_NAME_FUNCS_num st > a.type
    · obtain ⟨nf, hnf, hh, -⟩ := hdef st rfl hlt
      simp [hlt, hnf, hh]
    · simp [hlt]

/-- C19: under the default handlers for the type of `a`, `obj_name_cmp(a, b)`
returns 0 exactly when `a` and `b` have the same type and the same name; when
it returns 0 the two hashes are equal; and the hash of `a` is the string hash
of its name exclusive-or its type, as `unsigned long` values. -/
theorem C19_cmp_hash_consistent (lh_strhash : String → Nat)
    (stk : Option (List NAME_FUNCS)) (a b : OBJ_NAME)
    (hdef : DefaultAt lh_strhash stk a.type) :
    (obj_name_cmp stk a b = some 0 ↔ a.type = b.type ∧ a.name = b.name) ∧
    (obj_name_cmp stk a b = some 0 →
      obj_name_hash lh_strhash stk a = obj_name_hash lh_strhash stk b) ∧
    obj_name_hash lh_strhash stk a =
      some (Nat.xor (lh_strhash a.name % 2 ^ ULONG_BITS) (a.type % 2 ^ ULONG_BITS).toNat) := by
  have hiff : obj_name_cmp stk a b = some 0 ↔ a.type = b.type ∧ a.name = b.name := by
    rw [obj_name_cmp_default lh_strhash stk a b hdef]
    by_cases hz : a.type - b.type = 0
    · simp only [hz, if_true, Option.some.injEq, strcmp_eq_zero]
      constructor
      · intro h; exact ⟨by omega, h⟩
      · intro h; exact h.2
    · rw [if_neg hz]
      constructor
      · intro h; exact absurd (Option.some.inj h) hz
      · intro h; exact absurd (by omega) hz
  refine ⟨hiff, ?_, obj_name_hash_default lh_strhash stk a hdef⟩
  intro h
  obtain ⟨ht, hn⟩ := hiff.mp h
  exact obj_name_hash_congr lh_strhash stk a b ht hn

/-- C19, witness: two keys of the registered type 5 with one name, under the
sample handler list. -/
theorem C19_witness :
    (obj_name_cmp (some sample_stack) ⟨5, 0, "x", "d"⟩ ⟨5, 0x8000, "x", "e"⟩ = some 0 ↔
      (5 : Int) = 5 ∧ "x" = "x") ∧
    (obj_name_cmp (some sample_stack) ⟨5, 0, "x", "d"⟩ ⟨5, 0x8000, "x", "e"⟩ = some 0 →
      obj_name_hash hash_len (some sample_stack) ⟨5, 0, "x", "d"⟩ =
        obj_name_hash hash_len (some sample_stack) ⟨5, 0x8000, "x", "e"⟩) ∧
    obj_name_hash hash_len (some sample_stack) ⟨5, 0, "x", "d"⟩ =
      some (Nat.xor (hash_len "x" % 2 ^ ULONG_BITS) ((5 : Int) % 2 ^ ULONG_BITS).toNat) :=
  C19_cmp_hash_consistent hash_len (some sample_stack) ⟨5, 0, "x", "d"⟩ ⟨5, 0x8000, "x", "e"⟩
    (fun st hst _ => by
      cases hst
      exact ⟨_, rfl, rfl, rfl⟩)

/-! ## OBJ_NAME_do_all (C12) -/

/-- The sweep of `OBJ_NAME_do_all` applies the visitor to the entries of the
type, in table order, and to no other entry. -/
theorem do_all_fn_foldl {α : Type} :
    ∀ (items : List OBJ_NAME) (d : OBJ_DOALL α),
      items.foldl (fun a e => do_all_fn e a) d =
        ⟨d.type, d.fn, (items.filter (fun e => decide (e.type = d.type))).foldl
          (fun a e => d.fn e a) d.arg⟩ := by
  intro items
  induction items with
  | nil => intro d; rfl
  | cons e es ih =>
    intro d
    rw [List.foldl_cons, ih]
    unfold do_all_fn
    by_cases h : e.type = d.type
    · simp [h, List.filter_cons]
    · simp [h, List.filter_cons]

theorem do_all_eq {α : Type} (r : Registry) (type : Int) (fn : OBJ_NAME → α → α) (arg : α) :
    OBJ_NAME_do_all r type fn arg =
      (r, (r.entries.filter (fun e => decide (e.type = type))).foldl
        (fun a e => fn e a) arg) := by
  unfold OBJ_NAME_do_all lh_OBJ_NAME_doall_arg Registry.entries
  cases r.names_lh with
  | none => rfl
  | some lh => simp only [do_all_fn_foldl]

theorem foldl_visit_log (l : List OBJ_NAME) :
    ∀ log, l.foldl (fun a e => visit_log e a) log = log ++ l := by
  induction l with
  | nil => intro log; simp
  | cons e es ih =>
    intro log
    rw [List.foldl_cons, ih]
    simp [visit_log]

/-- C12: `OBJ_NAME_do_all(t, fn, arg)` applies `fn` to the stored entries whose
type field is `t`, once each and in table order, and to no other entry: the
value behind `arg` is the one after these calls, and a visitor that records
its calls records exactly the stored entries of type `t`. -/
theorem C12_do_all_visits {α : Type} (r : Registry) (t : Int) (fn : OBJ_NAME → α → α)
    (arg : α) :
    (OBJ_NAME_do_all r t fn arg).2 =
      (r.entries.filter (fun e => decide (e.type = t))).foldl (fun a e => fn e a) arg ∧
    (OBJ_NAME_do_all r t visit_log []).2 = r.entries.filter (fun e => decide (e.type = t)) ∧
    (∀ e, (e.type = t → List.count e (OBJ_NAME_do_all r t visit_log []).2 =
        List.count e r.entries) ∧
      (e.type ≠ t → e ∉ (OBJ_NAME_do_all r t visit_log []).2)) := by
  have hlog : (OBJ_NAME_do_all r t visit_log []).2 =
      r.entries.filter (fun e => decide (e.type = t)) := by
    rw [do_all_eq, foldl_visit_log]
    simp
  refine ⟨by rw [do_all_eq], hlog, fun e => ⟨fun he => ?_, fun he => ?_⟩⟩
  · rw [hlog, List.count_filter]
    simp [he]
  · rw [hlog, List.mem_filter]
    intro h
    exact he (by simpa using h.2)

/-! ## Order of names and the collection of OBJ_NAME_do_all_sorted -/

theorem strcmp_chars_total : ∀ a b : List Char, strcmp_chars a b ≤ 0 ∨ strcmp_chars b a ≤ 0 := by
  intro a
  induction a with
  | nil =>
    intro b
    cases b <;> simp [strcmp_chars]
  | cons x xs ih =>
    intro b
    cases b with
    | nil => simp [strcmp_chars]
    | cons y ys =>
      by_cases hxy : x = y
      · subst hxy
        simpa [strcmp_chars] using ih ys
      · have hyx : ¬ y = x := fun h => hxy h.symm
        simp only [strcmp_chars, hxy, hyx, if_false]
        omega

theorem strcmp_chars_trans : ∀ a b c : List Char,
    strcmp_chars a b ≤ 0 → strcmp_chars b c ≤ 0 → strcmp_chars a c ≤ 0 := by
  intro a
  induction a with
  | nil =>
    intro b c _ _
    cases c <;> simp [strcmp_chars]
  | cons x xs ih =>
    intro b c hab hbc
    cases b with
    | nil => simp [strcmp_chars] at hab
    | cons y ys =>
      cases c with
      | nil => simp [strcmp_chars] at hbc
      | cons z zs =>
        unfold strcmp_chars at hab hbc ⊢
        by_cases hxy : x = y
        · subst hxy
          simp only [if_true] at hab
          by_cases hxz : x = z
          · subst hxz
            simp only [if_true] at hbc ⊢
            exact ih ys zs hab hbc
          · simp only [hxz, if_false] at hbc ⊢
            exact hbc
        · simp only [hxy, if_false] at hab
          have hne : x.toNat ≠ y.toNat := fun h => hxy (char_toNat_inj h)
          by_cases hyz : y = z
          · subst hyz
            simp only [hxy, if_false]
            exact hab
          · simp only [hyz, if_false] at hbc
            have hxz : ¬ x = z := by
              intro h
              subst h
              omega
            simp only [hxz, if_false]
            omega

theorem strcmp_total (a b : String) : strcmp a b ≤ 0 ∨ strcmp b a ≤ 0 :=
  strcmp_chars_total _ _

theorem strcmp_trans (a b c : String) (hab : strcmp a b ≤ 0) (hbc : strcmp b c ≤ 0) :
    strcmp a c ≤ 0 :=
  strcmp_chars_trans _ _ _ hab hbc

/-- The result of `qsort` with `do_all_sorted_cmp` is in ascending order of
name and has the elements of its argument. -/
theorem qsort_sorted_perm (base : List OBJ_NAME) :
    List.Pairwise (fun a b => strcmp a.name b.name ≤ 0) (qsort do_all_sorted_cmp base) ∧
      List.Perm (qsort do_all_sorted_cmp base) base := by
  unfold qsort do_all_sorted_cmp
  haveI : IsTotal OBJ_NAME (fun a b => strcmp a.name b.name ≤ 0) :=
    ⟨fun a b => strcmp_total a.name b.name⟩
  haveI : IsTrans OBJ_NAME (fun a b => strcmp a.name b.name ≤ 0) :=
    ⟨fun a b c => strcmp_trans a.name b.name c.name⟩
  exact ⟨List.sorted_insertionSort _ base, List.perm_insertionSort _ base⟩

theorem read_names_take (l : List OBJ_NAME) (rest : List (Option OBJ_NAME)) :
    ∀ n, n ≤ l.length → read_names (l.map some ++ rest) n = some (l.take n) := by
  intro n
  induction n with
  | zero => intro _; rfl
  | succ n ih =>
    intro hn
    have hlt : n < l.length := by omega
    unfold read_names
    rw [ih (by omega)]
    have hget : (l.map some ++ rest).get? n = some (some (l.get ⟨n, hlt⟩)) := by
      rw [List.get?_eq_getElem?, List.getElem?_append_left (by simpa using hlt)]
      simp [List.getElem?_eq_getElem hlt]
    rw [hget]
    simp only
    rw [List.take_succ, List.getElem?_eq_getElem hlt]
    rfl

/-- The collection of `OBJ_NAME_do_all_sorted`: from a record whose first
slots hold `acc` and whose other `c` slots are free, the calls of
`do_all_sorted_fn` on entries of the type write them into the next slots, as
long as they fit. -/
theorem collect_foldl (type : Int) :
    ∀ (l acc : List OBJ_NAME) (c : Nat), (∀ e ∈ l, e.type = type) → l.length ≤ c →
      l.foldl (fun a e => do_all_sorted_fn e a)
          (some ⟨type, acc.length, acc.map some ++ List.replicate c none⟩) =
        some ⟨type, (acc ++ l).length,
          (acc ++ l).map some ++ List.replicate (c - l.length) none⟩ := by
  intro l
  induction l with
  | nil => intro acc c _ _; simp
  | cons e es ih =>
    intro acc c hty hc
    have he : e.type = type := hty e (List.mem_cons_self _ _)
    rw [List.foldl_cons]
    simp only [List.length_cons] at hc
    obtain ⟨c', rfl⟩ : ∃ c', c = c' + 1 := ⟨c - 1, by omega⟩
    have hstep : do_all_sorted_fn e
        (some ⟨type, acc.length, acc.map some ++ List.replicate (c' + 1) none⟩) =
        some ⟨type, (acc ++ [e]).length, (acc ++ [e]).map some ++ List.replicate c' none⟩ := by
      unfold do_all_sorted_fn
      have hlt : acc.length < (acc.map some ++ List.replicate (c' + 1) none).length := by
        simp
      simp only [he, ne_eq, not_true_eq_false, if_false, hlt, if_true]
      congr 2
      · simp
      · rw [List.set_append_right _ _ (by simp)]
        simp [List.replicate_succ]
    rw [hstep, ih (acc ++ [e]) c' (fun a ha => hty a (List.mem_cons_of_mem _ ha)) (by omega)]
    simp [Nat.add_sub_add_right, List.append_assoc]

theorem num_items_eq (r : Registry) : lh_OBJ_NAME_num_items r.names_lh = r.entries.length := by
  unfold lh_OBJ_NAME_num_items Registry.entries
  cases r.names_lh <;> rfl

/-- The record after the collection over the first `k` entries of the table:
the entries of the type among them are in the first slots, and their number
is within the size of the array. -/
theorem collect_prefix (r : Registry) (type : Int) (k : Nat) :
    ((r.entries.take k).foldl (fun a e => do_all_fn e a)
        (⟨type, do_all_sorted_fn,
          some ⟨type, 0, List.replicate (lh_OBJ_NAME_num_items r.names_lh) none⟩⟩ :
          OBJ_DOALL (Option doall_sorted))).arg =
      some ⟨type, ((r.entries.take k).filter (fun e => decide (e.type = type))).length,
        ((r.entries.take k).filter (fun e => decide (e.type = type))).map some ++
          List.replicate (r.entries.length -
            ((r.entries.take k).filter (fun e => decide (e.type = type))).length) none⟩ ∧
    ((r.entries.take k).filter (fun e => decide (e.type = type))).length ≤
      lh_OBJ_NAME_num_items r.names_lh := by
  have hlen : ((r.entries.take k).filter (fun e => decide (e.type = type))).length ≤
      r.entries.length :=
    le_trans (List.length_filter_le _ _) (by rw [List.length_take]; exact Nat.min_le_right _ _)
  rw [num_items_eq]
  refine ⟨?_, hlen⟩
  rw [do_all_fn_foldl]
  have h := collect_foldl type ((r.entries.take k).filter (fun e => decide (e.type = type)))
    [] r.entries.length (fun e he => by simpa using (List.mem_filter.mp he).2) hlen
  simpa using h

theorem do_all_sorted_eq {α : Type} (m : Mem) (r : Registry) (type : Int)
    (fn : OBJ_NAME → α → α) (arg : α) (hm : m.malloc = true) :
    OBJ_NAME_do_all_sorted m r type fn arg =
      some (r, (qsort do_all_sorted_cmp
        (r.entries.filter (fun e => decide (e.type = type)))).foldl (fun a e => fn e a) arg) := by
  have hlen : (r.entries.filter (fun e => decide (e.type = type))).length ≤
      r.entries.length := List.length_filter_le _ _
  have h := collect_foldl type (r.entries.filter (fun e => decide (e.type = type)))
    [] r.entries.length (fun e he => by simpa using (List.mem_filter.mp he).2) hlen
  simp only [List.length_nil, List.map_nil, List.nil_append] at h
  unfold OBJ_NAME_do_all_sorted
  simp only [hm, Bool.true_eq_false, if_false]
  rw [do_all_eq, num_items_eq]
  simp only [h]
  rw [read_names_take _ _ _ (le_refl _), List.take_length]

theorem do_all_sorted_no_malloc {α : Type} (m : Mem) (r : Registry) (type : Int)
    (fn : OBJ_NAME → α → α) (arg : α) (hm : m.malloc = false) :
    OBJ_NAME_do_all_sorted m r type fn arg = some (r, arg) := by
  unfold OBJ_NAME_do_all_sorted
  simp [hm]

/-! ## OBJ_NAME_do_all_sorted (C13, C14, C20) -/

theorem do_all_log_eq (r : Registry) (t : Int) :
    (OBJ_NAME_do_all r t visit_log []).2 = r.entries.filter (fun e => decide (e.type = t)) := by
  rw [do_all_eq, foldl_visit_log]
  simp

theorem do_all_sorted_log_eq (m : Mem) (r : Registry) (t : Int) (hm : m.malloc = true) :
    OBJ_NAME_do_all_sorted m r t visit_log [] =
      some (r, qsort do_all_sorted_cmp (r.entries.filter (fun e => decide (e.type = t)))) := by
  rw [do_all_sorted_eq m r t visit_log [] hm, foldl_visit_log]
  simp

/-- C14: when the temporary array is allocated, `OBJ_NAME_do_all_sorted(t, fn,
arg)` returns, and the sequence of entries that it passes to the visitor is a
permutation of the sequence that `OBJ_NAME_do_all(t, fn, arg)` passes: every
entry is passed as many times by the one as by the other. -/
theorem C14_sorted_visits_same_entries (m : Mem) (r : Registry) (t : Int)
    (hm : m.malloc = true) :
    ∃ visited, OBJ_NAME_do_all_sorted m r t visit_log [] = some (r, visited) ∧
      List.Perm visited (OBJ_NAME_do_all r t visit_log []).2 ∧
      ∀ e, List.count e visited = List.count e (OBJ_NAME_do_all r t visit_log []).2 := by
  have hperm : List.Perm (qsort do_all_sorted_cmp
      (r.entries.filter (fun e => decide (e.type = t))))
      (OBJ_NAME_do_all r t visit_log []).2 := by
    rw [do_all_log_eq]
    exact (qsort_sorted_perm _).2
  exact ⟨_, do_all_sorted_log_eq m r t hm, hperm, fun e => hperm.count_eq e⟩

/-- C13: `OBJ_NAME_do_all_sorted(t, fn, arg)` returns, and the sequence of
entries that it passes to the visitor holds entries of type `t` only and is in
strictly ascending `strcmp` order of name: each name is greater than every name
passed before it. The names stored at type `t` are pairwise distinct. -/
theorem C13_sorted_strictly_ascending (m : Mem) (r : Registry) (t : Int)
    (hdistinct : ((r.entries.filter (fun e => decide (e.type = t))).map
      (fun e => e.name)).Nodup) :
    ∃ visited, OBJ_NAME_do_all_sorted m r t visit_log [] = some (r, visited) ∧
      (∀ e ∈ visited, e.type = t) ∧
      List.Pairwise (fun a b => strcmp a.name b.name < 0) visited := by
  by_cases hm : m.malloc = true
  · obtain ⟨hsorted, hperm⟩ := qsort_sorted_perm
      (r.entries.filter (fun e => decide (e.type = t)))
    refine ⟨_, do_all_sorted_log_eq m r t hm, fun e he => ?_, ?_⟩
    · have := (List.mem_filter.mp (hperm.mem_iff.mp he)).2
      simpa using this
    · have hnodup : ((qsort do_all_sorted_cmp
          (r.entries.filter (fun e => decide (e.type = t)))).map (fun e => e.name)).Nodup :=
        (hperm.map _).nodup_iff.mpr hdistinct
      have hne : List.Pairwise (fun a b : OBJ_NAME => a.name ≠ b.name)
          (qsort do_all_sorted_cmp (r.entries.filter (fun e => decide (e.type = t)))) := by
        unfold List.Nodup at hnodup
        exact List.pairwise_map.mp hnodup
      refine (hsorted.and hne).imp ?_
      intro a b hab
      have : strcmp a.name b.name ≠ 0 := fun h => hab.2 ((strcmp_eq_zero _ _).mp h)
      omega
  · have hm' : m.malloc = false := by simpa using hm
    refine ⟨[], do_all_sorted_no_malloc m r t visit_log [] hm', ?_, List.Pairwise.nil⟩
    intro e he
    exact absurd he (List.not_mem_nil e)

/-- C20: during `OBJ_NAME_do_all_sorted` the counter `d.n` stays within the
number of items that sizes the array: after the collection over any first `k`
entries of the table the record is defined (no write was outside the array),
`d.n` is at most the number of items and the array has that many slots; the
reads of `d.names[0]` to `d.names[d.n - 1]` after the whole collection are of
written slots inside the array; and the function returns. -/
theorem C20_collection_in_bounds (m : Mem) (r : Registry) (type : Int) (k : Nat) :
    (∃ d, ((r.entries.take k).foldl (fun a e => do_all_fn e a)
        (⟨type, do_all_sorted_fn,
          some ⟨type, 0, List.replicate (lh_OBJ_NAME_num_items r.names_lh) none⟩⟩ :
          OBJ_DOALL (Option doall_sorted))).arg = some d ∧
      d.n ≤ lh_OBJ_NAME_num_items r.names_lh ∧
      d.names.length = lh_OBJ_NAME_num_items r.names_lh) ∧
    (∃ d base, (OBJ_NAME_do_all r type do_all_sorted_fn
        (some ⟨type, 0, List.replicate (lh_OBJ_NAME_num_items r.names_lh) none⟩)).2 = some d ∧
      d.n ≤ lh_OBJ_NAME_num_items r.names_lh ∧
      d.names.length = lh_OBJ_NAME_num_items r.names_lh ∧
      read_names d.names d.n = some base ∧ base.length = d.n) ∧
    (∃ visited, OBJ_NAME_do_all_sorted m r type visit_log [] = some (r, visited)) := by
  have hk := collect_prefix r type
  have hfin : (OBJ_NAME_do_all r type do_all_sorted_fn
      (some ⟨type, 0, List.replicate (lh_OBJ_NAME_num_items r.names_lh) none⟩)).2 =
      some ⟨type, (r.entries.filter (fun e => decide (e.type = type))).length,
        (r.entries.filter (fun e => decide (e.type = type))).map some ++
          List.replicate (r.entries.length -
            (r.entries.filter (fun e => decide (e.type = type))).length) none⟩ := by
    have h := (hk r.entries.length).1
    rw [List.take_length] at h
    unfold OBJ_NAME_do_all lh_OBJ_NAME_doall_arg
    unfold Registry.entries at h ⊢
    cases hlh : r.names_lh with
    | none =>
      simp only [hlh] at h ⊢
      simpa using h
    | some lh =>
      simp only [hlh] at h ⊢
      exact h
  have hflen : (r.entries.filter (fun e => decide (e.type = type))).length ≤
      r.entries.length := List.length_filter_le _ _
  refine ⟨⟨_, (hk k).1, (hk k).2, ?_⟩,
    ⟨_, r.entries.filter (fun e => decide (e.type = type)), hfin, ?_, ?_, ?_, ?_⟩, ?_⟩
  · have := (hk k).2
    rw [num_items_eq] at this ⊢
    simp only [List.length_append, List.length_map, List.length_replicate]
    omega
  · rw [num_items_eq]
    exact hflen
  · rw [num_items_eq]
    simp only [List.length_append, List.length_map, List.length_replicate]
    omega
  · show read_names (List.map some (r.entries.filter (fun e => decide (e.type = type))) ++ _)
      (r.entries.filter (fun e => decide (e.type = type))).length = _
    rw [read_names_take _ _ _ (le_refl _), List.take_length]
  · rfl
  · by_cases hm : m.malloc = true
    · exact ⟨_, do_all_sorted_log_eq m r type hm⟩
    · exact ⟨[], do_all_sorted_no_malloc m r type visit_log [] (by simpa using hm)⟩

/-- C13, witness: three entries of kind 1 are visited in the order `a`, `ab`,
`b`. -/
theorem C13_witness :
    OBJ_NAME_do_all_sorted Mem.ok (registry_of sample_names) 1 visit_log [] =
        some (registry_of sample_names,
          [⟨1, 0, "a", "3"⟩, ⟨1, 0, "ab", "4"⟩, ⟨1, 0, "b", "1"⟩]) ∧
      ∃ visited, OBJ_NAME_do_all_sorted Mem.ok (registry_of sample_names) 1 visit_log [] =
          some (registry_of sample_names, visited) ∧
        (∀ e ∈ visited, e.type = 1) ∧
        List.Pairwise (fun a b => strcmp a.name b.name < 0) visited :=
  ⟨by rfl, C13_sorted_strictly_ascending Mem.ok (registry_of sample_names) 1 (by decide)⟩

/-- C14, witness: the sorted and the unsorted enumeration of kind 1. -/
theorem C14_witness :
    (OBJ_NAME_do_all (registry_of sample_names) 1 visit_log []).2 =
        [⟨1, 0, "b", "1"⟩, ⟨1, 0, "a", "3"⟩, ⟨1, 0, "ab", "4"⟩] ∧
      ∃ visited, OBJ_NAME_do_all_sorted Mem.ok (registry_of sample_names) 1 visit_log [] =
          some (registry_of sample_names, visited) ∧
        List.Perm visited (OBJ_NAME_do_all (registry_of sample_names) 1 visit_log []).2 ∧
        ∀ e, List.count e visited =
          List.count e (OBJ_NAME_do_all (registry_of sample_names) 1 visit_log []).2 :=
  ⟨by rfl, C14_sorted_visits_same_entries Mem.ok (registry_of sample_names) 1 rfl⟩

/-! ## What lookups and enumerations leave unchanged (C17) and OBJ_NAME_init (C18) -/

/-- What `OBJ_NAME_get` returns as the registry: the one it was called on, or
that one with a new empty table when it had none. -/
theorem get_registry (lh_strhash : String → Nat) (m : Mem) (r r' : Registry)
    (name : Option String) (type : Int) (res : Option String)
    (h : OBJ_NAME_get lh_strhash m r name type = some (r', res)) :
    r' = r ∨ (r.names_lh = none ∧
      r' = { r with names_lh := some ⟨[], DOWN_LOAD, 0⟩ }) := by
  have hready : (names_lh_ready m r).1 = r ∨ (r.names_lh = none ∧
      (names_lh_ready m r).1 = { r with names_lh := some ⟨[], DOWN_LOAD, 0⟩ }) := by
    unfold names_lh_ready OBJ_NAME_init lh_OBJ_NAME_new
    cases hlh : r.names_lh with
    | some lh => exact Or.inl rfl
    | none =>
      by_cases hnew : m.lh_new = true
      · right
        simp [hnew]
      · left
        simp only [hnew, if_false]
        cases r
        simp only at hlh
        simp [hlh]
  unfold OBJ_NAME_get at h
  cases name with
  | none =>
    simp only [Option.some.injEq, Prod.mk.injEq] at h
    exact Or.inl h.1.symm
  | some name =>
    simp only at h
    split at h
    · simp only [Option.some.injEq, Prod.mk.injEq] at h
      rw [← h.1]
      exact hready
    · split at h
      · cases h
      · simp only [Option.map_eq_some', Prod.mk.injEq] at h
        obtain ⟨_, -, h1, -⟩ := h
        rw [← h1]
        exact hready

theorem lh_getrn_defined (comp : OBJ_NAME → Option Int) (hdef : ∀ e, comp e ≠ none) :
    ∀ items, ∃ res, lh_getrn comp items = some res := by
  intro items
  induction items with
  | nil => exact ⟨_, rfl⟩
  | cons e es ih =>
    obtain ⟨res, hres⟩ := ih
    unfold lh_getrn
    cases hc : comp e with
    | none => exact absurd hc (hdef e)
    | some c =>
      by_cases hz : c = 0
      · simp [hz]
      · simp [hz, hres]

/-- The loop of `OBJ_NAME_get` returns for every type that can be hashed. -/
theorem get_loop_defined (lh_strhash : String → Nat) (r : Registry) (lh : LHASH)
    (type alias_ : Int) (htype : r.name_funcs_stack = none ∨ 0 ≤ type) :
    ∀ k num name, 11 - num ≤ k →
      ∃ res, OBJ_NAME_get_loop lh_strhash r lh type alias_ name num = some res := by
  have hh : ∀ name, obj_name_hash lh_strhash r.name_funcs_stack (key_of name type) ≠ none := by
    intro name
    rw [Ne, obj_name_hash_eq_none]
    rintro ⟨st, hst, hneg⟩
    rcases htype with h | h
    · rw [h] at hst; cases hst
    · have : (key_of name type).type = type := rfl
      omega
  have hret : ∀ name, ∃ res, lh_OBJ_NAME_retrieve (obj_name_hash lh_strhash r.name_funcs_stack)
      (obj_name_cmp r.name_funcs_stack) lh (key_of name type) = some res := by
    intro name
    obtain ⟨res, hres⟩ := lh_getrn_defined
      (fun e => obj_name_cmp r.name_funcs_stack e (key_of name type))
      (fun e => by
        obtain ⟨c, hc⟩ := obj_name_cmp_defined lh_strhash r.name_funcs_stack e
          (key_of name type) (hh name)
        simp [hc]) lh.items
    exact ⟨res, (retrieve_some_iff _ _ _ _ _).mpr ⟨hh name, hres⟩⟩
  intro k
  induction k with
  | zero =>
    intro num name hk
    obtain ⟨res, hres⟩ := hret name
    unfold key_of at hres
    rw [OBJ_NAME_get_loop, hres]
    cases res with
    | none => exact ⟨_, rfl⟩
    | some ret =>
      simp only
      by_cases hal : ret.alias_ ≠ 0 ∧ alias_ = 0
      · rw [if_pos hal, dif_pos (by omega)]
        exact ⟨_, rfl⟩
      · rw [if_neg hal]
        exact ⟨_, rfl⟩
  | succ k ih =>
    intro num name hk
    obtain ⟨res, hres⟩ := hret name
    unfold key_of at hres
    rw [OBJ_NAME_get_loop, hres]
    cases res with
    | none => exact ⟨_, rfl⟩
    | some ret =>
      simp only
      by_cases hal : ret.alias_ ≠ 0 ∧ alias_ = 0
      · rw [if_pos hal]
        by_cases hnum : num + 1 > 10
        · rw [dif_pos hnum]
          exact ⟨_, rfl⟩
        · rw [dif_neg hnum]
          exact ih (num + 1) ret.data (by omega)
      · rw [if_neg hal]
        exact ⟨_, rfl⟩

/-- The function `OBJ_NAME_get` returns for every type that can be hashed. -/
theorem get_defined (lh_strhash : String → Nat) (m : Mem) (r : Registry)
    (name : Option String) (type : Int)
    (htype : r.name_funcs_stack = none ∨ 0 ≤ Int.land type (Int.lnot OBJ_NAME_ALIAS)) :
    ∃ r' res, OBJ_NAME_get lh_strhash m r name type = some (r', res) := by
  cases name with
  | none => exact ⟨r, none, rfl⟩
  | some name =>
    unfold OBJ_NAME_get
    simp only
    by_cases h0 : (names_lh_ready m r).2 = 0
    · rw [if_pos h0]
      exact ⟨_, _, rfl⟩
    · rw [if_neg h0]
      cases hlh : (names_lh_ready m r).1.names_lh with
      | none =>
        exfalso
        unfold names_lh_ready OBJ_NAME_init lh_OBJ_NAME_new at h0 hlh
        cases hr : r.names_lh with
        | some lh0 =>
          rw [hr] at hlh
          simp only at hlh
          rw [hr] at hlh
          cases hlh
        | none =>
          rw [hr] at h0 hlh
          by_cases hnew : m.lh_new = true
          · simp [hnew] at hlh
          · simp [hnew, hr] at h0
      | some lh =>
        simp only
        obtain ⟨res, hres⟩ := get_loop_defined lh_strhash (names_lh_ready m r).1 lh
          (Int.land type (Int.lnot OBJ_NAME_ALIAS)) (Int.land type OBJ_NAME_ALIAS)
          (by rw [(names_lh_ready_frame m r).1]; exact htype) 11 0 name (by omega)
        rw [hres]
        exact ⟨_, _, rfl⟩

/-- C17: `OBJ_NAME_get` returns, for every type that can be hashed, with the
registry it was called on, or that registry with a new empty table when it had
none: the stored entries, the handler list, the type counter and the log of
free-function calls are as before. With a null name it returns the null pointer
and the registry as it was. `OBJ_NAME_do_all` and `OBJ_NAME_do_all_sorted`
return with the registry as it was. -/
theorem C17_lookup_leaves_registry {α : Type} (lh_strhash : String → Nat) (m : Mem)
    (r : Registry) (name : Option String) (type : Int)
    (fn : OBJ_NAME → α → α) (arg : α)
    (htype : r.name_funcs_stack = none ∨ 0 ≤ Int.land type (Int.lnot OBJ_NAME_ALIAS)) :
    (∃ r' res, OBJ_NAME_get lh_strhash m r name type = some (r', res) ∧
      (r' = r ∨ (r.names_lh = none ∧
        r' = { r with names_lh := some ⟨[], DOWN_LOAD, 0⟩ })) ∧
      r'.entries = r.entries ∧ r'.name_funcs_stack = r.name_funcs_stack ∧
      r'.names_type_num = r.names_type_num ∧ r'.calls = r.calls) ∧
    OBJ_NAME_get lh_strhash m r none type = some (r, none) ∧
    (OBJ_NAME_do_all r type fn arg).1 = r ∧
    (∃ x, OBJ_NAME_do_all_sorted m r type fn arg = some (r, x)) := by
  obtain ⟨r', res, h⟩ := get_defined lh_strhash m r name type htype
  have hreg := get_registry lh_strhash m r r' name type res h
  refine ⟨⟨r', res, h, hreg, ?_, ?_, ?_, ?_⟩, rfl, rfl, ?_⟩
  · rcases hreg with rfl | ⟨hnone, rfl⟩
    · rfl
    · unfold Registry.entries
      simp [hnone]
  · rcases hreg with rfl | ⟨-, rfl⟩ <;> rfl
  · rcases hreg with rfl | ⟨-, rfl⟩ <;> rfl
  · rcases hreg with rfl | ⟨-, rfl⟩ <;> rfl
  · by_cases hm : m.malloc = true
    · exact ⟨_, do_all_sorted_eq m r type fn arg hm⟩
    · exact ⟨_, do_all_sorted_no_malloc m r type fn arg (by simpa using hm)⟩

/-- C17, witness: the lookup of the entry `C` of the sample table, and the
enumerations of kind 1 with a visitor that records its calls. -/
theorem C17_witness :
    OBJ_NAME_get hash_len Mem.ok (registry_of sample_aliases) (some "C") 1 =
        some (registry_of sample_aliases, some "X") ∧
    (∃ r' res, OBJ_NAME_get hash_len Mem.ok (registry_of sample_aliases) (some "C") 1 =
        some (r', res) ∧
      (r' = registry_of sample_aliases ∨ ((registry_of sample_aliases).names_lh = none ∧
        r' = { registry_of sample_aliases with names_lh := some ⟨[], DOWN_LOAD, 0⟩ })) ∧
      r'.entries = (registry_of sample_aliases).entries ∧
      r'.name_funcs_stack = (registry_of sample_aliases).name_funcs_stack ∧
      r'.names_type_num = (registry_of sample_aliases).names_type_num ∧
      r'.calls = (registry_of sample_aliases).calls) ∧
    OBJ_NAME_get hash_len Mem.ok (registry_of sample_aliases) none 1 =
      some (registry_of sample_aliases, none) ∧
    (OBJ_NAME_do_all (registry_of sample_aliases) 1 visit_log []).1 =
      registry_of sample_aliases ∧
    (∃ x, OBJ_NAME_do_all_sorted Mem.ok (registry_of sample_aliases) 1 visit_log [] =
      some (registry_of sample_aliases, x)) :=
  have h : OBJ_NAME_get hash_len Mem.ok (registry_of sample_aliases) (some "C") 1 =
      some (registry_of sample_aliases, some "X") := by
    rw [get_of_table hash_len Mem.ok _ (table_of sample_aliases) "C" 1 rfl, land_lnot_1,
      get_loop_direct hash_len (registry_of sample_aliases) (table_of sample_aliases) 1
        (Int.land 1 OBJ_NAME_ALIAS) "C" 0 ⟨1, 0, "C", "X"⟩ rfl (by decide)]
    rfl
  ⟨h, C17_lookup_leaves_registry hash_len Mem.ok (registry_of sample_aliases) (some "C") 1
    visit_log [] (Or.inl rfl)⟩

/-- C18: when the table exists, `OBJ_NAME_init` returns 1 and the registry as
it was; after a call that returned 1, a second call returns 1 and leaves the
registry of the first; and two calls in a row with one outcome of the
allocation give the registry and the result of one call. -/
theorem C18_init_idempotent (m m' : Mem) (r : Registry) :
    (∀ lh, r.names_lh = some lh → OBJ_NAME_init m r = (r, 1)) ∧
    ((OBJ_NAME_init m r).2 = 1 →
      OBJ_NAME_init m' (OBJ_NAME_init m r).1 = OBJ_NAME_init m r) ∧
    OBJ_NAME_init m (OBJ_NAME_init m r).1 = OBJ_NAME_init m r := by
  refine ⟨fun lh hlh => ?_, fun h => ?_, ?_⟩
  · unfold OBJ_NAME_init
    rw [hlh]
  · unfold OBJ_NAME_init lh_OBJ_NAME_new at h ⊢
    cases hlh : r.names_lh with
    | some lh => simp [hlh]
    | none =>
      by_cases hnew : m.lh_new = true
      · simp [hnew]
      · simp [hlh, hnew] at h
  · unfold OBJ_NAME_init lh_OBJ_NAME_new
    cases hlh : r.names_lh with
    | some lh => simp [hlh]
    | none =>
      by_cases hnew : m.lh_new = true
      · simp [hnew]
      · simp [hnew]

/-! ## The result of OBJ_NAME_remove -/

theorem lh_unlink_defined (comp : OBJ_NAME → Option Int) (hdef : ∀ e, comp e ≠ none) :
    ∀ items, ∃ res, lh_unlink comp items = some res := by
  intro items
  induction items with
  | nil => exact ⟨_, rfl⟩
  | cons e es ih =>
    obtain ⟨res, hres⟩ := ih
    unfold lh_unlink
    cases hc : comp e with
    | none => exact absurd hc (hdef e)
    | some c =>
      by_cases hz : c = 0
      · simp [hz]
      · simp [hz, hres]

/-- Unlinking takes one entry out of the table and leaves the others in
place. -/
theorem lh_unlink_split (comp : OBJ_NAME → Option Int) :
    ∀ items items' old, lh_unlink comp items = some (items', some old) →
      ∃ pre post, items = pre ++ old :: post ∧ items' = pre ++ post := by
  intro items
  induction items with
  | nil => intro items' old h; simp [lh_unlink] at h
  | cons e es ih =>
    intro items' old h
    unfold lh_unlink at h
    cases hc : comp e with
    | none => simp [hc] at h
    | some c =>
      by_cases hz : c = 0
      · subst hz
        simp only [hc, if_true, Option.some.injEq, Prod.mk.injEq] at h
        obtain ⟨rfl, rfl⟩ := h
        exact ⟨[], es, rfl, rfl⟩
      · simp only [hc, hz, if_false, Option.map_eq_some'] at h
        obtain ⟨p, hp, hpe⟩ := h
        obtain ⟨p1, p2⟩ := p
        simp only [Prod.mk.injEq] at hpe
        obtain ⟨rfl, rfl⟩ := hpe
        obtain ⟨pre, post, h1, h2⟩ := ih _ _ hp
        exact ⟨e :: pre, post, by rw [h1]; rfl, by rw [h2]; rfl⟩

/-- The result of `OBJ_NAME_remove` on a registry with a table, from what the
unlinking gives. -/
theorem remove_eval (lh_strhash : String → Nat) (r : Registry) (lh : LHASH) (name : String)
    (type : Int) (items' : List OBJ_NAME) (o : Option OBJ_NAME)
    (hlh : r.names_lh = some lh)
    (hh : obj_name_hash lh_strhash r.name_funcs_stack
      (key_of name (Int.land type (Int.lnot OBJ_NAME_ALIAS))) ≠ none)
    (hu : lh_unlink (fun e => obj_name_cmp r.name_funcs_stack e
      (key_of name (Int.land type (Int.lnot OBJ_NAME_ALIAS)))) lh.items = some (items', o)) :
    OBJ_NAME_remove lh_strhash r name type =
      match o with
      | some ret =>
        (free_things { r with names_lh := some { lh with items := items' } } ret).map
          (fun r2 => (r2, (1 : Int)))
      | none => some (r, 0) := by
  unfold OBJ_NAME_remove
  simp only [hlh]
  unfold lh_OBJ_NAME_delete
  unfold key_of at hh hu
  cases hk : obj_name_hash lh_strhash r.name_funcs_stack
      { name := name, type := Int.land type (Int.lnot OBJ_NAME_ALIAS), alias_ := 0,
        data := "" } with
  | none => exact absurd hk hh
  | some v =>
    simp only [hu, Option.map_some']
    cases o <;> rfl

/-- Where the handler record of the type, when the handler list has one,
holds a free function: `OBJ_NAME_remove(name, type)` returns, with 1 exactly
when the table exists and holds an entry under the name and the type without
the alias bit. When it returns 1 that entry is taken out of the table, the
other entries stay in place and the free function of the type is called on the
entry; otherwise it returns 0 and the registry is as it was.
`OBJ_NAME_remove(name, type | OBJ_NAME_ALIAS)` is the same call. The type can
be hashed. -/
theorem remove_result_registered (lh_strhash : String → Nat) (r : Registry) (name : String)
    (type : Int) (f : Option Nat)
    (htype : r.name_funcs_stack = none ∨ 0 ≤ Int.land type (Int.lnot OBJ_NAME_ALIAS))
    (hfree : FreeAt r.name_funcs_stack (Int.land type (Int.lnot OBJ_NAME_ALIAS)) f) :
    ∃ r' ret, OBJ_NAME_remove lh_strhash r name type = some (r', ret) ∧
      (ret = 1 ↔ ∃ lh e, r.names_lh = some lh ∧
        table_lookup lh_strhash r lh (Int.land type (Int.lnot OBJ_NAME_ALIAS)) name =
          some (some e)) ∧
      (ret = 1 → ∃ lh e pre post, r.names_lh = some lh ∧
        table_lookup lh_strhash r lh (Int.land type (Int.lnot OBJ_NAME_ALIAS)) name =
          some (some e) ∧
        lh.items = pre ++ e :: post ∧
        r'.names_lh = some { lh with items := pre ++ post } ∧
        r'.calls = r.calls ++ free_calls f [e] ∧
        r'.name_funcs_stack = r.name_funcs_stack ∧
        r'.names_type_num = r.names_type_num) ∧
      (ret ≠ 1 → ret = 0 ∧ r' = r) ∧
      OBJ_NAME_remove lh_strhash r name (Int.lor type OBJ_NAME_ALIAS) =
        OBJ_NAME_remove lh_strhash r name type := by
  have hsame : OBJ_NAME_remove lh_strhash r name (Int.lor type OBJ_NAME_ALIAS) =
      OBJ_NAME_remove lh_strhash r name type := by
    unfold OBJ_NAME_remove
    rw [land_lor_lnot]
  have hh : obj_name_hash lh_strhash r.name_funcs_stack
      (key_of name (Int.land type (Int.lnot OBJ_NAME_ALIAS))) ≠ none := by
    rw [Ne, obj_name_hash_eq_none]
    rintro ⟨st, hst, hneg⟩
    rcases htype with h | h
    · rw [h] at hst; cases hst
    · have : (key_of name (Int.land type (Int.lnot OBJ_NAME_ALIAS))).type =
          Int.land type (Int.lnot OBJ_NAME_ALIAS) := rfl
      omega
  have hdef : ∀ e, obj_name_cmp r.name_funcs_stack e
      (key_of name (Int.land type (Int.lnot OBJ_NAME_ALIAS))) ≠ none := by
    intro e
    obtain ⟨c, hc⟩ := obj_name_cmp_defined lh_strhash r.name_funcs_stack e _ hh
    simp [hc]
  cases hlh : r.names_lh with
  | none =>
    refine ⟨r, 0, ?_, ?_, ?_, ?_, hsame⟩
    · unfold OBJ_NAME_remove
      simp [hlh]
    · constructor
      · intro h; cases h
      · rintro ⟨lh, e, h, -⟩; cases h
    · intro h; cases h
    · intro _; exact ⟨rfl, rfl⟩
  | some lh =>
    obtain ⟨⟨items', o⟩, hu⟩ := lh_unlink_defined _ hdef lh.items
    have hrem := remove_eval lh_strhash r lh name type items' o hlh hh hu
    cases o with
    | none =>
      obtain ⟨hg, -⟩ := lh_unlink_none _ _ _ hu
      refine ⟨r, 0, hrem, ?_, ?_, ?_, hsame⟩
      · constructor
        · intro h; cases h
        · rintro ⟨lh', e, h, hl⟩
          cases h
          rw [table_lookup, retrieve_some_iff, hg] at hl
          simp at hl
      · intro h; cases h
      · intro _; exact ⟨rfl, rfl⟩
    | some old =>
      obtain ⟨hg, -, -⟩ := lh_unlink_some _ _ _ _ hu
      obtain ⟨pre, post, hpre, hpost⟩ := lh_unlink_split _ _ _ _ hu
      have holdt : old.type = Int.land type (Int.lnot OBJ_NAME_ALIAS) :=
        obj_name_cmp_zero_type r.name_funcs_stack old
          (key_of name (Int.land type (Int.lnot OBJ_NAME_ALIAS)))
          (lh_getrn_zero (fun e => obj_name_cmp r.name_funcs_stack e
            (key_of name (Int.land type (Int.lnot OBJ_NAME_ALIAS)))) _ _ hg)
      have hft := free_things_at { r with names_lh := some { lh with items := items' } } old f
        (by rw [holdt]; exact hfree)
      have hl : table_lookup lh_strhash r lh (Int.land type (Int.lnot OBJ_NAME_ALIAS)) name =
          some (some old) := by
        rw [table_lookup, retrieve_some_iff]
        exact ⟨hh, hg⟩
      simp only [hft, Option.map_some'] at hrem
      refine ⟨_, 1, hrem, ?_, ?_, ?_, hsame⟩
      · constructor
        · intro _; exact ⟨lh, old, rfl, hl⟩
        · intro _; rfl
      · intro _
        exact ⟨lh, old, pre, post, rfl, hl, hpre, by rw [hpost], rfl, rfl, rfl⟩
      · intro h; exact absurd rfl h

/-- The removal of an entry of the registered type 5, which has a free
function. -/
theorem remove_result_sample :
    ∃ r' ret, OBJ_NAME_remove hash_len (registry_dyn sample_mixed) "x" 5 = some (r', ret) ∧
      (ret = 1 ↔ ∃ lh e, (registry_dyn sample_mixed).names_lh = some lh ∧
        table_lookup hash_len (registry_dyn sample_mixed) lh
          (Int.land 5 (Int.lnot OBJ_NAME_ALIAS)) "x" = some (some e)) ∧
      (ret = 1 → ∃ lh e pre post, (registry_dyn sample_mixed).names_lh = some lh ∧
        table_lookup hash_len (registry_dyn sample_mixed) lh
          (Int.land 5 (Int.lnot OBJ_NAME_ALIAS)) "x" = some (some e) ∧
        lh.items = pre ++ e :: post ∧
        r'.names_lh = some { lh with items := pre ++ post } ∧
        r'.calls = (registry_dyn sample_mixed).calls ++ free_calls (some 7) [e] ∧
        r'.name_funcs_stack = (registry_dyn sample_mixed).name_funcs_stack ∧
        r'.names_type_num = (registry_dyn sample_mixed).names_type_num) ∧
      (ret ≠ 1 → ret = 0 ∧ r' = registry_dyn sample_mixed) ∧
      OBJ_NAME_remove hash_len (registry_dyn sample_mixed) "x" (Int.lor 5 OBJ_NAME_ALIAS) =
        OBJ_NAME_remove hash_len (registry_dyn sample_mixed) "x" 5 :=
  remove_result_registered hash_len (registry_dyn sample_mixed) "x" 5 (some 7)
    (Or.inr (by rw [land_lnot_5]; decide))
    (by rw [land_lnot_5]; exact ⟨sample_stack, _, rfl, rfl, rfl⟩)

/-! ## Well-formed tables under the default handlers -/

/-- With `strcmp` in every handler record, a comparison returns 0 exactly for
entries of one type and one name. -/
theorem obj_name_cmp_strcmp (stk : Option (List NAME_FUNCS)) (hd : DefaultCmp stk)
    (a b : OBJ_NAME) (c : Int) (h : obj_name_cmp stk a b = some c) :
    c = 0 ↔ a.type = b.type ∧ a.name = b.name := by
  unfold obj_name_cmp at h
  by_cases hz : a.type - b.type = 0
  · have hs : c = strcmp a.name b.name := by
      simp only [hz, if_true] at h
      cases stk with
      | none =>
        simp only [Option.some.injEq] at h
        exact h.symm
      | some st =>
        by_cases hlt : sk_NAME_FUNCS_num st > a.type
        · simp only [hlt, if_true, Option.map_eq_some'] at h
          obtain ⟨nf, hnf, hc⟩ := h
          obtain ⟨h0, -⟩ := sk_value_some_bounds st _ nf hnf
          rw [sk_value_eq st _ h0] at hnf
          rw [hd st nf rfl (List.getElem?_mem hnf)] at hc
          exact hc.symm
        · simp only [hlt, if_false, Option.some.injEq] at h
          exact h.symm
    rw [hs, strcmp_eq_zero]
    constructor
    · intro hn; exact ⟨by omega, hn⟩
    · intro hn; exact hn.2
  · simp only [hz, if_false, Option.some.injEq] at h
    constructor
    · intro hc; rw [hc] at h; exact absurd h hz
    · intro ht; exact absurd (by omega) hz

theorem reflAt_of_defaultCmp (stk : Option (List NAME_FUNCS)) (hd : DefaultCmp stk)
    (type : Int) (name : String) : ReflAt stk type name := by
  intro st nf hst hnf
  obtain ⟨h0, -⟩ := sk_value_some_bounds st _ nf hnf
  rw [sk_value_eq st _ h0] at hnf
  rw [hd st nf hst (List.getElem?_mem hnf)]
  exact strcmp_self name

/-- Replacing takes one entry out of the table, puts the new one in its place
and leaves the others. -/
theorem lh_replace_split (comp : OBJ_NAME → Option Int) (data : OBJ_NAME) :
    ∀ items items' old, lh_replace comp data items = some (items', some old) →
      ∃ pre post, items = pre ++ old :: post ∧ items' = pre ++ data :: post ∧
        comp old = some 0 := by
  intro items
  induction items with
  | nil => intro items' old h; simp [lh_replace] at h
  | cons e es ih =>
    intro items' old h
    unfold lh_replace at h
    cases hc : comp e with
    | none => simp [hc] at h
    | some c =>
      by_cases hz : c = 0
      · subst hz
        simp only [hc, if_true, Option.some.injEq, Prod.mk.injEq] at h
        obtain ⟨rfl, rfl⟩ := h
        exact ⟨[], es, rfl, rfl, hc⟩
      · simp only [hc, hz, if_false, Option.map_eq_some'] at h
        obtain ⟨p, hp, hpe⟩ := h
        obtain ⟨p1, p2⟩ := p
        simp only [Prod.mk.injEq] at hpe
        obtain ⟨rfl, rfl⟩ := hpe
        obtain ⟨pre, post, h1, h2, h3⟩ := ih _ _ hp
        exact ⟨e :: pre, post, by rw [h1]; rfl, by rw [h2]; rfl, h3⟩

theorem lh_replace_none_all (comp : OBJ_NAME → Option Int) (data : OBJ_NAME) :
    ∀ items items', lh_replace comp data items = some (items', none) →
      ∀ e ∈ items, ∃ c, comp e = some c ∧ c ≠ 0 := by
  intro items
  induction items with
  | nil => intro items' _ e he; cases he
  | cons a as ih =>
    intro items' h e he
    unfold lh_replace at h
    cases hc : comp a with
    | none => simp [hc] at h
    | some c =>
      by_cases hz : c = 0
      · simp [hc, hz] at h
      · simp only [hc, hz, if_false, Option.map_eq_some'] at h
        obtain ⟨p, hp, hpe⟩ := h
        obtain ⟨p1, p2⟩ := p
        simp only [Prod.mk.injEq] at hpe
        obtain ⟨-, rfl⟩ := hpe
        rw [List.mem_cons] at he
        rcases he with rfl | he
        · exact ⟨c, hc, hz⟩
        · exact ih _ hp e he

theorem tableWF_empty (d e : Nat) : TableWF ⟨[], d, e⟩ :=
  ⟨List.nodup_nil, fun e he => by cases he⟩

theorem tableWF_items (lh lh' : LHASH) (h : lh'.items = lh.items) (hwf : TableWF lh) :
    TableWF lh' := by
  unfold TableWF at hwf ⊢
  rw [h]
  exact hwf

/-- Insertion of an entry whose type has the alias bit clear keeps the table
well formed, under `strcmp` comparison. -/
theorem insert_tableWF (lh_strhash : String → Nat) (stk : Option (List NAME_FUNCS))
    (hd : DefaultCmp stk) (m : Mem) (lh lh1 : LHASH) (data : OBJ_NAME)
    (o : Option OBJ_NAME) (hbit : Int.land data.type OBJ_NAME_ALIAS = 0) (hwf : TableWF lh)
    (h : lh_OBJ_NAME_insert (obj_name_hash lh_strhash stk) (obj_name_cmp stk) m lh data =
      some (lh1, o)) : TableWF lh1 := by
  obtain ⟨-, hc⟩ := lh_insert_cases _ _ _ _ _ _ _ h
  rcases hc with ⟨items', old, hrep, rfl, -⟩ | ⟨items', hrep, -, ⟨-, rfl⟩ | ⟨-, rfl⟩⟩
  · obtain ⟨pre, post, h1, h2, h3⟩ := lh_replace_split _ _ _ _ _ hrep
    obtain ⟨ht, hn⟩ := (obj_name_cmp_strcmp stk hd old data 0 h3).mp rfl
    obtain ⟨hnd, hbits⟩ := hwf
    constructor
    · simp only [h2]
      rw [h1] at hnd
      simpa [ht, hn] using hnd
    · intro e he
      simp only [h2, List.mem_append, List.mem_cons] at he
      rcases he with he | rfl | he
      · exact hbits e (by rw [h1]; simp [he])
      · exact hbit
      · exact hbits e (by rw [h1]; simp [he])
  · obtain ⟨hnd, hbits⟩ := hwf
    have hall := lh_replace_none_all _ _ _ _ hrep
    constructor
    · simp only [List.map_append, List.map_cons, List.map_nil]
      rw [List.nodup_append]
      refine ⟨hnd, List.nodup_singleton _, ?_⟩
      intro k hk hk'
      rw [List.mem_singleton] at hk'
      rw [List.mem_map] at hk
      obtain ⟨e, he, rfl⟩ := hk
      obtain ⟨c, hc, hc0⟩ := hall e he
      simp only [Prod.mk.injEq] at hk'
      exact hc0 ((obj_name_cmp_strcmp stk hd e data c hc).mpr hk')
    · intro e he
      simp only [List.mem_append, List.mem_singleton] at he
      rcases he with he | rfl
      · exact hbits e he
      · exact hbit
  · exact tableWF_items lh _ rfl hwf

theorem ready_tableWF (m : Mem) (r : Registry)
    (hwf : ∀ lh, r.names_lh = some lh → TableWF lh) :
    ∀ lh, (names_lh_ready m r).1.names_lh = some lh → TableWF lh := by
  intro lh h
  unfold names_lh_ready OBJ_NAME_init lh_OBJ_NAME_new at h
  cases hlh : r.names_lh with
  | some lh0 =>
    simp only [hlh] at h
    exact hwf lh (by rw [hlh]; exact h)
  | none =>
    simp only [hlh] at h
    by_cases hnew : m.lh_new = true
    · simp only [hnew, if_true, Option.some.injEq] at h
      rw [← h]
      exact tableWF_empty _ _
    · simp [hnew] at h

theorem add_tableWF (lh_strhash : String → Nat) (m : Mem) (r r' : Registry)
    (name : String) (type : Int) (data : String) (ret : Int)
    (hd : DefaultCmp r.name_funcs_stack)
    (hwf : ∀ lh, r.names_lh = some lh → TableWF lh)
    (h : OBJ_NAME_add lh_strhash m r name type data = some (r', ret)) :
    ∀ lh, r'.names_lh = some lh → TableWF lh := by
  have hready := ready_tableWF m r hwf
  obtain ⟨hstk, -, -, -⟩ := names_lh_ready_frame m r
  unfold OBJ_NAME_add at h
  simp only at h
  rw [hstk] at h
  split at h
  · simp only [Option.some.injEq, Prod.mk.injEq] at h
    rw [← h.1]
    exact hready
  · split at h
    · simp only [Option.some.injEq, Prod.mk.injEq] at h
      rw [← h.1]
      exact hready
    · split at h
      · cases h
      · rename_i lh0 hlh0
        have hwf0 := hready lh0 hlh0
        split at h
        · cases h
        · rename_i lh1 old hins
          have hwf1 := insert_tableWF lh_strhash _ hd m lh0 lh1 _ _
            (land_lnot_land type OBJ_NAME_ALIAS) hwf0 hins
          simp only [Option.map_eq_some', Prod.mk.injEq] at h
          obtain ⟨r2, hr2, h1, -⟩ := h
          obtain ⟨h2, -, -, -⟩ := free_things_frame _ _ _ hr2
          intro lh hlh
          rw [← h1, h2] at hlh
          simp only [Option.some.injEq] at hlh
          rw [← hlh]
          exact hwf1
        · rename_i lh1 hins
          have hwf1 := insert_tableWF lh_strhash _ hd m lh0 lh1 _ _
            (land_lnot_land type OBJ_NAME_ALIAS) hwf0 hins
          intro lh hlh
          split at h
          · simp only [Option.some.injEq, Prod.mk.injEq] at h
            rw [← h.1] at hlh
            simp only [Option.some.injEq] at hlh
            rw [← hlh]
            exact hwf1
          · simp only [Option.some.injEq, Prod.mk.injEq] at h
            rw [← h.1] at hlh
            simp only [Option.some.injEq] at hlh
            rw [← hlh]
            exact hwf1

theorem tableWF_remove_one (lh : LHASH) (pre post : List OBJ_NAME) (e : OBJ_NAME)
    (h : lh.items = pre ++ e :: post) (hwf : TableWF lh) :
    TableWF { lh with items := pre ++ post } := by
  obtain ⟨hnd, hbits⟩ := hwf
  rw [h] at hnd hbits
  constructor
  · simp only [List.map_append, List.map_cons] at hnd ⊢
    exact hnd.sublist (List.Sublist.append_left (List.sublist_cons_self _ _) _)
  · intro a ha
    simp only [List.mem_append] at ha
    exact hbits a (by
      rcases ha with ha | ha
      · simp [ha]
      · simp [ha])

theorem remove_tableWF (lh_strhash : String → Nat) (r r' : Registry) (name : String)
    (type : Int) (ret : Int)
    (hwf : ∀ lh, r.names_lh = some lh → TableWF lh)
    (h : OBJ_NAME_remove lh_strhash r name type = some (r', ret)) :
    ∀ lh, r'.names_lh = some lh → TableWF lh := by
  rcases remove_cases lh_strhash r r' name type ret h with
    ⟨-, rfl, -⟩ | ⟨lh0, hlh0, -, ⟨_, -, rfl, -⟩ | ⟨items', old, hu, hfree, -⟩⟩
  · exact hwf
  · exact hwf
  · obtain ⟨h1, -, -, -⟩ := free_things_frame _ _ _ hfree
    obtain ⟨pre, post, hpre, hpost⟩ := lh_unlink_split _ _ _ _ hu
    intro lh hlh
    rw [h1] at hlh
    simp only [Option.some.injEq] at hlh
    rw [← hlh, hpost]
    exact tableWF_remove_one lh0 pre post old hpre (hwf lh0 hlh0)

theorem doall_tableWF (lh_strhash : String → Nat) :
    ∀ items r r', (∀ lh, r.names_lh = some lh → TableWF lh) →
      lh_OBJ_NAME_doall (names_lh_free_doall lh_strhash) items r = some r' →
      ∀ lh, r'.names_lh = some lh → TableWF lh := by
  intro items
  induction items with
  | nil =>
    intro r r' hwf h
    simp only [lh_OBJ_NAME_doall, Option.some.injEq] at h
    rw [← h]
    exact hwf
  | cons e es ih =>
    intro r r' hwf h
    unfold lh_OBJ_NAME_doall at h
    split at h
    · cases h
    · rename_i r1 hr1
      refine ih r1 r' ?_ h
      unfold names_lh_free_doall at hr1
      split at hr1
      · simp only [Option.map_eq_some'] at hr1
        obtain ⟨p, hp, rfl⟩ := hr1
        exact remove_tableWF lh_strhash r p.1 _ _ p.2 hwf hp
      · simp only [Option.some.injEq] at hr1
        rw [← hr1]
        exact hwf

theorem set_down_load_tableWF (r : Registry) (d : Nat)
    (hwf : ∀ lh, r.names_lh = some lh → TableWF lh) :
    ∀ lh, (set_down_load r d).names_lh = some lh → TableWF lh := by
  intro lh h
  unfold set_down_load at h
  simp only [Option.map_eq_some'] at h
  obtain ⟨lh0, hlh0, rfl⟩ := h
  exact tableWF_items lh0 _ rfl (hwf lh0 hlh0)

theorem cleanup_tableWF (lh_strhash : String → Nat) (r r' : Registry) (type : Int)
    (hwf : ∀ lh, r.names_lh = some lh → TableWF lh)
    (h : OBJ_NAME_cleanup lh_strhash r type = some r') :
    ∀ lh, r'.names_lh = some lh → TableWF lh := by
  unfold OBJ_NAME_cleanup at h
  split at h
  · simp only [Option.some.injEq] at h
    rw [← h]
    exact hwf
  · simp only at h
    split at h
    · cases h
    · rename_i r1 hr1
      have h1 := doall_tableWF lh_strhash _ _ _
        (set_down_load_tableWF { r with free_type := type } 0 hwf) hr1
      split at h
      · simp only [Option.some.injEq] at h
        rw [← h]
        intro lh hlh
        cases hlh
      · simp only [Option.some.injEq] at h
        rw [← h]
        exact set_down_load_tableWF r1 _ h1

theorem new_index_defaultCmp (lh_strhash : String → Nat) (m : Mem) (r r' : Registry)
    (free_func : Option Nat) (id : Int) (hd : DefaultCmp r.name_funcs_stack)
    (h : OBJ_NAME_new_index lh_strhash m r none none free_func = some (r', id)) :
    DefaultCmp r'.name_funcs_stack ∧ r'.names_lh = r.names_lh := by
  have happ : ∀ st0 k, (r.name_funcs_stack = some st0 ∨ (r.name_funcs_stack = none ∧ st0 = [])) →
      ∀ nf ∈ st0 ++ List.replicate k
        ({ hash_func := lh_strhash, cmp_func := strcmp, free_func := none } : NAME_FUNCS),
        nf.cmp_func = strcmp := by
    intro st0 k hst0 nf hnf
    rw [List.mem_append, List.mem_replicate] at hnf
    rcases hnf with hnf | ⟨-, rfl⟩
    · rcases hst0 with hs | ⟨-, rfl⟩
      · exact hd st0 nf hs hnf
      · cases hnf
    · rfl
  rcases new_index_cases lh_strhash m r r' none none free_func id h with
    ⟨-, rfl, -⟩ | ⟨st0, st1, hst0, -, -, hlh, -, -, hc⟩
  · exact ⟨hd, rfl⟩
  · refine ⟨?_, hlh⟩
    rcases hc with ⟨k, -, rfl, hstk, -⟩ |
      ⟨⟨k, -, -, rfl⟩, -, ⟨-, hstk⟩ | ⟨nf, nf', hv, hstk, -, hcmp, -⟩⟩
    · intro st nf hst hnf
      rw [hstk] at hst
      cases hst
      exact happ st0 k hst0 nf hnf
    · intro st nf hst hnf
      rw [hstk] at hst
      cases hst
      exact happ st0 _ hst0 nf hnf
    · intro st nf1 hst hnf
      rw [hstk] at hst
      cases hst
      rcases List.mem_or_eq_of_mem_set hnf with hmem | rfl
      · exact happ st0 _ hst0 nf1 hmem
      · rw [hcmp]
        simp only [Option.getD_none]
        obtain ⟨h0, -⟩ := sk_value_some_bounds _ _ nf hv
        rw [sk_value_eq _ _ h0] at hv
        exact happ st0 _ hst0 nf (List.getElem?_mem hv)

/-! ## One entry for each type and name (C16) -/

/-- One call that leaves the default handlers in place keeps `strcmp` in every
handler record and the table well formed. -/
theorem step_tableWF (lh_strhash : String → Nat) (r r' : Registry) (op : Op)
    (id : Option Int) (hplain : op.plain)
    (hd : DefaultCmp r.name_funcs_stack)
    (hwf : ∀ lh, r.names_lh = some lh → TableWF lh)
    (h : step lh_strhash r op = some (r', id)) :
    DefaultCmp r'.name_funcs_stack ∧ ∀ lh, r'.names_lh = some lh → TableWF lh := by
  cases op with
  | init m =>
    simp only [step, Option.some.injEq, Prod.mk.injEq] at h
    rw [← h.1]
    have heq : (OBJ_NAME_init m r).1 = (names_lh_ready m r).1 := by
      unfold names_lh_ready OBJ_NAME_init
      cases r.names_lh <;> rfl
    rw [heq]
    obtain ⟨hstk, -, -, -⟩ := names_lh_ready_frame m r
    exact ⟨by rw [hstk]; exact hd, ready_tableWF m r hwf⟩
  | new_index m hf cf ff =>
    simp only [step, Option.map_eq_some', Prod.mk.injEq] at h
    obtain ⟨p, hp, rfl, -⟩ := h
    obtain ⟨rfl, rfl⟩ : hf = none ∧ cf = none := hplain
    obtain ⟨h1, h2⟩ := new_index_defaultCmp lh_strhash m r p.1 ff p.2 hd hp
    exact ⟨h1, by rw [h2]; exact hwf⟩
  | get m name type =>
    simp only [step, Option.map_eq_some', Prod.mk.injEq] at h
    obtain ⟨p, hp, rfl, -⟩ := h
    have hstk := get_stack lh_strhash m r p.1 name type p.2 hp
    refine ⟨by rw [hstk]; exact hd, ?_⟩
    rcases get_registry lh_strhash m r p.1 name type p.2 hp with h1 | ⟨-, h1⟩
    · rw [h1]; exact hwf
    · rw [h1]
      intro lh hlh
      simp only [Option.some.injEq] at hlh
      rw [← hlh]
      exact tableWF_empty _ _
  | add m name type data =>
    simp only [step, Option.map_eq_some', Prod.mk.injEq] at h
    obtain ⟨p, hp, rfl, -⟩ := h
    have hstk := add_stack lh_strhash m r p.1 name type data p.2 hp
    exact ⟨by rw [hstk]; exact hd, add_tableWF lh_strhash m r p.1 name type data p.2 hd hwf hp⟩
  | remove name type =>
    simp only [step, Option.map_eq_some', Prod.mk.injEq] at h
    obtain ⟨p, hp, rfl, -⟩ := h
    obtain ⟨hstk, -, -⟩ := remove_frame lh_strhash r p.1 name type p.2 hp
    exact ⟨by rw [hstk]; exact hd, remove_tableWF lh_strhash r p.1 name type p.2 hwf hp⟩
  | cleanup type =>
    simp only [step, Option.map_eq_some', Prod.mk.injEq] at h
    obtain ⟨r1, hp, rfl, -⟩ := h
    refine ⟨?_, cleanup_tableWF lh_strhash r r1 type hwf hp⟩
    rcases cleanup_stack lh_strhash r r1 type hp with h1 | h1
    · rw [h1]; exact hd
    · rw [h1]
      intro st nf hst
      cases hst

theorem run_tableWF (lh_strhash : String → Nat) :
    ∀ ops r r' ids, (∀ op ∈ ops, Op.plain op) → DefaultCmp r.name_funcs_stack →
      (∀ lh, r.names_lh = some lh → TableWF lh) →
      run lh_strhash r ops = some (r', ids) →
      DefaultCmp r'.name_funcs_stack ∧ ∀ lh, r'.names_lh = some lh → TableWF lh := by
  intro ops
  induction ops with
  | nil =>
    intro r r' ids _ hd hwf h
    simp only [run, Option.some.injEq, Prod.mk.injEq] at h
    rw [← h.1]
    exact ⟨hd, hwf⟩
  | cons op ops ih =>
    intro r r' ids hplain hd hwf h
    unfold run at h
    split at h
    · cases h
    · rename_i r1 id hstep
      split at h
      · cases h
      · rename_i r2 ids' hrun
        simp only [Option.some.injEq, Prod.mk.injEq] at h
        rw [← h.1]
        obtain ⟨hd1, hwf1⟩ := step_tableWF lh_strhash r r1 op id
          (hplain op (List.mem_cons_self _ _)) hd hwf hstep
        exact ih r1 r2 ids' (fun o ho => hplain o (List.mem_cons_of_mem _ ho)) hd1 hwf1 hrun

/-- An `OBJ_NAME_add` that returns 1 for a key under which the table holds an
entry replaces that entry: the table keeps its length and the lookup of the
key gives the new entry. -/
theorem add_replaces_found (lh_strhash : String → Nat) (m : Mem) (r r' : Registry)
    (lh : LHASH) (name : String) (type : Int) (data : String) (e : OBJ_NAME)
    (hd : DefaultCmp r.name_funcs_stack)
    (hlh : r.names_lh = some lh)
    (he : table_lookup lh_strhash r lh (Int.land type (Int.lnot OBJ_NAME_ALIAS)) name =
      some (some e))
    (hadd : OBJ_NAME_add lh_strhash m r name type data = some (r', 1)) :
    ∃ lh', r'.names_lh = some lh' ∧ lh'.items.length = lh.items.length ∧
      table_lookup lh_strhash r' lh' (Int.land type (Int.lnot OBJ_NAME_ALIAS)) name =
        some (some (onp_of name type data)) := by
  obtain ⟨lh0, hlh0, -, hh, hc⟩ := add_success_cases lh_strhash m r r' name type data hadd
  rw [names_lh_ready_some m r lh hlh] at hlh0
  simp only at hlh0
  rw [hlh] at hlh0
  cases hlh0
  obtain ⟨-, hg⟩ := (retrieve_some_iff _ _ _ _ _).mp he
  have hfun : (fun a => obj_name_cmp r.name_funcs_stack a
      (key_of name (Int.land type (Int.lnot OBJ_NAME_ALIAS)))) =
      (fun a => obj_name_cmp r.name_funcs_stack a (onp_of name type data)) :=
    funext (fun a => obj_name_cmp_congr _ a _ _ rfl rfl)
  rw [hfun] at hg
  have hcmp : obj_name_cmp r.name_funcs_stack (onp_of name type data) (onp_of name type data)
      = some 0 :=
    obj_name_cmp_same lh_strhash _ _ _ rfl rfl (reflAt_of_defaultCmp _ hd _ _) hh
  obtain ⟨items1, hrep1, hlen1, -⟩ := lh_replace_found
    (fun a => obj_name_cmp r.name_funcs_stack a (onp_of name type data))
    (onp_of name type data) hcmp lh.items e hg
  rcases hc with ⟨items', old, hrep, hfree⟩ | ⟨items', hrep, -, -⟩
  · rw [hrep1] at hrep
    simp only [Option.some.injEq, Prod.mk.injEq] at hrep
    obtain ⟨rfl, -⟩ := hrep
    obtain ⟨h1, h2, -, -⟩ := free_things_frame _ _ _ hfree
    refine ⟨_, h1, hlen1, ?_⟩
    unfold table_lookup
    rw [h2]
    exact retrieve_of_getrn lh_strhash r.name_funcs_stack _ (onp_of name type data) _ _
      rfl rfl hh (lh_getrn_replace
        (fun a => obj_name_cmp r.name_funcs_stack a (onp_of name type data)) _ hcmp _ _ _ hrep1)
  · rw [hrep1] at hrep
    simp at hrep

/-- C16: after every sequence of calls from the initial state that leaves the
default handlers in place, the table holds at most one entry for each pair of
a type and a name, and the type of every stored entry has the alias bit clear.
On such a registry, an `OBJ_NAME_add(name, type | OBJ_NAME_ALIAS, d2)` that
returns 1 for a name stored at the type replaces the stored entry: the number
of entries is as before, the table is still well formed and the lookup gives
the new alias entry. -/
theorem C16_one_entry_per_key (lh_strhash : String → Nat) (ops : List Op) (r : Registry)
    (ids : List Int) (hplain : ∀ op ∈ ops, Op.plain op)
    (hrun : run lh_strhash Registry.initial ops = some (r, ids)) :
    (∀ lh, r.names_lh = some lh → TableWF lh) ∧
    ∀ (m : Mem) (name : String) (type : Int) (d2 : String) (lh : LHASH) (e : OBJ_NAME)
      (r' : Registry), r.names_lh = some lh →
      table_lookup lh_strhash r lh (Int.land type (Int.lnot OBJ_NAME_ALIAS)) name =
        some (some e) →
      OBJ_NAME_add lh_strhash m r name (Int.lor type OBJ_NAME_ALIAS) d2 = some (r', 1) →
      ∃ lh', r'.names_lh = some lh' ∧ lh'.items.length = lh.items.length ∧ TableWF lh' ∧
        table_lookup lh_strhash r' lh' (Int.land type (Int.lnot OBJ_NAME_ALIAS)) name =
          some (some ⟨Int.land type (Int.lnot OBJ_NAME_ALIAS), OBJ_NAME_ALIAS, name, d2⟩) := by
  obtain ⟨hd, hwf⟩ := run_tableWF lh_strhash ops Registry.initial r ids hplain
    (fun st nf h => by cases h) (fun lh h => by cases h) hrun
  refine ⟨hwf, ?_⟩
  intro m name type d2 lh e r' hlh he hadd
  have he' : table_lookup lh_strhash r lh
      (Int.land (Int.lor type OBJ_NAME_ALIAS) (Int.lnot OBJ_NAME_ALIAS)) name =
      some (some e) := by
    rw [land_lor_lnot]
    exact he
  obtain ⟨lh', h1, h2, h3⟩ := add_replaces_found lh_strhash m r r' lh name
    (Int.lor type OBJ_NAME_ALIAS) d2 e hd hlh he' hadd
  refine ⟨lh', h1, h2, add_tableWF lh_strhash m r r' name _ d2 1 hd hwf hadd lh' h1, ?_⟩
  rw [land_lor_lnot] at h3
  rw [h3]
  unfold onp_of
  rw [land_lor_lnot, land_lor_self]

theorem sample_adds_run :
    run hash_len Registry.initial sample_adds = some (registry_of [⟨1, 0, "y", "d2"⟩], []) := by
  have h1 : step hash_len Registry.initial (Op.add Mem.ok "x" 1 "d1") =
      some (registry_of [⟨1, 0, "x", "d1"⟩], none) := by
    unfold step OBJ_NAME_add
    simp only [land_lnot_1]
    rfl
  have h2 : step hash_len (registry_of [⟨1, 0, "x", "d1"⟩]) (Op.add Mem.ok "y" 1 "d2") =
      some (registry_of [⟨1, 0, "x", "d1"⟩, ⟨1, 0, "y", "d2"⟩], none) := by
    unfold step OBJ_NAME_add
    simp only [land_lnot_1]
    rfl
  have h3 : step hash_len (registry_of [⟨1, 0, "x", "d1"⟩, ⟨1, 0, "y", "d2"⟩])
      (Op.remove "x" 1) = some (registry_of [⟨1, 0, "y", "d2"⟩], none) := by
    unfold step OBJ_NAME_remove
    simp only [land_lnot_1]
    rfl
  simp only [sample_adds, run, h1, h2, h3]

/-- C16, witness: after two additions and a removal the table holds one entry;
adding an alias under its name replaces it. -/
theorem C16_witness :
    TableWF (table_of [⟨1, 0, "y", "d2"⟩]) ∧
    ∃ lh', (registry_of [⟨1, OBJ_NAME_ALIAS, "y", "t"⟩]).names_lh = some lh' ∧
      lh'.items.length = (table_of [⟨1, 0, "y", "d2"⟩]).items.length ∧ TableWF lh' ∧
      table_lookup hash_len (registry_of [⟨1, OBJ_NAME_ALIAS, "y", "t"⟩]) lh'
        (Int.land 1 (Int.lnot OBJ_NAME_ALIAS)) "y" =
          some (some ⟨Int.land 1 (Int.lnot OBJ_NAME_ALIAS), OBJ_NAME_ALIAS, "y", "t"⟩) :=
  have h := C16_one_entry_per_key hash_len sample_adds (registry_of [⟨1, 0, "y", "d2"⟩]) []
    (fun op hop => by
      simp only [sample_adds, List.mem_cons, List.mem_singleton, List.not_mem_nil,
        or_false] at hop
      rcases hop with rfl | rfl | rfl <;> trivial)
    sample_adds_run
  ⟨h.1 _ rfl, h.2 Mem.ok "y" 1 "t" (table_of [⟨1, 0, "y", "d2"⟩]) ⟨1, 0, "y", "d2"⟩
    (registry_of [⟨1, OBJ_NAME_ALIAS, "y", "t"⟩]) rfl
    (by rw [land_lnot_1]; rfl)
    (by
      unfold OBJ_NAME_add
      simp only [land_lor_lnot, land_lor_self, land_lnot_1]
      rfl)⟩

/-! ## Cleanup of every type (C11) -/

/-- The sweep of `OBJ_NAME_cleanup` with a negative type: every entry still to
visit is removed and freed, and the table is left empty. -/
theorem doall_sweep_all (lh_strhash : String → Nat) (fr : OBJ_NAME → Option Nat) :
    ∀ todo (rc : Registry) (lhc : LHASH),
      rc.names_lh = some lhc → lhc.items = todo → rc.free_type < 0 →
      (rc.name_funcs_stack = none ∨ ∀ e ∈ todo, 0 ≤ e.type) →
      (∀ e ∈ todo, Int.land e.type OBJ_NAME_ALIAS = 0 ∧
        ReflAt rc.name_funcs_stack e.type e.name ∧
        FreeAt rc.name_funcs_stack e.type (fr e)) →
      ∃ r', lh_OBJ_NAME_doall (names_lh_free_doall lh_strhash) todo rc = some r' ∧
        r'.names_lh = some { lhc with items := [] } ∧
        r'.name_funcs_stack = rc.name_funcs_stack ∧
        r'.names_type_num = rc.names_type_num ∧ r'.free_type = rc.free_type ∧
        r'.calls = rc.calls ++ free_calls_all fr todo := by
  intro todo
  induction todo with
  | nil =>
    intro rc lhc hlh hitems _ _ _
    refine ⟨rc, rfl, ?_, rfl, rfl, rfl, by simp [free_calls_all]⟩
    rw [hlh, ← hitems]
  | cons e es ih =>
    intro rc lhc hlh hitems hft hhash hwf
    obtain ⟨hbit, hrefl, hfree⟩ := hwf e (List.mem_cons_self _ _)
    have hty : Int.land e.type (Int.lnot OBJ_NAME_ALIAS) = e.type :=
      land_lnot_of_land_eq_zero _ _ hbit
    have hh : obj_name_hash lh_strhash rc.name_funcs_stack (key_of e.name e.type) ≠ none := by
      rw [Ne, obj_name_hash_eq_none]
      rintro ⟨st, hst, hneg⟩
      rcases hhash with h | h
      · rw [h] at hst; cases hst
      · have h1 := h e (List.mem_cons_self _ _)
        have h2 : (key_of e.name e.type).type = e.type := rfl
        omega
    have hee : obj_name_cmp rc.name_funcs_stack e (key_of e.name e.type) = some 0 :=
      obj_name_cmp_same lh_strhash rc.name_funcs_stack e (key_of e.name e.type) rfl rfl
        hrefl hh
    have hun := lh_unlink_skip (fun a => obj_name_cmp rc.name_funcs_stack a
      (key_of e.name e.type)) e es hee [] (fun a ha => by cases ha)
    simp only [List.nil_append] at hun
    have hrem := remove_eval lh_strhash rc lhc e.name e.type es (some e) hlh
      (by rw [hty]; exact hh) (by rw [hty, hitems]; exact hun)
    simp only at hrem
    rw [free_things_at { rc with names_lh := some { lhc with items := es } } e (fr e) hfree]
      at hrem
    have hstep : names_lh_free_doall lh_strhash rc e =
        some { rc with names_lh := some { lhc with items := es },
                       calls := rc.calls ++ free_calls (fr e) [e] } := by
      unfold names_lh_free_doall
      simp only [Or.inl hft, if_true, hrem, Option.map_some']
    unfold lh_OBJ_NAME_doall
    rw [hstep]
    obtain ⟨r', hr', h2lh, h2stk, h2num, h2ft, h2calls⟩ :=
      ih { rc with names_lh := some { lhc with items := es },
                   calls := rc.calls ++ free_calls (fr e) [e] }
        { lhc with items := es } rfl rfl hft
        (by
          rcases hhash with h | h
          · exact Or.inl h
          · exact Or.inr (fun a ha => h a (List.mem_cons_of_mem _ ha)))
        (fun a ha => hwf a (List.mem_cons_of_mem _ ha))
    refine ⟨r', hr', h2lh, h2stk, h2num, h2ft, ?_⟩
    rw [h2calls]
    simp [free_calls_all, List.append_assoc]

/-- The result of `OBJ_NAME_cleanup` with a negative type, from the result of
its sweep. -/
theorem cleanup_all_of_sweep (lh_strhash : String → Nat) (r : Registry) (lh : LHASH) (t : Int)
    (r1 : Registry) (hlh : r.names_lh = some lh) (ht : t < 0)
    (hr1 : lh_OBJ_NAME_doall (names_lh_free_doall lh_strhash) lh.items
      (set_down_load { r with free_type := t } 0) = some r1) :
    OBJ_NAME_cleanup lh_strhash r t =
      some { r1 with names_lh := none, name_funcs_stack := none } := by
  unfold OBJ_NAME_cleanup
  rw [hlh] at hr1
  simp only [hlh]
  rw [hr1]
  simp [ht]

/-- C11 (amended): on a registry with a table, `OBJ_NAME_cleanup` with a
negative type returns; its sweep removes every entry and calls the free
function of each; then the table and the handler list are gone and the counter
is as before. After it `OBJ_NAME_init` returns 1 when the allocation of the
table succeeds, and `OBJ_NAME_get` returns the null pointer for every name and
type. The stored types have the alias bit clear and can be hashed, the
comparison functions return 0 on equal names, and a handler record of a stored
type has a free function. -/
theorem C11_cleanup_all (lh_strhash : String → Nat) (r : Registry) (lh : LHASH) (t : Int)
    (fr : OBJ_NAME → Option Nat)
    (hlh : r.names_lh = some lh) (ht : t < 0)
    (hhash : r.name_funcs_stack = none ∨ ∀ e ∈ lh.items, 0 ≤ e.type)
    (hwf : ∀ e ∈ lh.items, Int.land e.type OBJ_NAME_ALIAS = 0 ∧
      ReflAt r.name_funcs_stack e.type e.name ∧ FreeAt r.name_funcs_stack e.type (fr e)) :
    ∃ r', OBJ_NAME_cleanup lh_strhash r t = some r' ∧
      (∃ r1, lh_OBJ_NAME_doall (names_lh_free_doall lh_strhash) lh.items
          (set_down_load { r with free_type := t } 0) = some r1 ∧ r1.entries = []) ∧
      r'.names_lh = none ∧ r'.name_funcs_stack = none ∧
      r'.names_type_num = r.names_type_num ∧
      r'.calls = r.calls ++ free_calls_all fr lh.items ∧
      (∀ m : Mem, m.lh_new = true →
        OBJ_NAME_init m r' = ({ r' with names_lh := some ⟨[], DOWN_LOAD, 0⟩ }, 1)) ∧
      (∀ (m : Mem) (name : String) (type : Int),
        ∃ r'', OBJ_NAME_get lh_strhash m r' (some name) type = some (r'', none)) := by
  obtain ⟨r1, hr1, h1lh, h1stk, h1num, h1ft, h1calls⟩ :=
    doall_sweep_all lh_strhash fr lh.items
      (set_down_load { r with free_type := t } 0) { lh with down_load := 0 }
      (by simp [set_down_load, hlh]) rfl ht hhash hwf
  refine ⟨{ r1 with names_lh := none, name_funcs_stack := none }, ?_, ⟨r1, hr1, ?_⟩, rfl, rfl,
    h1num, h1calls, ?_, ?_⟩
  · exact cleanup_all_of_sweep lh_strhash r lh t r1 hlh ht hr1
  · unfold Registry.entries
    rw [h1lh]
  · intro m hm
    unfold OBJ_NAME_init lh_OBJ_NAME_new
    simp [hm]
  · intro m name type
    unfold OBJ_NAME_get
    by_cases hnew : m.lh_new = true
    · refine ⟨{ r1 with names_lh := some ⟨[], DOWN_LOAD, 0⟩, name_funcs_stack := none }, ?_⟩
      simp only [names_lh_ready, OBJ_NAME_init, lh_OBJ_NAME_new, hnew, if_true]
      simp only [Option.isSome_some, if_true, one_ne_zero, if_false]
      rw [get_loop_not_found]
      · rfl
      · refine (retrieve_some_iff _ _ _ _ _).mpr ⟨?_, rfl⟩
        rw [Ne, obj_name_hash_eq_none]
        rintro ⟨st, hst, -⟩
        cases hst
    · refine ⟨{ r1 with names_lh := none, name_funcs_stack := none }, ?_⟩
      simp [names_lh_ready, OBJ_NAME_init, lh_OBJ_NAME_new, hnew]

/-- C11, witness: the cleanup of every type on a table with two entries of the
registered type 5. -/
theorem C11_witness :
    ∃ r', OBJ_NAME_cleanup hash_len
        (registry_dyn [⟨5, 0, "x", "d1"⟩, ⟨5, 0, "y", "d2"⟩]) (-1) = some r' ∧
      (∃ r1, lh_OBJ_NAME_doall (names_lh_free_doall hash_len)
          [⟨5, 0, "x", "d1"⟩, ⟨5, 0, "y", "d2"⟩]
          (set_down_load { registry_dyn [⟨5, 0, "x", "d1"⟩, ⟨5, 0, "y", "d2"⟩] with
            free_type := -1 } 0) = some r1 ∧ r1.entries = []) ∧
      r'.names_lh = none ∧ r'.name_funcs_stack = none ∧
      r'.names_type_num = 6 ∧
      r'.calls = [⟨7, "x", 5, "d1"⟩, ⟨7, "y", 5, "d2"⟩] ∧
      (∀ m : Mem, m.lh_new = true →
        OBJ_NAME_init m r' = ({ r' with names_lh := some ⟨[], DOWN_LOAD, 0⟩ }, 1)) ∧
      (∀ (m : Mem) (name : String) (type : Int),
        ∃ r'', OBJ_NAME_get hash_len m r' (some name) type = some (r'', none)) :=
  C11_cleanup_all hash_len (registry_dyn [⟨5, 0, "x", "d1"⟩, ⟨5, 0, "y", "d2"⟩])
    (table_of [⟨5, 0, "x", "d1"⟩, ⟨5, 0, "y", "d2"⟩]) (-1) (fun _ => some 7)
    rfl (by decide)
    (Or.inr (fun e he => by
      simp only [table_of, List.mem_cons, List.mem_singleton, List.not_mem_nil, or_false] at he
      rcases he with rfl | rfl <;> decide))
    (fun e he => by
      simp only [table_of, List.mem_cons, List.mem_singleton, List.not_mem_nil, or_false] at he
      rcases he with rfl | rfl
      · exact ⟨by decide, reflAt_sample_stack 5 "x", sample_stack, _, rfl, rfl, rfl⟩
      · exact ⟨by decide, reflAt_sample_stack 5 "y", sample_stack, _, rfl, rfl, rfl⟩)

/-- C11, counterexample: after the cleanup of every type the table is gone, and
an `OBJ_NAME_init` whose allocation of the table fails returns 0 and leaves
the registry without a table. -/
theorem C11_counterexample :
    ∃ r', OBJ_NAME_cleanup hash_len (registry_of [⟨1, 0, "md5", "m"⟩]) (-1) = some r' ∧
      r'.names_lh = none ∧ OBJ_NAME_init Mem.no_table r' = (r', 0) := by
  obtain ⟨r1, hr1, h1lh, h1stk, h1num, h1ft, h1calls⟩ :=
    doall_sweep_all hash_len (fun _ => none) [⟨1, 0, "md5", "m"⟩]
      (set_down_load { registry_of [⟨1, 0, "md5", "m"⟩] with free_type := -1 } 0)
      { table_of [⟨1, 0, "md5", "m"⟩] with down_load := 0 }
      rfl rfl (by decide) (Or.inl rfl)
      (fun e he => by
        simp only [List.mem_singleton] at he
        subst he
        refine ⟨by decide, ?_, ?_⟩
        · intro st nf hst
          cases hst
        · intro st hst
          cases hst)
  refine ⟨{ r1 with names_lh := none, name_funcs_stack := none }, ?_, rfl, ?_⟩
  · exact cleanup_all_of_sweep hash_len (registry_of [⟨1, 0, "md5", "m"⟩])
      (table_of [⟨1, 0, "md5", "m"⟩]) (-1) r1 rfl (by decide) hr1
  · rfl

/-! ## Sample enumerations and initialisations (C12, C18, C20) -/

/-- C12, witness: the enumeration of kind 1 of the sample table visits its
three entries of kind 1 in table order and not the entry of kind 2. -/
theorem C12_witness :
    (OBJ_NAME_do_all (registry_of sample_names) 1 visit_log []).2 =
      [⟨1, 0, "b", "1"⟩, ⟨1, 0, "a", "3"⟩, ⟨1, 0, "ab", "4"⟩] :=
  (C12_do_all_visits (registry_of sample_names) 1 visit_log []).2.1

/-- C18, witness: `OBJ_NAME_init` on the sample table, and twice on the initial
state. -/
theorem C18_witness :
    OBJ_NAME_init Mem.ok (registry_of sample_names) = (registry_of sample_names, 1) ∧
    OBJ_NAME_init Mem.ok (OBJ_NAME_init Mem.ok Registry.initial).1 =
      (registry_of [], 1) ∧
    OBJ_NAME_init Mem.no_table (OBJ_NAME_init Mem.no_table Registry.initial).1 =
      (Registry.initial, 0) :=
  ⟨(C18_init_idempotent Mem.ok Mem.ok (registry_of sample_names)).1 _ rfl,
    (C18_init_idempotent Mem.ok Mem.ok Registry.initial).2.2,
    (C18_init_idempotent Mem.no_table Mem.no_table Registry.initial).2.2⟩

/-- C20, witness: the collection of kind 1 over the sample table of four
entries stays within the array of four slots. -/
theorem C20_witness :
    ∃ d base, (OBJ_NAME_do_all (registry_of sample_names) 1 do_all_sorted_fn
        (some ⟨1, 0, List.replicate 4 none⟩)).2 = some d ∧
      d.n ≤ 4 ∧ d.names.length = 4 ∧
      read_names d.names d.n = some base ∧ base.length = d.n :=
  (C20_collection_in_bounds Mem.ok (registry_of sample_names) 1 0).2.1

/-! ## The defects at concrete inputs (C9, C10, C15) -/

/-- The sample registration returns 5 and builds the sample handler list. -/
theorem sample_register_step :
    step hash_len Registry.initial (Op.new_index Mem.ok none none (some 7)) =
      some (⟨none, 6, some sample_stack, 0, []⟩, some 5) := by
  rfl

/-- The sample addition, which creates the table. -/
theorem sample_add_step :
    step hash_len ⟨none, 6, some sample_stack, 0, []⟩ (Op.add Mem.ok "md5" 1 "m") =
      some (registry_dyn [⟨1, 0, "md5", "m"⟩], none) := by
  unfold step OBJ_NAME_add
  simp only [land_lnot_1]
  rfl

/-- The registry after the sample registration and addition: the handler list
has a record for the built-in type 1, without a free function, and the table
holds the entry of type 1. -/
theorem sample_register_add_run :
    run hash_len Registry.initial sample_register_add =
      some (registry_dyn [⟨1, 0, "md5", "m"⟩], [5]) := by
  simp only [sample_register_add, run, sample_register_step, sample_add_step]

theorem sample_register_add_lookup :
    table_lookup hash_len (registry_dyn [⟨1, 0, "md5", "m"⟩])
      (table_of [⟨1, 0, "md5", "m"⟩]) (Int.land 1 (Int.lnot OBJ_NAME_ALIAS)) "md5" =
      some (some ⟨1, 0, "md5", "m"⟩) := by
  rw [land_lnot_1]
  rfl

/-- The null free function at an overwrite: after `OBJ_NAME_new_index(NULL,
NULL, f)` and `OBJ_NAME_add("md5", 1, "m")` the table holds the entry under the key,
and the handler list has a record for the type 1 whose free function is the
null pointer. `OBJ_NAME_add("md5", 1, "m2")` replaces the entry in the table
and then calls that null pointer: it has no result. -/
theorem overwrite_calls_null_sample :
    run hash_len Registry.initial sample_register_add =
      some (registry_dyn [⟨1, 0, "md5", "m"⟩], [5]) ∧
    table_lookup hash_len (registry_dyn [⟨1, 0, "md5", "m"⟩])
      (table_of [⟨1, 0, "md5", "m"⟩]) (Int.land 1 (Int.lnot OBJ_NAME_ALIAS)) "md5" =
      some (some ⟨1, 0, "md5", "m"⟩) ∧
    (∃ nf, sk_NAME_FUNCS_value sample_stack 1 = some nf ∧ nf.free_func = none) ∧
    OBJ_NAME_add hash_len Mem.ok (registry_dyn [⟨1, 0, "md5", "m"⟩]) "md5" 1 "m2" = none := by
  refine ⟨sample_register_add_run, sample_register_add_lookup, ⟨_, rfl, rfl⟩, ?_⟩
  unfold OBJ_NAME_add
  simp only [land_lnot_1]
  rfl

/-- C15, the defect at a concrete input: after `OBJ_NAME_new_index(NULL, NULL,
f)` and `OBJ_NAME_add("md5", 1, "m")` the table exists and holds the entry
under the key, and `OBJ_NAME_get` returns its data; `OBJ_NAME_remove("md5",
1)` unlinks the entry and then calls the null free function of the record of
type 1: it has no result, and does not return 1. -/
theorem C15_remove_calls_null :
    run hash_len Registry.initial sample_register_add =
      some (registry_dyn [⟨1, 0, "md5", "m"⟩], [5]) ∧
    table_lookup hash_len (registry_dyn [⟨1, 0, "md5", "m"⟩])
      (table_of [⟨1, 0, "md5", "m"⟩]) (Int.land 1 (Int.lnot OBJ_NAME_ALIAS)) "md5" =
      some (some ⟨1, 0, "md5", "m"⟩) ∧
    OBJ_NAME_get hash_len Mem.ok (registry_dyn [⟨1, 0, "md5", "m"⟩]) (some "md5") 1 =
      some (registry_dyn [⟨1, 0, "md5", "m"⟩], some "m") ∧
    OBJ_NAME_remove hash_len (registry_dyn [⟨1, 0, "md5", "m"⟩]) "md5" 1 = none ∧
    ¬ ∃ r', OBJ_NAME_remove hash_len (registry_dyn [⟨1, 0, "md5", "m"⟩]) "md5" 1 =
      some (r', 1) := by
  have hrem : OBJ_NAME_remove hash_len (registry_dyn [⟨1, 0, "md5", "m"⟩]) "md5" 1 = none := by
    unfold OBJ_NAME_remove
    simp only [land_lnot_1]
    rfl
  refine ⟨sample_register_add_run, sample_register_add_lookup, ?_, hrem, ?_⟩
  · rw [get_of_table hash_len Mem.ok _ (table_of [⟨1, 0, "md5", "m"⟩]) "md5" 1 rfl, land_lnot_1,
      get_loop_direct hash_len (registry_dyn [⟨1, 0, "md5", "m"⟩])
        (table_of [⟨1, 0, "md5", "m"⟩]) 1
        (Int.land 1 OBJ_NAME_ALIAS) "md5" 0 ⟨1, 0, "md5", "m"⟩ rfl (by decide)]
    rfl
  · rintro ⟨r', h⟩
    rw [hrem] at h
    cases h

/-- C10, the defect at a concrete input: after `OBJ_NAME_new_index(NULL, NULL,
f)` and `OBJ_NAME_add("md5", 1, "m")`, `OBJ_NAME_cleanup(1)` visits the entry
of type 1 and `OBJ_NAME_remove` calls the null free function of the record of
type 1: the cleanup has no result. -/
theorem C10_cleanup_calls_null :
    run hash_len Registry.initial sample_register_add =
      some (registry_dyn [⟨1, 0, "md5", "m"⟩], [5]) ∧
    (∃ nf, sk_NAME_FUNCS_value sample_stack 1 = some nf ∧ nf.free_func = none) ∧
    names_lh_free_doall hash_len
      (set_down_load { registry_dyn [⟨1, 0, "md5", "m"⟩] with free_type := 1 } 0)
      ⟨1, 0, "md5", "m"⟩ = none ∧
    OBJ_NAME_cleanup hash_len (registry_dyn [⟨1, 0, "md5", "m"⟩]) 1 = none := by
  refine ⟨sample_register_add_run, ⟨_, rfl, rfl⟩, ?_, ?_⟩
  · unfold names_lh_free_doall OBJ_NAME_remove
    simp only [land_lnot_1]
    rfl
  · unfold OBJ_NAME_cleanup
    simp only [registry_dyn, table_of, lh_OBJ_NAME_doall, names_lh_free_doall, OBJ_NAME_remove,
      land_lnot_1]
    rfl

/-- The null free function at a cleanup of every type: after
`OBJ_NAME_new_index(NULL, NULL, f)` and `OBJ_NAME_add("md5", 1, "m")`, `OBJ_NAME_cleanup(-1)` visits the entry
and `OBJ_NAME_remove` calls the null free function of the record of type 1:
the cleanup has no result, and the table and the handler list are not
destroyed. -/
theorem cleanup_all_calls_null_sample :
    run hash_len Registry.initial sample_register_add =
      some (registry_dyn [⟨1, 0, "md5", "m"⟩], [5]) ∧
    names_lh_free_doall hash_len
      (set_down_load { registry_dyn [⟨1, 0, "md5", "m"⟩] with free_type := -1 } 0)
      ⟨1, 0, "md5", "m"⟩ = none ∧
    OBJ_NAME_cleanup hash_len (registry_dyn [⟨1, 0, "md5", "m"⟩]) (-1) = none ∧
    run hash_len Registry.initial (sample_register_add ++ [Op.cleanup (-1)]) = none := by
  have hc : OBJ_NAME_cleanup hash_len (registry_dyn [⟨1, 0, "md5", "m"⟩]) (-1) = none := by
    unfold OBJ_NAME_cleanup
    simp only [registry_dyn, table_of, lh_OBJ_NAME_doall, names_lh_free_doall, OBJ_NAME_remove,
      land_lnot_1]
    rfl
  refine ⟨sample_register_add_run, ?_, hc, ?_⟩
  · unfold names_lh_free_doall OBJ_NAME_remove
    simp only [land_lnot_1]
    rfl
  · have h3 : step hash_len (registry_dyn [⟨1, 0, "md5", "m"⟩]) (Op.cleanup (-1)) = none := by
      unfold step
      simp only [hc]
      rfl
    simp only [sample_register_add, List.cons_append, List.nil_append, run,
      sample_register_step, sample_add_step, h3]

/-- C9, the defect at a concrete input: the first `OBJ_NAME_new_index` on the
initial state, when the push of the record for the new id 5 fails. With three
null arguments the call returns 5 and the handler list has the records 0 to 4
and none for the id 5. With a function to store the call assigns through the
null pointer that `sk_NAME_FUNCS_value` returned for 5: it has no result. -/
theorem C9_push_result_ignored :
    (∃ r' st', OBJ_NAME_new_index hash_len Mem.no_push Registry.initial none none none =
        some (r', 5) ∧
      r'.name_funcs_stack = some st' ∧ sk_NAME_FUNCS_num st' = 5 ∧
      sk_NAME_FUNCS_value st' 5 = none) ∧
    OBJ_NAME_new_index hash_len Mem.no_push Registry.initial none none (some 7) = none ∧
    OBJ_NAME_new_index hash_len Mem.no_push Registry.initial (some hash_len) none none =
      none ∧
    OBJ_NAME_new_index hash_len Mem.no_push Registry.initial none (some strcmp) none =
      none :=
  ⟨⟨_, _, rfl, rfl, rfl, rfl⟩, rfl, rfl, rfl⟩

end ONames
